import Mathlib

/-!
The slot ring of `concurrency_module`, shared by the timer callback and the button handler.

Shallow embedding of `src/concurrency_module.c`.

* The kernel list `locked_list_head.list_head` is a `List list_data`, read from the
  list head forward; the head of the Lean list is `list_first_entry`.
* `int number` and `ktime_t time` are `Int`; the counter `cur_num` is kept inside the
  32-bit two's-complement range by `int_wrap` (kernel builds use `-fno-strict-overflow`,
  so `++cur_num` wraps).
* `unsigned long` values are `Nat` reduced modulo `2 ^ BITS_PER_LONG`.
* The spinlock is not part of the sequential state: every function below is the body of
  one critical section (plus the straight-line code around it), run atomically.
-/

namespace ConcurrencyModule

/-! ## Data model -/

/-- Number of slots allocated by `concurrency_module_init` (`#define NUM 5`). -/
def NUM : Nat := 5

/-- One slot, `list_data_t` without its `list_node` link: the link is the position in the
Lean list. -/
structure list_data where
  number : Int
  time : Int
deriving DecidableEq, Repr

/-- The macro `IS_NULL(ptr)`: `ptr->number == 0 && ptr->time == 0`. -/
def IS_NULL (ptr : list_data) : Bool :=
  ptr.number == 0 && ptr.time == 0

/-- Kernel `list_add_tail(new, head)`: the new entry becomes the last one. -/
def list_add_tail (new : list_data) (head : List list_data) : List list_data :=
  head ++ [new]

/-- Kernel `list_rotate_left(head)`: the first entry is moved to the tail; nothing
happens on an empty list. -/
def list_rotate_left : List list_data → List list_data
  | [] => []
  | first :: rest => rest ++ [first]

/-- Reduction of a mathematical integer to the value of a C `int` (32-bit two's
complement). -/
def int_wrap (x : Int) : Int :=
  (x + 2147483648) % 4294967296 - 2147483648

/-! ## Consumer: `button_thread` -/

/-- Locals of `button_thread` after the `list_for_each_entry` loop, with the list as the
loop left it. `time` is declared without initialiser, so it is `none` until assigned. -/
structure scan_result where
  list : List list_data
  num : Int
  time : Option Int
deriving DecidableEq, Repr

/-- The loop of `button_thread` (lines 68-77): walk from the head; at the first entry that
is not `IS_NULL`, copy `number` and `time` into the locals, zero both fields in place and
`break`. Entries before it are left as they are, entries after it are not visited. -/
def button_thread_scan : List list_data → scan_result
  | [] => { list := [], num := 0, time := none }
  | ptr :: rest =>
    if IS_NULL ptr = false then
      { list := { number := 0, time := 0 } :: rest, num := ptr.number, time := some ptr.time }
    else
      let r := button_thread_scan rest
      { list := ptr :: r.list, num := r.num, time := r.time }

/-- The message printed by `button_thread` after the lock is released. -/
inductive button_report where
  /-- "Element with num: %i, time: %lld" with the two locals. -/
  | element (num : Int) (time : Option Int)
  /-- "Filled element does not exist". -/
  | not_exist
deriving DecidableEq, Repr

/-- The handler `button_thread`: the scan under the lock, then `if (num)` selects the
message. Returns the list after the call and the message. -/
def button_thread (l : List list_data) : List list_data × button_report :=
  let r := button_thread_scan l
  (r.list, if r.num ≠ 0 then button_report.element r.num r.time else button_report.not_exist)

/-! ## Producer: `timer_callback` -/

/-- The message printed inside the critical section of `timer_callback`. -/
inductive timer_report where
  /-- "Initializing ptr" / "ptr initialized": the slot was written. -/
  | initialized
  /-- "list overflow with num: %i". -/
  | overflow (num : Int)
deriving DecidableEq, Repr

/-- The critical section of `timer_callback` (lines 125-138) for the values
`cur_num` and `cur_time` computed before it: take `list_first_entry`; if it is `IS_NULL`
store both values in it and rotate the list left, otherwise only report the overflow.
`list_first_entry` of an empty list is not a slot (undefined in C): `none`. -/
def timer_callback_locked (cur_num cur_time : Int) :
    List list_data → Option (List list_data × timer_report)
  | [] => none
  | ptr :: rest =>
    if IS_NULL ptr then
      some (list_rotate_left ({ number := cur_num, time := cur_time } :: rest),
        timer_report.initialized)
    else
      some (ptr :: rest, timer_report.overflow cur_num)

/-- The global `locked_list_head` (without the spinlock) together with the timer globals
`start`, `delay_in_jiffies`, `restart`; `timer_expires` is the expiry last passed to
`mod_timer`, `none` when the timer was never armed. -/
structure module_state where
  list_head : List list_data
  cur_num : Int
  start : Nat
  delay_in_jiffies : Nat
  restart : Bool
  timer_expires : Option Nat
deriving DecidableEq, Repr

/-- The whole `timer_callback`: `++locked_list_head.cur_num`, `cur_time = ktime_get()`
(the argument `cur_time`), the critical section, then the re-arming
`if (restart) { start += delay_in_jiffies; mod_timer(timer, start); }` in
`unsigned long` arithmetic of `BITS_PER_LONG` bits. -/
def timer_callback (BITS_PER_LONG : Nat) (cur_time : Int) (s : module_state) :
    Option (module_state × timer_report) :=
  let cur_num := int_wrap (s.cur_num + 1)
  match timer_callback_locked cur_num cur_time s.list_head with
  | none => none
  | some (l, rep) =>
    if s.restart then
      let start := (s.start + s.delay_in_jiffies) % 2 ^ BITS_PER_LONG
      some ({ s with list_head := l, cur_num := cur_num, start := start,
                     timer_expires := some start }, rep)
    else
      some ({ s with list_head := l, cur_num := cur_num }, rep)

/-! ## Module start -/

/-- The allocation loop of `concurrency_module_init` (lines 151-162) when every `kmalloc`
succeeds: `n` further iterations, each appending a slot with `time = 0`, `number = 0`. -/
def init_list_loop : Nat → List list_data → List list_data
  | 0, head => head
  | n + 1, head => init_list_loop n (list_add_tail { number := 0, time := 0 } head)

/-- The ring as `concurrency_module_init` leaves it: the loop run `NUM` times on the
statically initialised empty list head. -/
def init_list : List list_data := init_list_loop NUM []

/-! ## Call sequences

A sequence of Producer and Consumer critical sections, in the order in which they take
the lock. The Producer's sequence number and timestamp are given with the call. -/

/-- One invocation on the ring. -/
inductive call where
  /-- The critical section of `timer_callback` with the given `cur_num` and `cur_time`. -/
  | enqueue (number time : Int)
  /-- One run of `button_thread`. -/
  | dequeue
deriving DecidableEq, Repr

/-- What an invocation printed. -/
inductive report where
  | timer (r : timer_report)
  | button (r : button_report)
deriving DecidableEq, Repr

/-- Run one invocation on the list. -/
def step : call → List list_data → Option (List list_data × report)
  | call.enqueue number time, l =>
    match timer_callback_locked number time l with
    | none => none
    | some (l1, r) => some (l1, report.timer r)
  | call.dequeue, l => some ((button_thread l).1, report.button (button_thread l).2)

/-- Run the invocations one after the other; the trace pairs every call with its
report. -/
def run : List call → List list_data → Option (List list_data × List (call × report))
  | [], l => some (l, [])
  | c :: cs, l =>
    match step c l with
    | none => none
    | some (l1, r) =>
      match run cs l1 with
      | none => none
      | some (l2, tr) => some (l2, (c, r) :: tr)

/-- The payload of an enqueue that was written (the `IS_NULL` branch was taken). -/
def written_of : call × report → Option (Int × Option Int)
  | (call.enqueue number time, report.timer timer_report.initialized) =>
    some (number, some time)
  | _ => none

/-- The payload reported by a successful dequeue. -/
def dequeued_of : call × report → Option (Int × Option Int)
  | (_, report.button (button_report.element num time)) => some (num, time)
  | _ => none

/-- Sequence numbers of the written enqueues of a trace, in call order. -/
def written_numbers (tr : List (call × report)) : List Int :=
  (tr.filterMap written_of).map Prod.fst

/-- Sequence numbers returned by the successful dequeues of a trace, in call order. -/
def dequeued_numbers (tr : List (call × report)) : List Int :=
  (tr.filterMap dequeued_of).map Prod.fst

/-- Number of slots that are not `IS_NULL`. -/
def occupied_count (l : List list_data) : Nat :=
  l.countP (fun p => !IS_NULL p)

/-- The payload of a slot as the Consumer reports it. -/
def payload_of (p : list_data) : Int × Option Int := (p.number, some p.time)

/-- Run `button_thread` `n` times in a row; the reports are in call order. -/
def button_thread_times : Nat → List list_data → List list_data × List button_report
  | 0, l => (l, [])
  | n + 1, l =>
    let r := button_thread l
    let rs := button_thread_times n r.1
    (rs.1, r.2 :: rs.2)

/-- The enqueue call carrying the pair (sequence number, timestamp). -/
def enqueue_call (c : Int × Int) : call := call.enqueue c.1 c.2

/-- The slot contents stored by a written enqueue of the pair. -/
def slot_of (c : Int × Int) : list_data := { number := c.1, time := c.2 }

/-- The "Element with num" message for the payload of a slot. -/
def report_of (p : list_data) : button_report :=
  button_report.element p.number (some p.time)

/-- One pass over the list that zeroes the first `m` slots that are not `IS_NULL` and
leaves every other slot as it is. Used to describe the list after `m` dequeues. -/
def clear_first : Nat → List list_data → List list_data
  | 0, l => l
  | _ + 1, [] => []
  | m + 1, p :: rest =>
    if IS_NULL p then p :: clear_first (m + 1) rest
    else { number := 0, time := 0 } :: clear_first m rest

/-! ## Module-level runs

Here the Producer takes its sequence number from the counter `cur_num`, as the module
does; only the timestamp (`ktime_get()`) is an input. -/

/-- The module state in which `concurrency_module_init` returns 0: the five empty slots,
`cur_num = 0` from the static initialiser, `delay_in_jiffies = HZ * 1L`,
`start = now + delay_in_jiffies` with `now = jiffies`, the timer armed at `start`, and
`restart = true`. -/
def init_state (BITS_PER_LONG HZ jiffies : Nat) : module_state :=
  { list_head := init_list
    cur_num := 0
    start := (jiffies + HZ % 2 ^ BITS_PER_LONG) % 2 ^ BITS_PER_LONG
    delay_in_jiffies := HZ % 2 ^ BITS_PER_LONG
    restart := true
    timer_expires := some ((jiffies + HZ % 2 ^ BITS_PER_LONG) % 2 ^ BITS_PER_LONG) }

/-- An invocation delivered to the module. -/
inductive module_call where
  /-- The timer fired; `ktime_get()` returns `cur_time`. -/
  | timer_fired (cur_time : Int)
  /-- The button interrupt ran `button_thread`. -/
  | button_pressed
deriving DecidableEq, Repr

/-- Run one invocation on the module state. -/
def module_step (BITS_PER_LONG : Nat) : module_call → module_state →
    Option (module_state × report)
  | module_call.timer_fired cur_time, s =>
    match timer_callback BITS_PER_LONG cur_time s with
    | none => none
    | some (s1, r) => some (s1, report.timer r)
  | module_call.button_pressed, s =>
    some ({ s with list_head := (button_thread s.list_head).1 },
      report.button (button_thread s.list_head).2)

/-- One entry of a module trace: the call, its report, and `cur_num` after the call. -/
structure module_event where
  call : module_call
  report : report
  cur_num : Int
deriving DecidableEq, Repr

/-- Run the invocations one after the other. -/
def module_run (BITS_PER_LONG : Nat) : List module_call → module_state →
    Option (module_state × List module_event)
  | [], s => some (s, [])
  | c :: cs, s =>
    match module_step BITS_PER_LONG c s with
    | none => none
    | some (s1, r) =>
      match module_run BITS_PER_LONG cs s1 with
      | none => none
      | some (s2, tr) => some (s2, { call := c, report := r, cur_num := s1.cur_num } :: tr)

/-- The sequence number an event's Producer invocation used: the value of `cur_num` after
its `++locked_list_head.cur_num`; `none` for a Consumer invocation. -/
def used_number (e : module_event) : Option Int :=
  match e.call with
  | module_call.timer_fired _ => some e.cur_num
  | module_call.button_pressed => none

/-- The sequence numbers used by the Producer invocations of a trace, in call order. -/
def used_numbers (tr : List module_event) : List Int :=
  tr.filterMap used_number

/-- Number of Producer invocations in a call sequence. -/
def timer_count (calls : List module_call) : Nat :=
  calls.countP (fun c => c ≠ module_call.button_pressed)

/-! ## The saturation scenario -/

/-- The enqueue pairs `(1, t 1), ..., (N, t N)`. -/
def first_pairs (N : Nat) (t : Nat → Int) : List (Int × Int) :=
  (List.range N).map (fun i => (((i + 1 : Nat) : Int), t (i + 1)))

/-- The calls of the saturation scenario on `N` slots: enqueue `1..N`, enqueue `N + 1`
(at time `t_dropped`), one dequeue, enqueue `N + 1` again (at time `t (N + 1)`), then
`N + 1` dequeues. -/
def saturation_calls (N : Nat) (t : Nat → Int) (t_dropped : Int) : List call :=
  (first_pairs N t).map enqueue_call ++
    ([enqueue_call (((N + 1 : Nat) : Int), t_dropped)] ++
      (List.replicate 1 call.dequeue ++
        ([enqueue_call (((N + 1 : Nat) : Int), t (N + 1))] ++
          List.replicate (N + 1) call.dequeue)))

/-- The reports the scenario expects, call by call: `N` written, `N + 1` dropped, item 1,
`N + 1` written, items `2, ..., N + 1` each with its timestamp, then empty. -/
def saturation_reports (N : Nat) (t : Nat → Int) : List report :=
  List.replicate N (report.timer timer_report.initialized) ++
    ([report.timer (timer_report.overflow ((N + 1 : Nat) : Int))] ++
      ([report.button (button_report.element 1 (some (t 1)))] ++
        ([report.timer timer_report.initialized] ++
          ((List.range N).map
              (fun i => report.button
                (button_report.element ((i + 2 : Nat) : Int) (some (t (i + 2))))) ++
            [report.button button_report.not_exist]))))

/-! ## Sample inputs -/

/-- A short interleaving of enqueues and dequeues. -/
def sample_calls : List call :=
  [call.enqueue 1 10, call.enqueue 2 20, call.dequeue, call.enqueue 3 30, call.dequeue,
    call.dequeue, call.dequeue]

/-- Seven enqueue pairs, two more than the ring holds. -/
def sample_pairs : List (Int × Int) :=
  [(1, 10), (2, 20), (3, 30), (4, 40), (5, 50), (6, 60), (7, 70)]

/-- A ring with three occupied slots between empty ones. -/
def sample_ring : List list_data :=
  [{ number := 0, time := 0 }, { number := 3, time := 30 }, { number := 0, time := 0 },
    { number := 4, time := 0 }, { number := 5, time := 50 }]

/-- A short sequence of module invocations. -/
def sample_module_calls : List module_call :=
  [module_call.timer_fired 10, module_call.timer_fired 20, module_call.button_pressed,
    module_call.timer_fired 30]

/-! ## Module setup and teardown -/

/-- The macro `GPIO_NUMBER(port, bit)`. -/
def GPIO_NUMBER (port bit : Int) : Int := 32 * port + bit

/-- The macro `BUTTON`, `GPIO_NUMBER(2, 8)`. -/
def BUTTON : Int := GPIO_NUMBER 2 8

/-- What the collaborators answer during `concurrency_module_init`: whether the `i`-th
`kmalloc` succeeds, and the return codes of `gpio_request`, `gpio_direction_input` and
`request_threaded_irq` (0 is success). -/
structure setup_outcomes where
  kmalloc_ok : Nat → Bool
  gpio_request : Int
  gpio_direction_input : Int
  request_threaded_irq : Int

/-- The module globals together with the resources it holds: `list_freed` is set once
`LIST_FREE` has run (the entries are released, the list head still points at them),
`button_gpio` is the static of that name, `gpio_held` tells whether the line is requested
and not freed, `irq_registered` whether `button_thread` is registered. -/
structure module_image where
  state : module_state
  list_freed : Bool
  button_gpio : Int
  gpio_held : Bool
  irq_registered : Bool
deriving DecidableEq, Repr

/-- The globals as their static initialisers leave them: empty list head, `cur_num = 0`,
`start = 0`, `delay_in_jiffies = HZ * 1L`, `restart = true`, timer never armed,
`button_gpio = -1`. -/
def static_image (BITS_PER_LONG HZ : Nat) : module_image :=
  { state :=
      { list_head := []
        cur_num := 0
        start := 0
        delay_in_jiffies := HZ % 2 ^ BITS_PER_LONG
        restart := true
        timer_expires := none }
    list_freed := false
    button_gpio := -1
    gpio_held := false
    irq_registered := false }

/-- The allocation loop of `concurrency_module_init` (lines 151-162) with `kmalloc` able
to fail: `n` iterations left, `i` the loop counter. Returns the list built and whether
every allocation succeeded; on the first failure the loop is left (`goto err_list`). -/
def init_alloc_loop (kmalloc_ok : Nat → Bool) : Nat → Nat → List list_data →
    List list_data × Bool
  | 0, _, head => (head, true)
  | n + 1, i, head =>
    if kmalloc_ok i then
      init_alloc_loop kmalloc_ok n (i + 1) (list_add_tail { number := 0, time := 0 } head)
    else (head, false)

/-- The function `button_gpio_init(gpio)`: returns `rc`, the new value of `button_gpio`
and whether the line is held on return. A failing `gpio_direction_input` frees the line
again (`err_input`). -/
def button_gpio_init (o : setup_outcomes) (gpio button_gpio : Int) : Int × Int × Bool :=
  if o.gpio_request ≠ 0 then (o.gpio_request, button_gpio, false)
  else if o.gpio_direction_input ≠ 0 then (o.gpio_direction_input, button_gpio, false)
  else (0, gpio, true)

/-- The function `concurrency_module_init`: the allocation loop; on success `timer_setup`,
`start = jiffies + delay_in_jiffies` and `mod_timer(&timer, start)`; then
`button_gpio_init(BUTTON)` and `request_threaded_irq`. The labels `err_irq`, `err_button`
and `err_list` all end in `LIST_FREE` and `return rc`; none of them touches the timer.
Returns `rc` and the module image on return. -/
def concurrency_module_init (BITS_PER_LONG HZ jiffies : Nat) (o : setup_outcomes) :
    Int × module_image :=
  let m := static_image BITS_PER_LONG HZ
  let a := init_alloc_loop o.kmalloc_ok NUM 0 m.state.list_head
  if a.2 = false then
    (-1, { m with state := { m.state with list_head := a.1 }, list_freed := true })
  else
    let start := (jiffies + m.state.delay_in_jiffies) % 2 ^ BITS_PER_LONG
    let st : module_state :=
      { m.state with list_head := a.1, start := start, timer_expires := some start }
    let g := button_gpio_init o BUTTON m.button_gpio
    if g.1 ≠ 0 then
      (g.1, { m with state := st, list_freed := true, button_gpio := g.2.1,
                     gpio_held := g.2.2 })
    else if o.request_threaded_irq ≠ 0 then
      (o.request_threaded_irq,
        { m with state := st, list_freed := true, button_gpio := g.2.1, gpio_held := g.2.2 })
    else
      (0, { m with state := st, button_gpio := g.2.1, gpio_held := g.2.2,
                   irq_registered := true })

/-- The function `concurrency_module_exit`: `button_gpio_deinit()` frees the line when
`button_gpio >= 0`, `del_timer(&timer)` cancels the pending timer, `LIST_FREE` releases
the slots. Neither `restart` nor the interrupt registration is touched. -/
def concurrency_module_exit (m : module_image) : module_image :=
  { m with state := { m.state with timer_expires := none }
           list_freed := true
           gpio_held := if 0 ≤ m.button_gpio then false else m.gpio_held }

/-- Kernel behaviour when a timer expires: the timer is taken off the pending list before
its callback is called, so inside `timer_callback` it is not armed unless the callback
arms it again. -/
def expire_timer (s : module_state) : module_state :=
  { s with timer_expires := none }

/-- Sequence numbers carried by the enqueue calls of a call sequence, in call order. -/
def enqueue_numbers : List call → List Int
  | [] => []
  | call.enqueue number _ :: cs => number :: enqueue_numbers cs
  | call.dequeue :: cs => enqueue_numbers cs

/-! ## The array-and-cursor ring of the specification

These definitions follow the words of the specification (sections 3 and 4.2), not the
source: a slot has an explicit occupancy flag, the ring is an array of slots with a cursor.
They are compared with the list operations above. -/

/-- Slot of the specification: `occupied` and the payload `(sequence, timestamp)`. -/
structure spec_slot where
  occupied : Bool
  sequence : Int
  timestamp : Int
deriving DecidableEq, Repr

/-- Ring of the specification: the slots indexed `0..N-1` and the write cursor. -/
structure spec_ring where
  slots : List spec_slot
  cursor : Nat
deriving DecidableEq, Repr

/-- Result of the specification's enqueue. -/
inductive spec_enqueue_result where
  | written
  | dropped
deriving DecidableEq, Repr

/-- Result of the specification's dequeue. -/
inductive spec_dequeue_result where
  | item (sequence timestamp : Int)
  | empty
deriving DecidableEq, Repr

/-- Enqueue of the specification: inspect the slot at `cursor`; if unoccupied write the
payload, set `occupied`, advance `cursor = (cursor + 1) mod N` and answer `written`; if
occupied change nothing and answer `dropped`. -/
def spec_enqueue (sequence timestamp : Int) (r : spec_ring) :
    spec_ring × spec_enqueue_result :=
  match r.slots[r.cursor]? with
  | none => (r, spec_enqueue_result.dropped)
  | some s =>
    if s.occupied then (r, spec_enqueue_result.dropped)
    else
      ({ slots := r.slots.set r.cursor
            { occupied := true, sequence := sequence, timestamp := timestamp }
         cursor := (r.cursor + 1) % r.slots.length },
        spec_enqueue_result.written)

/-- The scan of the specification's dequeue: `fuel` inspections left, `i` the index to
inspect next; answers the index of the first occupied slot met, advancing cyclically. -/
def spec_scan (slots : List spec_slot) : Nat → Nat → Option Nat
  | 0, _ => none
  | fuel + 1, i =>
    match slots[i]? with
    | none => none
    | some s => if s.occupied then some i else spec_scan slots fuel ((i + 1) % slots.length)

/-- Dequeue of the specification: starting at `cursor`, scan forward cyclically across all
`N` slots; on the first occupied slot capture its payload, clear `occupied` and answer
`item`; the cursor is not moved; answer `empty` when no slot is occupied. -/
def spec_dequeue (r : spec_ring) : spec_ring × spec_dequeue_result :=
  match spec_scan r.slots r.slots.length r.cursor with
  | none => (r, spec_dequeue_result.empty)
  | some i =>
    match r.slots[i]? with
    | none => (r, spec_dequeue_result.empty)
    | some s =>
      ({ r with slots := r.slots.set i { s with occupied := false } },
        spec_dequeue_result.item s.sequence s.timestamp)

/-- A list entry and a slot of the specification agree: the slot is occupied exactly when
the entry is not `IS_NULL`, and an occupied slot carries the entry's number and time. -/
def slot_related (c : list_data) (a : spec_slot) : Prop :=
  a.occupied = !IS_NULL c ∧ (a.occupied = true → a.sequence = c.number ∧ a.timestamp = c.time)

/-- The list read from its head agrees, slot by slot, with the array read from index
`cursor` forward cyclically. -/
def ring_related (l : List list_data) (r : spec_ring) : Prop :=
  r.cursor < r.slots.length ∧ List.Forall₂ slot_related l (r.slots.rotate r.cursor)

/-- The Producer's report and the specification's enqueue result say the same. -/
def enqueue_matches : timer_report → spec_enqueue_result → Bool
  | timer_report.initialized, spec_enqueue_result.written => true
  | timer_report.overflow _, spec_enqueue_result.dropped => true
  | _, _ => false

/-- The Consumer's report and the specification's dequeue result say the same. -/
def dequeue_matches : button_report → spec_dequeue_result → Bool
  | button_report.element num (some time), spec_dequeue_result.item sequence timestamp =>
    num == sequence && time == timestamp
  | button_report.not_exist, spec_dequeue_result.empty => true
  | _, _ => false

/-- The array of `N` unoccupied slots with `cursor = 0`, the ring of the specification at
module start. -/
def spec_init (N : Nat) : spec_ring :=
  { slots := List.replicate N { occupied := false, sequence := 0, timestamp := 0 }
    cursor := 0 }

/-! ## The Guard: interleaved execution of the two handlers

A step machine for `button_thread` and `timer_callback` running against each other. Every
step is one statement (or one group of statements touching one field) of the source; the
spinlock is a variable holding its owner. A handler waiting at its lock statement cannot
step while the lock is taken. `button_thread` is a threaded interrupt handler and
`timer_callback` a timer callback: when both run on the same execution unit the callback
runs on top of the thread, which then cannot step until the callback has returned.
The spinlock is taken to be a real lock (a multiprocessor build, or lock debugging), and
each step is atomic; the steps interleave in any order the rules allow. -/

/-- The two execution contexts that use the ring. -/
inductive exec_context where
  /-- The thread running `button_thread`. -/
  | consumer
  /-- The timer callback `timer_callback`. -/
  | producer
deriving DecidableEq, Repr

/-- Where `button_thread` stands. -/
inductive consumer_pc where
  /-- Not running. -/
  | idle
  /-- At `spin_lock` (line 67). -/
  | lock
  /-- In the loop, about to test entry `i` with `IS_NULL` (line 70). -/
  | scan (i : Nat)
  /-- About to run `num = ptr->number; ptr->number = 0;` on entry `i` (lines 71-72). -/
  | take_number (i : Nat)
  /-- About to run `time = ptr->time; ptr->time = 0; break;` on entry `i` (lines 73-75). -/
  | take_time (i : Nat) (num : Int)
  /-- At `spin_unlock` (line 78) with the locals `num` and `time`. -/
  | unlock (num : Int) (time : Option Int)
  /-- At the `pr_info` after the unlock (lines 79-82). -/
  | print (num : Int) (time : Option Int)
deriving DecidableEq, Repr

/-- Where `timer_callback` stands; `cur_time` is the local of that name. -/
inductive producer_pc where
  /-- Not running. -/
  | idle
  /-- At `spin_lock_irqsave` (line 125). -/
  | lock (cur_time : Int)
  /-- About to take `list_first_entry` and test it with `IS_NULL` (lines 126-128). -/
  | test (cur_time : Int)
  /-- About to run `ptr->number = locked_list_head.cur_num` (line 130). -/
  | write_number (cur_time : Int)
  /-- About to run `ptr->time = cur_time` (line 131). -/
  | write_time (cur_time : Int)
  /-- About to run `list_rotate_left` (line 132). -/
  | rotate (cur_time : Int)
  /-- At `spin_unlock_irqrestore` (line 138) with the message printed in the section. -/
  | unlock (rep : timer_report)
deriving DecidableEq, Repr

/-- The shared data, the spinlock owner, the two program points and what each handler has
printed so far. -/
structure guard_state where
  list_head : List list_data
  cur_num : Int
  lock : Option exec_context
  consumer : consumer_pc
  producer : producer_pc
  consumer_log : List button_report
  producer_log : List timer_report
deriving DecidableEq, Repr

/-- What a scheduler can do next. -/
inductive guard_action where
  /-- The button interrupt starts `button_thread`. -/
  | press
  /-- The timer expires and starts `timer_callback`; `ktime_get()` returns `cur_time`. -/
  | fire (cur_time : Int)
  /-- `button_thread` runs its next statement. -/
  | consumer_step
  /-- `timer_callback` runs its next statement. -/
  | producer_step
deriving DecidableEq, Repr

/-- What a step does to the Guard and the ring. -/
inductive guard_event where
  /-- The handler is started. -/
  | start (c : exec_context)
  /-- The spinlock is taken. -/
  | acquire (c : exec_context)
  /-- A slot's number or time is read or written, or the list is rotated. -/
  | access (c : exec_context)
  /-- The spinlock is released. -/
  | release (c : exec_context)
  /-- A statement that touches neither the lock nor the ring. -/
  | outside (c : exec_context)
deriving DecidableEq, Repr

/-- Whether local interrupts are masked while `button_thread` stands at `pc`. The handler
takes the lock with `spin_lock` (line 67), not `spin_lock_irqsave`, so never. -/
def consumer_masks_interrupts (_pc : consumer_pc) : Bool := false

/-- The message `button_thread` prints for the locals `num` and `time` (lines 79-82). -/
def button_message (num : Int) (time : Option Int) : button_report :=
  if num ≠ 0 then button_report.element num time else button_report.not_exist

/-- One statement of `button_thread`. -/
def consumer_next (s : guard_state) : Option (guard_state × guard_event) :=
  match s.consumer with
  | consumer_pc.idle => none
  | consumer_pc.lock =>
    match s.lock with
    | some _ => none
    | none =>
      some ({ s with lock := some exec_context.consumer, consumer := consumer_pc.scan 0 },
        guard_event.acquire exec_context.consumer)
  | consumer_pc.scan i =>
    match s.list_head[i]? with
    | none =>
      some ({ s with consumer := consumer_pc.unlock 0 none },
        guard_event.outside exec_context.consumer)
    | some ptr =>
      if IS_NULL ptr = false then
        some ({ s with consumer := consumer_pc.take_number i },
          guard_event.access exec_context.consumer)
      else
        some ({ s with consumer := consumer_pc.scan (i + 1) },
          guard_event.access exec_context.consumer)
  | consumer_pc.take_number i =>
    match s.list_head[i]? with
    | none => none
    | some ptr =>
      some ({ s with list_head := s.list_head.set i { ptr with number := 0 }
                     consumer := consumer_pc.take_time i ptr.number },
        guard_event.access exec_context.consumer)
  | consumer_pc.take_time i num =>
    match s.list_head[i]? with
    | none => none
    | some ptr =>
      some ({ s with list_head := s.list_head.set i { ptr with time := 0 }
                     consumer := consumer_pc.unlock num (some ptr.time) },
        guard_event.access exec_context.consumer)
  | consumer_pc.unlock num time =>
    some ({ s with lock := none, consumer := consumer_pc.print num time },
      guard_event.release exec_context.consumer)
  | consumer_pc.print num time =>
    some ({ s with consumer := consumer_pc.idle
                   consumer_log := s.consumer_log ++ [button_message num time] },
      guard_event.outside exec_context.consumer)

/-- One statement of `timer_callback` from `spin_lock_irqsave` on. The messages are printed
inside the section; the log takes the message when the section is left. -/
def producer_next (s : guard_state) : Option (guard_state × guard_event) :=
  match s.producer with
  | producer_pc.idle => none
  | producer_pc.lock cur_time =>
    match s.lock with
    | some _ => none
    | none =>
      some ({ s with lock := some exec_context.producer, producer := producer_pc.test cur_time },
        guard_event.acquire exec_context.producer)
  | producer_pc.test cur_time =>
    match s.list_head with
    | [] => none
    | ptr :: _ =>
      if IS_NULL ptr then
        some ({ s with producer := producer_pc.write_number cur_time },
          guard_event.access exec_context.producer)
      else
        some ({ s with producer := producer_pc.unlock (timer_report.overflow s.cur_num) },
          guard_event.access exec_context.producer)
  | producer_pc.write_number cur_time =>
    match s.list_head with
    | [] => none
    | ptr :: rest =>
      some ({ s with list_head := { ptr with number := s.cur_num } :: rest
                     producer := producer_pc.write_time cur_time },
        guard_event.access exec_context.producer)
  | producer_pc.write_time cur_time =>
    match s.list_head with
    | [] => none
    | ptr :: rest =>
      some ({ s with list_head := { ptr with time := cur_time } :: rest
                     producer := producer_pc.rotate cur_time },
        guard_event.access exec_context.producer)
  | producer_pc.rotate _ =>
    some ({ s with list_head := list_rotate_left s.list_head
                   producer := producer_pc.unlock timer_report.initialized },
      guard_event.access exec_context.producer)
  | producer_pc.unlock rep =>
    some ({ s with lock := none, producer := producer_pc.idle
                   producer_log := s.producer_log ++ [rep] },
      guard_event.release exec_context.producer)

/-- One scheduling step. `shared_unit` tells whether the timer callback runs on the
execution unit of the handler thread. The button can start the thread when it is not
running; the timer can start the callback when it is not running and interrupts are not
masked on its unit, which increments `cur_num` (line 122) and reads the clock (line 123);
the thread steps only while no callback is running on top of it. -/
def guard_step (shared_unit : Bool) (a : guard_action) (s : guard_state) :
    Option (guard_state × guard_event) :=
  match a with
  | guard_action.press =>
    if s.consumer = consumer_pc.idle then
      some ({ s with consumer := consumer_pc.lock }, guard_event.start exec_context.consumer)
    else none
  | guard_action.fire cur_time =>
    if s.producer = producer_pc.idle ∧
        ¬ (shared_unit = true ∧ consumer_masks_interrupts s.consumer = true) then
      some ({ s with cur_num := int_wrap (s.cur_num + 1), producer := producer_pc.lock cur_time },
        guard_event.start exec_context.producer)
    else none
  | guard_action.consumer_step =>
    if shared_unit = true ∧ s.producer ≠ producer_pc.idle then none else consumer_next s
  | guard_action.producer_step => producer_next s

/-- Run a schedule; the events are in step order. `none` when some action of the schedule
is not possible in the state it meets. -/
def guard_run (shared_unit : Bool) : List guard_action → guard_state →
    Option (guard_state × List guard_event)
  | [], s => some (s, [])
  | a :: as, s =>
    match guard_step shared_unit a s with
    | none => none
    | some (s1, e) =>
      match guard_run shared_unit as s1 with
      | none => none
      | some (s2, es) => some (s2, e :: es)

/-- The state after a successful module start: the initial ring, `cur_num = 0`, the lock
free (`__SPIN_LOCK_UNLOCKED`), no handler running. -/
def guard_init : guard_state :=
  { list_head := init_list
    cur_num := 0
    lock := none
    consumer := consumer_pc.idle
    producer := producer_pc.idle
    consumer_log := []
    producer_log := [] }

/-- The schedule that blocks both handlers on a shared execution unit: the thread takes
the lock, the timer expires at time 7, the callback reaches `spin_lock_irqsave`. -/
def blocking_schedule : List guard_action :=
  [guard_action.press, guard_action.consumer_step, guard_action.fire 7]

/-- The timer reports of a trace of critical sections, in order. -/
def timer_reports : List (call × report) → List timer_report
  | [] => []
  | (_, report.timer r) :: tr => r :: timer_reports tr
  | (_, report.button _) :: tr => timer_reports tr

/-- The button reports of a trace of critical sections, in order. -/
def button_reports : List (call × report) → List button_report
  | [] => []
  | (_, report.button r) :: tr => r :: button_reports tr
  | (_, report.timer _) :: tr => button_reports tr

/-! ## Invariant and bracketing discipline of the Guard -/

/-- Whether `button_thread` stands between its `spin_lock` and its `spin_unlock`. -/
def consumer_in_section : consumer_pc → Bool
  | consumer_pc.scan _ => true
  | consumer_pc.take_number _ => true
  | consumer_pc.take_time _ _ => true
  | consumer_pc.unlock _ _ => true
  | _ => false

/-- Whether `timer_callback` stands between its `spin_lock_irqsave` and its unlock. -/
def producer_in_section : producer_pc → Bool
  | producer_pc.test _ => true
  | producer_pc.write_number _ => true
  | producer_pc.write_time _ => true
  | producer_pc.rotate _ => true
  | producer_pc.unlock _ => true
  | _ => false

/-- The first `i` entries of the list are `IS_NULL`. -/
def prefix_null (l : List list_data) (i : Nat) : Prop :=
  ∀ p ∈ l.take i, IS_NULL p = true

/-- How far `button_thread`, standing at `pc`, has taken the ring `list_head` from `base`,
the ring it found when it took the lock. -/
def consumer_progress (pc : consumer_pc) (list_head base : List list_data) : Prop :=
  match pc with
  | consumer_pc.scan i => list_head = base ∧ prefix_null base i
  | consumer_pc.take_number i =>
    list_head = base ∧ prefix_null base i ∧ ∃ p, base[i]? = some p ∧ IS_NULL p = false
  | consumer_pc.take_time i num =>
    prefix_null base i ∧ ∃ p, base[i]? = some p ∧ IS_NULL p = false ∧ num = p.number ∧
      list_head = base.set i { p with number := 0 }
  | consumer_pc.unlock num time =>
    button_thread_scan base = { list := list_head, num := num, time := time }
  | _ => True

/-- How far `timer_callback`, standing at `pc`, has taken the ring `list_head` from `base`,
the ring it found when it took the lock. -/
def producer_progress (pc : producer_pc) (list_head : List list_data) (cur_num : Int)
    (base : List list_data) : Prop :=
  match pc with
  | producer_pc.test _ => list_head = base
  | producer_pc.write_number _ =>
    list_head = base ∧ ∃ rest, base = { number := 0, time := 0 } :: rest
  | producer_pc.write_time _ =>
    ∃ rest, base = { number := 0, time := 0 } :: rest ∧
      list_head = { number := cur_num, time := 0 } :: rest
  | producer_pc.rotate cur_time =>
    ∃ rest, base = { number := 0, time := 0 } :: rest ∧
      list_head = { number := cur_num, time := cur_time } :: rest
  | producer_pc.unlock rep =>
    ∃ cur_time, timer_callback_locked cur_num cur_time base = some (list_head, rep)
  | _ => True

/-- The message `button_thread` has decided on but not yet printed. -/
def pending_message : consumer_pc → List button_report
  | consumer_pc.print num time => [button_message num time]
  | _ => []

/-- Invariant of the interleaved runs: the lock is held exactly by the handler inside its
section; the completed sections, in the order of their unlocks, form a sequential run of
enqueues and dequeues from the initial ring ending in `base`; the ring is `base` as far
as the handler holding the lock has changed it; the logs are the reports of that
sequential run. -/
def guard_inv (s : guard_state) : Prop :=
  (consumer_in_section s.consumer = true ↔ s.lock = some exec_context.consumer) ∧
  (producer_in_section s.producer = true ↔ s.lock = some exec_context.producer) ∧
  ∃ calls tr base, run calls init_list = some (base, tr) ∧
    consumer_progress s.consumer s.list_head base ∧
    producer_progress s.producer s.list_head s.cur_num base ∧
    (s.lock = none → s.list_head = base) ∧
    s.producer_log = timer_reports tr ∧
    button_reports tr = s.consumer_log ++ pending_message s.consumer

/-- The state the blocking schedule ends in when the execution unit is shared: the thread
holds the lock inside its loop, the callback waits at `spin_lock_irqsave`. -/
def blocked_state : guard_state :=
  { list_head := init_list
    cur_num := 1
    lock := some exec_context.consumer
    consumer := consumer_pc.scan 0
    producer := producer_pc.lock 7
    consumer_log := []
    producer_log := [] }

/-- The events of `blocking_schedule`. -/
def blocking_events : List guard_event :=
  [guard_event.start exec_context.consumer, guard_event.acquire exec_context.consumer,
    guard_event.start exec_context.producer]

/-- Where a handler stands with respect to the Guard: not running or past its unlock,
started but not yet holding the lock, or between lock and unlock. -/
inductive guard_phase where
  | out
  | started
  | inside
deriving DecidableEq, Repr

/-- The phase of `button_thread` at a program point. -/
def consumer_phase : consumer_pc → guard_phase
  | consumer_pc.idle => guard_phase.out
  | consumer_pc.lock => guard_phase.started
  | consumer_pc.print _ _ => guard_phase.out
  | _ => guard_phase.inside

/-- The phase of `timer_callback` at a program point. -/
def producer_phase : producer_pc → guard_phase
  | producer_pc.idle => guard_phase.out
  | producer_pc.lock _ => guard_phase.started
  | _ => guard_phase.inside

/-- The bracketing discipline for the events of context `c`: a start is followed by one
acquire, ring accesses occur only between an acquire and the release that follows it, a
release only after an acquire. Events of the other context are skipped. `none` when the
event breaks the discipline. -/
def bracket_next (c : exec_context) (ph : guard_phase) (e : guard_event) :
    Option guard_phase :=
  match e with
  | guard_event.start d =>
    if d = c then (if ph = guard_phase.out then some guard_phase.started else none)
    else some ph
  | guard_event.acquire d =>
    if d = c then (if ph = guard_phase.started then some guard_phase.inside else none)
    else some ph
  | guard_event.access d =>
    if d = c then (if ph = guard_phase.inside then some guard_phase.inside else none)
    else some ph
  | guard_event.release d =>
    if d = c then (if ph = guard_phase.inside then some guard_phase.out else none)
    else some ph
  | guard_event.outside d =>
    if d = c then (if ph = guard_phase.started then none else some ph)
    else some ph

/-- Check a list of events against the bracketing discipline. -/
def bracket_run (c : exec_context) : guard_phase → List guard_event → Option guard_phase
  | ph, [] => some ph
  | ph, e :: es =>
    match bracket_next c ph e with
    | none => none
    | some ph1 => bracket_run c ph1 es

/-- 1 when the phase is the given one, else 0. -/
def phase_is (ph target : guard_phase) : Nat := if ph = target then 1 else 0

/-- A quiescent state with the given ring and counter. -/
def quiescent (l : List list_data) (cur_num : Int) : guard_state :=
  { list_head := l
    cur_num := cur_num
    lock := none
    consumer := consumer_pc.idle
    producer := producer_pc.idle
    consumer_log := []
    producer_log := [] }

/-- A schedule on separate execution units in which an enqueue and a dequeue overlap. -/
def sample_schedule : List guard_action :=
  [guard_action.fire 7, guard_action.press, guard_action.producer_step,
    guard_action.producer_step, guard_action.producer_step, guard_action.producer_step,
    guard_action.producer_step, guard_action.producer_step, guard_action.consumer_step,
    guard_action.consumer_step, guard_action.consumer_step, guard_action.consumer_step,
    guard_action.consumer_step, guard_action.consumer_step, guard_action.consumer_step,
    guard_action.consumer_step, guard_action.consumer_step, guard_action.consumer_step]

/-! ## Lemmas on single invocations -/

theorem IS_NULL_iff (p : list_data) : IS_NULL p = true ↔ p = { number := 0, time := 0 } := by
  cases p with
  | mk n t => simp [IS_NULL]

theorem IS_NULL_false_of_number (p : list_data) (h : p.number ≠ 0) : IS_NULL p = false := by
  cases p with
  | mk n t =>
    simp only [IS_NULL, Bool.and_eq_false_imp, beq_iff_eq]
    intro h0
    exact absurd h0 h

theorem IS_NULL_zero : IS_NULL { number := 0, time := 0 } = true := by
  simp [IS_NULL]

theorem scan_replicate_append (k : Nat) (l : List list_data) :
    button_thread_scan (List.replicate k { number := 0, time := 0 } ++ l) =
      { list := List.replicate k { number := 0, time := 0 } ++ (button_thread_scan l).list,
        num := (button_thread_scan l).num, time := (button_thread_scan l).time } := by
  induction k with
  | zero => simp
  | succ k ih =>
    rw [List.replicate_succ, List.cons_append, button_thread_scan]
    simp [IS_NULL_zero, ih]

theorem scan_cons_occupied (p : list_data) (rest : List list_data) (h : IS_NULL p = false) :
    button_thread_scan (p :: rest) =
      { list := { number := 0, time := 0 } :: rest, num := p.number, time := some p.time } := by
  simp [button_thread_scan, h]

theorem replicate_succ_append_null (k : Nat) (l : List list_data) :
    List.replicate k ({ number := 0, time := 0 } : list_data) ++ { number := 0, time := 0 } :: l
      = List.replicate (k + 1) { number := 0, time := 0 } ++ l := by
  rw [List.replicate_succ', List.append_assoc]; rfl

/-- Dequeue on a list made of `k` empty slots followed by occupied ones. -/
theorem button_thread_shape_cons (k : Nat) (p : list_data) (occ : List list_data)
    (hp : p.number ≠ 0) :
    button_thread (List.replicate k { number := 0, time := 0 } ++ p :: occ) =
      (List.replicate (k + 1) { number := 0, time := 0 } ++ occ,
        button_report.element p.number (some p.time)) := by
  simp only [button_thread, scan_replicate_append,
    scan_cons_occupied p occ (IS_NULL_false_of_number p hp), replicate_succ_append_null]
  simp [hp]

theorem button_thread_shape_nil (k : Nat) :
    button_thread (List.replicate k { number := 0, time := 0 }) =
      (List.replicate k { number := 0, time := 0 }, button_report.not_exist) := by
  have h := scan_replicate_append k []
  simp only [List.append_nil] at h
  simp [button_thread, h, button_thread_scan]

theorem timer_callback_locked_shape_succ (n t : Int) (k : Nat) (occ : List list_data) :
    timer_callback_locked n t (List.replicate (k + 1) { number := 0, time := 0 } ++ occ) =
      some (List.replicate k { number := 0, time := 0 } ++ (occ ++ [{ number := n, time := t }]),
        timer_report.initialized) := by
  simp [List.replicate_succ, timer_callback_locked, IS_NULL_zero, list_rotate_left]

theorem timer_callback_locked_occupied (n t : Int) (p : list_data) (rest : List list_data)
    (h : IS_NULL p = false) :
    timer_callback_locked n t (p :: rest) = some (p :: rest, timer_report.overflow n) := by
  simp [timer_callback_locked, h]

/-! ## Call sequences on a ring of empty slots followed by occupied slots -/

/-- Invariant of every call sequence started on `k` empty slots followed by occupied slots
with non-zero numbers: the run is defined, the list keeps that shape and its length, and
the payloads already stored followed by the written ones are the dequeued ones followed by
the ones still stored. -/
theorem run_shape (calls : List call) :
    ∀ (k : Nat) (occ : List list_data),
      (∀ n t, call.enqueue n t ∈ calls → n ≠ 0) →
      (∀ p ∈ occ, p.number ≠ 0) → 0 < k + occ.length →
      ∃ k' occ' tr,
        run calls (List.replicate k { number := 0, time := 0 } ++ occ) =
          some (List.replicate k' { number := 0, time := 0 } ++ occ', tr) ∧
        (∀ p ∈ occ', p.number ≠ 0) ∧ k' + occ'.length = k + occ.length ∧
        tr.map Prod.fst = calls ∧
        occ.map payload_of ++ tr.filterMap written_of =
          tr.filterMap dequeued_of ++ occ'.map payload_of := by
  induction calls with
  | nil =>
    intro k occ _ hocc _
    exact ⟨k, occ, [], rfl, hocc, rfl, rfl, by simp⟩
  | cons c cs ih =>
    intro k occ hcalls hocc hlen
    have hcs : ∀ n t, call.enqueue n t ∈ cs → n ≠ 0 :=
      fun n t h => hcalls n t (List.mem_cons_of_mem _ h)
    cases c with
    | enqueue n t =>
      have hn : n ≠ 0 := hcalls n t (List.mem_cons_self _ _)
      cases k with
      | succ k0 =>
        have hocc1 : ∀ p ∈ occ ++ [({ number := n, time := t } : list_data)], p.number ≠ 0 := by
          intro p hp
          rcases List.mem_append.mp hp with h | h
          · exact hocc p h
          · rw [List.mem_singleton] at h; subst h; exact hn
        obtain ⟨k1, occ1, tr, hrun, hocc2, hlen2, hfst, hacc⟩ :=
          ih k0 (occ ++ [{ number := n, time := t }]) hcs hocc1 (by simp)
        refine ⟨k1, occ1, (call.enqueue n t, report.timer timer_report.initialized) :: tr,
          ?_, hocc2, ?_, ?_, ?_⟩
        · simp [run, step, timer_callback_locked_shape_succ, hrun]
        · simp at hlen2; omega
        · simp [hfst]
        · have hw : written_of (call.enqueue n t, report.timer timer_report.initialized) =
              some (n, some t) := rfl
          have hd : dequeued_of (call.enqueue n t, report.timer timer_report.initialized) =
              none := rfl
          rw [List.filterMap_cons_some hw, List.filterMap_cons_none hd, ← hacc]
          simp [payload_of]
      | zero =>
        cases occ with
        | nil => simp at hlen
        | cons p occ0 =>
          have hp : IS_NULL p = false :=
            IS_NULL_false_of_number p (hocc p (List.mem_cons_self _ _))
          obtain ⟨k1, occ1, tr, hrun, hocc2, hlen2, hfst, hacc⟩ :=
            ih 0 (p :: occ0) hcs hocc hlen
          refine ⟨k1, occ1, (call.enqueue n t, report.timer (timer_report.overflow n)) :: tr,
            ?_, hocc2, hlen2, ?_, ?_⟩
          · simp only [List.replicate_zero, List.nil_append] at hrun ⊢
            simp [run, step, timer_callback_locked_occupied n t p occ0 hp, hrun]
          · simp [hfst]
          · have hw : written_of (call.enqueue n t, report.timer (timer_report.overflow n)) =
                none := rfl
            have hd : dequeued_of (call.enqueue n t, report.timer (timer_report.overflow n)) =
                none := rfl
            rw [List.filterMap_cons_none hw, List.filterMap_cons_none hd, hacc]
    | dequeue =>
      cases occ with
      | nil =>
        have hk : 0 < k := by simpa using hlen
        obtain ⟨k1, occ1, tr, hrun, hocc2, hlen2, hfst, hacc⟩ := ih k [] hcs hocc hlen
        refine ⟨k1, occ1, (call.dequeue, report.button button_report.not_exist) :: tr,
          ?_, hocc2, hlen2, ?_, ?_⟩
        · simp only [List.append_nil] at hrun ⊢
          simp [run, step, button_thread_shape_nil, hrun]
        · simp [hfst]
        · have hw : written_of (call.dequeue, report.button button_report.not_exist) = none := rfl
          have hd : dequeued_of (call.dequeue, report.button button_report.not_exist) =
              none := rfl
          rw [List.filterMap_cons_none hw, List.filterMap_cons_none hd, hacc]
      | cons p occ0 =>
        have hp : p.number ≠ 0 := hocc p (List.mem_cons_self _ _)
        obtain ⟨k1, occ1, tr, hrun, hocc2, hlen2, hfst, hacc⟩ :=
          ih (k + 1) occ0 hcs (fun q hq => hocc q (List.mem_cons_of_mem _ hq)) (by omega)
        refine ⟨k1, occ1,
          (call.dequeue, report.button (button_report.element p.number (some p.time))) :: tr,
          ?_, hocc2, ?_, ?_, ?_⟩
        · simp [run, step, button_thread_shape_cons k p occ0 hp, hrun]
        · simp at hlen2 ⊢; omega
        · simp [hfst]
        · have hw : written_of (call.dequeue,
              report.button (button_report.element p.number (some p.time))) = none := rfl
          have hd : dequeued_of (call.dequeue,
              report.button (button_report.element p.number (some p.time))) =
                some (payload_of p) := rfl
          rw [List.filterMap_cons_none hw, List.filterMap_cons_some hd, List.map_cons,
            List.cons_append, List.cons_append, hacc]

/-! ## Lemmas on the initial ring, the scan and repeated dequeues -/

theorem init_list_loop_eq (n : Nat) (head : List list_data) :
    init_list_loop n head = head ++ List.replicate n { number := 0, time := 0 } := by
  induction n generalizing head with
  | zero => simp [init_list_loop]
  | succ n ih =>
    rw [init_list_loop, ih, list_add_tail, List.replicate_succ, List.append_assoc]
    rfl

theorem init_list_eq : init_list = List.replicate 5 { number := 0, time := 0 } := by
  rw [init_list, init_list_loop_eq]; rfl

theorem occupied_count_shape (k : Nat) (occ : List list_data) (h : ∀ p ∈ occ, p.number ≠ 0) :
    occupied_count (List.replicate k { number := 0, time := 0 } ++ occ) = occ.length := by
  have h1 : List.countP (fun p => !IS_NULL p)
      (List.replicate k ({ number := 0, time := 0 } : list_data)) = 0 := by
    rw [List.countP_eq_zero]
    intro p hp
    rw [List.eq_of_mem_replicate hp]
    simp [IS_NULL_zero]
  have h2 : List.countP (fun p => !IS_NULL p) occ = occ.length := by
    rw [List.countP_eq_length]
    intro p hp
    simp [IS_NULL_false_of_number p (h p hp)]
  rw [occupied_count, List.countP_append, h1, h2, Nat.zero_add]

theorem scan_all_null (l : List list_data) (h : ∀ p ∈ l, IS_NULL p = true) :
    button_thread_scan l = { list := l, num := 0, time := none } := by
  induction l with
  | nil => rfl
  | cons p rest ih =>
    have hp : IS_NULL p = true := h p (List.mem_cons_self _ _)
    have hr := ih (fun q hq => h q (List.mem_cons_of_mem _ hq))
    simp [button_thread_scan, hp, hr]

theorem scan_split (l : List list_data) (h : ∃ p ∈ l, IS_NULL p = false) :
    ∃ pre s post, l = pre ++ s :: post ∧ (∀ p ∈ pre, IS_NULL p = true) ∧ IS_NULL s = false ∧
      button_thread_scan l =
        { list := pre ++ { number := 0, time := 0 } :: post, num := s.number,
          time := some s.time } := by
  induction l with
  | nil => simp at h
  | cons q rest ih =>
    by_cases hq : IS_NULL q = false
    · exact ⟨[], q, rest, rfl, by simp, hq, scan_cons_occupied q rest hq⟩
    · have hq1 : IS_NULL q = true := by simpa using hq
      obtain ⟨p, hp, hpn⟩ := h
      have hrest : ∃ p ∈ rest, IS_NULL p = false := by
        rcases List.mem_cons.mp hp with h1 | h1
        · subst h1; rw [hq1] at hpn; cases hpn
        · exact ⟨p, h1, hpn⟩
      obtain ⟨pre, s, post, hl, hpre, hs, hscan⟩ := ih hrest
      refine ⟨q :: pre, s, post, by rw [hl]; rfl, ?_, hs, ?_⟩
      · intro x hx
        rcases List.mem_cons.mp hx with h1 | h1
        · rw [h1]; exact hq1
        · exact hpre x h1
      · simp [button_thread_scan, hq1, hscan]

theorem clear_first_nil (m : Nat) : clear_first m [] = [] := by
  cases m <;> rfl

theorem button_thread_cons_null (p : list_data) (rest : List list_data)
    (hp : IS_NULL p = true) :
    button_thread (p :: rest) = (p :: (button_thread rest).1, (button_thread rest).2) := by
  simp [button_thread, button_thread_scan, hp]

theorem button_thread_cons_occupied (p : list_data) (rest : List list_data)
    (hp : IS_NULL p = false) :
    button_thread (p :: rest) =
      ({ number := 0, time := 0 } :: rest,
        if p.number ≠ 0 then button_report.element p.number (some p.time)
        else button_report.not_exist) := by
  simp [button_thread, button_thread_scan, hp]

theorem button_thread_length (l : List list_data) :
    (button_thread l).1.length = l.length := by
  induction l with
  | nil => rfl
  | cons p rest ih =>
    by_cases hp : IS_NULL p = true
    · rw [button_thread_cons_null p rest hp]; simp [ih]
    · rw [button_thread_cons_occupied p rest (by simpa using hp)]; simp

theorem clear_first_succ (m : Nat) (l : List list_data) :
    clear_first (m + 1) l = clear_first m (button_thread l).1 := by
  induction l with
  | nil => simp [clear_first_nil, button_thread, button_thread_scan]
  | cons p rest ih =>
    by_cases hp : IS_NULL p = true
    · rw [button_thread_cons_null p rest hp]
      cases m with
      | zero => simp [clear_first, hp] at ih ⊢; exact ih
      | succ m1 => simp [clear_first, hp] at ih ⊢; exact ih
    · have hp1 : IS_NULL p = false := by simpa using hp
      rw [button_thread_cons_occupied p rest hp1]
      cases m with
      | zero => simp [clear_first, hp1]
      | succ m1 => simp [clear_first, hp1, IS_NULL_zero]

theorem button_thread_times_list (m : Nat) (l : List list_data) :
    (button_thread_times m l).1 = clear_first m l := by
  induction m generalizing l with
  | zero => simp [button_thread_times, clear_first]
  | succ m ih =>
    rw [clear_first_succ]
    simp only [button_thread_times]
    exact ih _

theorem filter_button_thread (l : List list_data) :
    (button_thread l).1.filter (fun p => !IS_NULL p) =
      (l.filter (fun p => !IS_NULL p)).tail := by
  induction l with
  | nil => rfl
  | cons p rest ih =>
    by_cases hp : IS_NULL p = true
    · rw [button_thread_cons_null p rest hp]
      simp [hp, ih]
    · have hp1 : IS_NULL p = false := by simpa using hp
      rw [button_thread_cons_occupied p rest hp1]
      simp [hp1, IS_NULL_zero]

theorem button_thread_report (l : List list_data)
    (h : ∀ p ∈ l.filter (fun p => !IS_NULL p), p.number ≠ 0) :
    (button_thread l).2 =
      ((l.filter (fun p => !IS_NULL p)).head?.map report_of).getD
        button_report.not_exist := by
  induction l with
  | nil => rfl
  | cons p rest ih =>
    by_cases hp : IS_NULL p = true
    · rw [button_thread_cons_null p rest hp]
      have hr : ∀ q ∈ rest.filter (fun p => !IS_NULL p), q.number ≠ 0 := by
        intro q hq
        apply h q
        simp [hp]
        simpa using hq
      simp [hp, ih hr]
    · have hp1 : IS_NULL p = false := by simpa using hp
      rw [button_thread_cons_occupied p rest hp1]
      have hn : p.number ≠ 0 := h p (by simp [hp1])
      simp [hp1, hn, report_of]

theorem button_thread_times_reports (m : Nat) :
    ∀ l : List list_data, (∀ p ∈ l.filter (fun p => !IS_NULL p), p.number ≠ 0) →
      (button_thread_times m l).2 =
        ((l.filter (fun p => !IS_NULL p)).take m).map report_of ++
          List.replicate (m - occupied_count l) button_report.not_exist := by
  induction m with
  | zero => intro l _; simp [button_thread_times]
  | succ m ih =>
    intro l h
    have hf := filter_button_thread l
    have hr := button_thread_report l h
    have h1 : ∀ p ∈ (button_thread l).1.filter (fun p => !IS_NULL p), p.number ≠ 0 := by
      intro p hp
      rw [hf] at hp
      exact h p (List.mem_of_mem_tail hp)
    have hi := ih (button_thread l).1 h1
    have hc : occupied_count (button_thread l).1 =
        ((l.filter (fun p => !IS_NULL p)).tail).length := by
      rw [occupied_count, List.countP_eq_length_filter, hf]
    have hc0 : occupied_count l = (l.filter (fun p => !IS_NULL p)).length := by
      rw [occupied_count, List.countP_eq_length_filter]
    simp only [button_thread_times]
    rw [hi, hr, hf, hc, hc0]
    cases hfl : l.filter (fun p => !IS_NULL p) with
    | nil => simp [List.replicate_succ]
    | cons q f => simp

theorem filter_button_thread_times (m : Nat) (l : List list_data) :
    (button_thread_times m l).1.filter (fun p => !IS_NULL p) =
      (l.filter (fun p => !IS_NULL p)).drop m := by
  induction m generalizing l with
  | zero => simp [button_thread_times]
  | succ m ih =>
    simp only [button_thread_times]
    rw [ih, filter_button_thread, List.drop_tail]

theorem clear_first_all (l : List list_data) :
    ∀ m, occupied_count l ≤ m →
      clear_first m l = List.replicate l.length { number := 0, time := 0 } := by
  induction l with
  | nil => intro m _; simp [clear_first_nil]
  | cons p rest ih =>
    intro m hm
    by_cases hp : IS_NULL p = true
    · have hc : occupied_count rest ≤ m := by
        simpa [occupied_count, hp] using hm
      have hpz : p = { number := 0, time := 0 } := (IS_NULL_iff p).mp hp
      cases m with
      | zero =>
        have := ih 0 hc
        simp [clear_first] at this
        simp [clear_first, List.replicate_succ, ← this, hpz]
      | succ m1 =>
        rw [clear_first, if_pos hp, ih (m1 + 1) hc, List.length_cons, List.replicate_succ, hpz]
    · have hp1 : IS_NULL p = false := by simpa using hp
      have hc : occupied_count (p :: rest) = occupied_count rest + 1 := by
        simp [occupied_count, hp1]
      cases m with
      | zero => omega
      | succ m1 =>
        simp [clear_first, hp1, ih m1 (by omega), List.replicate_succ]

/-! ## Runs of enqueues and of dequeues -/

theorem run_enqueues (cs : List (Int × Int)) :
    ∀ (k : Nat) (occ : List list_data),
      (∀ c ∈ cs, c.1 ≠ 0) → (∀ p ∈ occ, p.number ≠ 0) → 0 < k + occ.length →
      run (cs.map enqueue_call) (List.replicate k { number := 0, time := 0 } ++ occ) =
        some (List.replicate (k - cs.length) { number := 0, time := 0 } ++
            (occ ++ (cs.take k).map slot_of),
          (cs.take k).map (fun c => (enqueue_call c, report.timer timer_report.initialized)) ++
            (cs.drop k).map
              (fun c => (enqueue_call c, report.timer (timer_report.overflow c.1)))) := by
  induction cs with
  | nil => intro k occ _ _ _; simp [run]
  | cons c cs ih =>
    intro k occ hcs hocc hlen
    have hcs1 : ∀ d ∈ cs, d.1 ≠ 0 := fun d hd => hcs d (List.mem_cons_of_mem _ hd)
    cases k with
    | succ k0 =>
      have hocc1 : ∀ p ∈ occ ++ [slot_of c], p.number ≠ 0 := by
        intro p hp
        rcases List.mem_append.mp hp with h | h
        · exact hocc p h
        · rw [List.mem_singleton] at h; subst h; exact hcs c (List.mem_cons_self _ _)
      have h := ih k0 (occ ++ [slot_of c]) hcs1 hocc1 (by simp)
      have hstep : timer_callback_locked c.1 c.2
          (List.replicate (k0 + 1) { number := 0, time := 0 } ++ occ) =
            some (List.replicate k0 { number := 0, time := 0 } ++ (occ ++ [slot_of c]),
              timer_report.initialized) := timer_callback_locked_shape_succ c.1 c.2 k0 occ
      simp only [List.map_cons, run, step, enqueue_call] at h ⊢
      rw [hstep]
      simp only [h]
      simp [enqueue_call]
    | zero =>
      cases occ with
      | nil => simp at hlen
      | cons p occ0 =>
        have hp : IS_NULL p = false :=
          IS_NULL_false_of_number p (hocc p (List.mem_cons_self _ _))
        have h := ih 0 (p :: occ0) hcs1 hocc hlen
        simp only [List.replicate_zero, List.nil_append, Nat.zero_sub, List.take_zero,
          List.map_nil, List.append_nil, List.drop_zero] at h ⊢
        simp [run, step, enqueue_call, timer_callback_locked_occupied _ _ p occ0 hp] at h ⊢
        rw [h]

theorem run_append (a b : List call) (l l1 l2 : List list_data)
    (tr1 tr2 : List (call × report)) (ha : run a l = some (l1, tr1))
    (hb : run b l1 = some (l2, tr2)) : run (a ++ b) l = some (l2, tr1 ++ tr2) := by
  induction a generalizing l tr1 with
  | nil =>
    simp only [run, Option.some.injEq, Prod.mk.injEq] at ha
    obtain ⟨h1, h2⟩ := ha
    subst h1; subst h2
    simpa using hb
  | cons c cs ih =>
    simp only [List.cons_append, run] at ha ⊢
    cases hs : step c l with
    | none => simp [hs] at ha
    | some r =>
      obtain ⟨l3, rep⟩ := r
      simp only [hs] at ha ⊢
      cases hr : run cs l3 with
      | none => simp [hr] at ha
      | some r2 =>
        obtain ⟨l4, tr4⟩ := r2
        simp only [hr, Option.some.injEq, Prod.mk.injEq] at ha
        obtain ⟨h1, h2⟩ := ha
        subst h1; subst h2
        have h3 := ih l3 tr4 hr
        simp only [List.append_eq] at h3 ⊢
        rw [h3]
        rfl

theorem run_dequeues (m : Nat) :
    ∀ (k : Nat) (occ : List list_data), (∀ p ∈ occ, p.number ≠ 0) →
      run (List.replicate m call.dequeue) (List.replicate k { number := 0, time := 0 } ++ occ) =
        some (List.replicate (k + min m occ.length) { number := 0, time := 0 } ++ occ.drop m,
          (occ.take m).map (fun p => (call.dequeue, report.button (report_of p))) ++
            List.replicate (m - occ.length)
              (call.dequeue, report.button button_report.not_exist)) := by
  induction m with
  | zero => intro k occ _; simp [run]
  | succ m ih =>
    intro k occ hocc
    cases occ with
    | nil =>
      have h := ih k [] hocc
      simp only [List.append_nil, List.length_nil, Nat.min_zero, Nat.add_zero, List.drop_nil,
        List.take_nil, List.map_nil, List.nil_append, Nat.sub_zero] at h ⊢
      simp [List.replicate_succ, run, step, button_thread_shape_nil, h]
    | cons p occ0 =>
      have hp : p.number ≠ 0 := hocc p (List.mem_cons_self _ _)
      have h := ih (k + 1) occ0 (fun q hq => hocc q (List.mem_cons_of_mem _ hq))
      simp only [List.replicate_succ m, run, step, button_thread_shape_cons k p occ0 hp, h]
      simp [report_of]
      omega

theorem first_pairs_succ (n : Nat) (t : Nat → Int) :
    (first_pairs (n + 1) t).map slot_of =
      { number := 1, time := t 1 } ::
        (List.range n).map (fun i => ({ number := ((i + 2 : Nat) : Int), time := t (i + 2) } :
          list_data)) := by
  rw [first_pairs, List.range_succ_eq_map]
  simp only [List.map_cons, List.map_map, slot_of, Function.comp_def]
  rfl

theorem run_enqueues_written (cs : List (Int × Int)) (occ : List list_data)
    (hcs : ∀ c ∈ cs, c.1 ≠ 0) (hocc : ∀ p ∈ occ, p.number ≠ 0) (hpos : 0 < cs.length) :
    run (cs.map enqueue_call) (List.replicate cs.length { number := 0, time := 0 } ++ occ) =
      some (occ ++ cs.map slot_of,
        cs.map (fun c => (enqueue_call c, report.timer timer_report.initialized))) := by
  have h := run_enqueues cs cs.length occ hcs hocc (by omega)
  rw [List.take_length, List.drop_length, Nat.sub_self] at h
  simpa using h

theorem run_enqueue_dropped (c : Int × Int) (p : list_data) (rest : List list_data)
    (hp : p.number ≠ 0) :
    run [enqueue_call c] (p :: rest) =
      some (p :: rest, [(enqueue_call c, report.timer (timer_report.overflow c.1))]) := by
  simp [run, step, enqueue_call,
    timer_callback_locked_occupied c.1 c.2 p rest (IS_NULL_false_of_number p hp)]

theorem run_dequeues_drain (occ : List list_data) (k j : Nat) (hocc : ∀ p ∈ occ, p.number ≠ 0) :
    run (List.replicate (occ.length + j) call.dequeue)
        (List.replicate k { number := 0, time := 0 } ++ occ) =
      some (List.replicate (k + occ.length) { number := 0, time := 0 },
        occ.map (fun p => (call.dequeue, report.button (report_of p))) ++
          List.replicate j (call.dequeue, report.button button_report.not_exist)) := by
  have h := run_dequeues (occ.length + j) k occ hocc
  rw [List.take_of_length_le (by omega), List.drop_eq_nil_of_le (by omega),
    Nat.min_eq_right (by omega), Nat.add_sub_cancel_left, List.append_nil] at h
  exact h

theorem run_dequeue_one (k : Nat) (p : list_data) (occ : List list_data)
    (hp : p.number ≠ 0) :
    run (List.replicate 1 call.dequeue)
        (List.replicate k { number := 0, time := 0 } ++ p :: occ) =
      some (List.replicate (k + 1) { number := 0, time := 0 } ++ occ,
        [(call.dequeue, report.button (report_of p))]) := by
  simp [run, step, button_thread_shape_cons k p occ hp, report_of]

/-! ## The counter `cur_num` along module runs -/

theorem int_wrap_succ (x : Int) : int_wrap (int_wrap x + 1) = int_wrap (x + 1) := by
  unfold int_wrap
  omega

theorem int_wrap_of_range (x : Int) (h0 : -2147483648 ≤ x) (h1 : x ≤ 2147483647) :
    int_wrap x = x := by
  unfold int_wrap
  omega

theorem timer_callback_locked_some (n t : Int) (l : List list_data) (hl : l ≠ []) :
    ∃ l1 r, timer_callback_locked n t l = some (l1, r) ∧ l1.length = l.length ∧
      (r = timer_report.overflow n ∨ r = timer_report.initialized) := by
  cases l with
  | nil => exact absurd rfl hl
  | cons p rest =>
    by_cases hp : IS_NULL p = true
    · refine ⟨list_rotate_left ({ number := n, time := t } :: rest), timer_report.initialized,
        by simp [timer_callback_locked, hp], by simp [list_rotate_left], Or.inr rfl⟩
    · refine ⟨p :: rest, timer_report.overflow n, by simp [timer_callback_locked, hp],
        rfl, Or.inl rfl⟩

theorem timer_callback_some (bits : Nat) (t : Int) (s : module_state) (hl : s.list_head ≠ []) :
    ∃ s1 r, timer_callback bits t s = some (s1, r) ∧
      s1.list_head.length = s.list_head.length ∧
      s1.cur_num = int_wrap (s.cur_num + 1) ∧
      (r = timer_report.overflow s1.cur_num ∨ r = timer_report.initialized) := by
  obtain ⟨l1, r, h, hne, hr⟩ := timer_callback_locked_some (int_wrap (s.cur_num + 1)) t _ hl
  by_cases hre : s.restart = true
  · exact ⟨{ s with list_head := l1, cur_num := int_wrap (s.cur_num + 1),
                    start := (s.start + s.delay_in_jiffies) % 2 ^ bits,
                    timer_expires := some ((s.start + s.delay_in_jiffies) % 2 ^ bits) }, r,
      by simp [timer_callback, h, hre], hne, rfl, hr⟩
  · exact ⟨{ s with list_head := l1, cur_num := int_wrap (s.cur_num + 1) }, r,
      by simp [timer_callback, h, hre], hne, rfl, hr⟩

theorem module_run_numbers (bits : Nat) (calls : List module_call) :
    ∀ (s : module_state) (c : Int), s.list_head ≠ [] → s.cur_num = int_wrap c →
      ∃ s1 tr, module_run bits calls s = some (s1, tr) ∧
        s1.list_head.length = s.list_head.length ∧
        s1.cur_num = int_wrap (c + timer_count calls) ∧
        tr.map module_event.call = calls ∧
        used_numbers tr =
          (List.range (timer_count calls)).map (fun i => int_wrap (c + ((i + 1 : Nat) : Int))) ∧
        ∀ e ∈ tr, ∀ n, e.report = report.timer (timer_report.overflow n) → n = e.cur_num := by
  induction calls with
  | nil =>
    intro s c hl hc
    exact ⟨s, [], rfl, rfl, by simpa [timer_count] using hc, rfl, rfl, by simp⟩
  | cons a cs ih =>
    intro s c hl hc
    cases a with
    | timer_fired t =>
      obtain ⟨s1, r, hstep, hl1, hc1, hr⟩ := timer_callback_some bits t s hl
      have hc2 : s1.cur_num = int_wrap (c + 1) := by rw [hc1, hc, int_wrap_succ]
      have hne1 : s1.list_head ≠ [] := by
        intro h0
        rw [h0] at hl1
        exact hl (List.length_eq_zero.mp hl1.symm)
      obtain ⟨s2, tr, hrun, hl2, hc3, hcalls, hused, hrep⟩ := ih s1 (c + 1) hne1 hc2
      have htc : timer_count (module_call.timer_fired t :: cs) = timer_count cs + 1 := by
        simp [timer_count]
      refine ⟨s2, { call := module_call.timer_fired t, report := report.timer r,
                    cur_num := s1.cur_num } :: tr, ?_, hl2.trans hl1, ?_, ?_, ?_, ?_⟩
      · simp [module_run, module_step, hstep, hrun]
      · rw [hc3, htc]; congr 1; push_cast; ring
      · simp [hcalls]
      · have hu : used_number ⟨module_call.timer_fired t, report.timer r, s1.cur_num⟩ =
            some s1.cur_num := rfl
        rw [htc, List.range_succ_eq_map, used_numbers, List.filterMap_cons_some hu,
          ← used_numbers, hused, hc2]
        simp only [List.map_cons, List.map_map, Function.comp_def]
        congr 1
        apply List.map_congr_left
        intro i _
        congr 1
        push_cast
        ring
      · intro e he n hn
        rcases List.mem_cons.mp he with h1 | h1
        · subst h1
          simp only [report.timer.injEq] at hn
          rcases hr with h2 | h2
          · rw [h2] at hn; cases hn; rfl
          · rw [h2] at hn; cases hn
        · exact hrep e h1 n hn
    | button_pressed =>
      have hl1 : (button_thread s.list_head).1 ≠ [] := by
        intro h0
        have h1 := button_thread_length s.list_head
        rw [h0] at h1
        exact hl (List.length_eq_zero.mp h1.symm)
      obtain ⟨s2, tr, hrun, hl2, hc3, hcalls, hused, hrep⟩ :=
        ih { s with list_head := (button_thread s.list_head).1 } c hl1 hc
      have htc : timer_count (module_call.button_pressed :: cs) = timer_count cs := by
        simp [timer_count]
      refine ⟨s2, { call := module_call.button_pressed,
                    report := report.button (button_thread s.list_head).2,
                    cur_num := s.cur_num } :: tr, ?_,
        hl2.trans (button_thread_length s.list_head), ?_, ?_, ?_, ?_⟩
      · simp [module_run, module_step, hrun]
      · rw [hc3, htc]
      · simp [hcalls]
      · have hu : used_number ⟨module_call.button_pressed,
            report.button (button_thread s.list_head).2, s.cur_num⟩ = none := rfl
        rw [htc, used_numbers, List.filterMap_cons_none hu, ← used_numbers, hused]
      · intro e he n hn
        rcases List.mem_cons.mp he with h1 | h1
        · subst h1; cases hn
        · exact hrep e h1 n hn

theorem init_state_list (bits HZ jiffies : Nat) :
    (init_state bits HZ jiffies).list_head ≠ [] := by
  simp [init_state, init_list, init_list_loop, NUM, list_add_tail]

theorem timer_count_replicate (n : Nat) (t : Int) :
    timer_count (List.replicate n (module_call.timer_fired t)) = n := by
  rw [timer_count, List.countP_replicate]
  simp

theorem module_run_append (bits : Nat) (a b : List module_call) (s s1 s2 : module_state)
    (tr1 tr2 : List module_event) (ha : module_run bits a s = some (s1, tr1))
    (hb : module_run bits b s1 = some (s2, tr2)) :
    module_run bits (a ++ b) s = some (s2, tr1 ++ tr2) := by
  induction a generalizing s tr1 with
  | nil =>
    simp only [module_run, Option.some.injEq, Prod.mk.injEq] at ha
    obtain ⟨h1, h2⟩ := ha
    subst h1; subst h2
    simpa using hb
  | cons c cs ih =>
    simp only [List.cons_append, module_run] at ha ⊢
    cases hs : module_step bits c s with
    | none => simp [hs] at ha
    | some r =>
      obtain ⟨s3, rep⟩ := r
      simp only [hs] at ha ⊢
      cases hr : module_run bits cs s3 with
      | none => simp [hr] at ha
      | some r2 =>
        obtain ⟨s4, tr4⟩ := r2
        simp only [hr, Option.some.injEq, Prod.mk.injEq] at ha
        obtain ⟨h1, h2⟩ := ha
        subst h1; subst h2
        have h3 := ih s3 tr4 hr
        simp only [List.append_eq] at h3 ⊢
        rw [h3]
        rfl

theorem module_run_buttons (bits : Nat) (m : Nat) :
    ∀ s : module_state, ∃ tr,
      module_run bits (List.replicate m module_call.button_pressed) s =
        some ({ s with list_head := (button_thread_times m s.list_head).1 }, tr) := by
  induction m with
  | zero => intro s; exact ⟨[], rfl⟩
  | succ m ih =>
    intro s
    obtain ⟨tr, h⟩ := ih { s with list_head := (button_thread s.list_head).1 }
    refine ⟨⟨module_call.button_pressed, report.button (button_thread s.list_head).2,
      s.cur_num⟩ :: tr, ?_⟩
    simp only [List.replicate_succ, module_run, module_step, h]
    rfl

theorem module_run_timer (bits : Nat) (t : Int) (s s3 : module_state) (r : timer_report)
    (h : timer_callback bits t s = some (s3, r)) :
    module_run bits [module_call.timer_fired t] s =
      some (s3, [⟨module_call.timer_fired t, report.timer r, s3.cur_num⟩]) := by
  simp [module_run, module_step, h]

/-! ## The claims -/

/-- Claim C1 (FIFO order). From the freshly initialised ring, every finite interleaving of
enqueue calls with non-zero sequence numbers and dequeue calls runs to completion, and the
sequence numbers returned by the successful dequeues, in call order, are a prefix of the
sequence numbers of the enqueues that were written; dropped enqueues contribute nothing. -/
theorem fifo_order (calls : List call) (h : ∀ n t, call.enqueue n t ∈ calls → n ≠ 0) :
    ∃ l tr, run calls init_list = some (l, tr) ∧ tr.map Prod.fst = calls ∧
      dequeued_numbers tr <+: written_numbers tr := by
  obtain ⟨k, occ, tr, hrun, _, _, hfst, hacc⟩ :=
    run_shape calls 5 [] h (by simp) (by simp)
  refine ⟨List.replicate k { number := 0, time := 0 } ++ occ, tr, ?_, hfst, ?_⟩
  · rw [init_list_eq]; simpa using hrun
  · refine ⟨(occ.map payload_of).map Prod.fst, ?_⟩
    simp only [List.map_nil, List.nil_append] at hacc
    rw [written_numbers, dequeued_numbers, hacc, List.map_append]

/-- Claim C2 (capacity bound). From the freshly initialised ring of `NUM = 5` slots, in every
sequence of enqueue calls with non-zero sequence numbers and no dequeue, the first five calls
are written and every later call is dropped (reporting the number it could not place). -/
theorem capacity_bound (cs : List (Int × Int)) (h : ∀ c ∈ cs, c.1 ≠ 0) :
    ∃ l tr, run (cs.map enqueue_call) init_list = some (l, tr) ∧
      tr.map Prod.fst = cs.map enqueue_call ∧
      tr.map Prod.snd =
        (cs.take NUM).map (fun _ => report.timer timer_report.initialized) ++
          (cs.drop NUM).map (fun c => report.timer (timer_report.overflow c.1)) := by
  have hrun := run_enqueues cs 5 [] h (by simp) (by simp)
  rw [List.append_nil, ← init_list_eq] at hrun
  refine ⟨_, _, hrun, ?_, ?_⟩
  · have e1 : (Prod.fst ∘ fun c : Int × Int =>
        (enqueue_call c, report.timer timer_report.initialized)) = enqueue_call := rfl
    have e2 : (Prod.fst ∘ fun c : Int × Int =>
        (enqueue_call c, report.timer (timer_report.overflow c.1))) = enqueue_call := rfl
    rw [List.map_append, List.map_map, List.map_map, e1, e2, ← List.map_append,
      List.take_append_drop]
  · rw [List.map_append, List.map_map, List.map_map]
    rfl

/-- Claim C3 (occupancy conservation). After every finite sequence of enqueues with sequence
numbers at least 1 and dequeues on the freshly initialised ring, the number of slots that are
not `IS_NULL` is the number of written enqueues minus the number of successful dequeues,
and it is at most 5. -/
theorem occupancy_conservation (calls : List call)
    (h : ∀ n t, call.enqueue n t ∈ calls → 1 ≤ n) :
    ∃ l tr, run calls init_list = some (l, tr) ∧ tr.map Prod.fst = calls ∧
      (occupied_count l : Int) =
        ((tr.filterMap written_of).length : Int) - ((tr.filterMap dequeued_of).length : Int) ∧
      occupied_count l ≤ 5 := by
  have h0 : ∀ n t, call.enqueue n t ∈ calls → n ≠ 0 := by
    intro n t hm
    have := h n t hm
    omega
  obtain ⟨k, occ, tr, hrun, hocc, hlen, hfst, hacc⟩ :=
    run_shape calls 5 [] h0 (by simp) (by simp)
  refine ⟨List.replicate k { number := 0, time := 0 } ++ occ, tr, ?_, hfst, ?_, ?_⟩
  · rw [init_list_eq]; simpa using hrun
  · rw [occupied_count_shape k occ hocc]
    have hl := congrArg List.length hacc
    simp only [List.map_nil, List.nil_append, List.length_append, List.length_map] at hl
    omega
  · rw [occupied_count_shape k occ hocc]
    simp at hlen
    omega

/-- Claim C4 (dequeue on a non-empty ring). When some slot is occupied and every occupied slot
has a non-zero sequence number, `button_thread` reports the number and time of the first
occupied slot from the head, replaces exactly that slot by the empty slot, and leaves every
other slot and the order of the list as they were. -/
theorem dequeue_first_occupied (l : List list_data) (hne : ∃ p ∈ l, IS_NULL p = false)
    (hnum : ∀ p ∈ l, IS_NULL p = false → p.number ≠ 0) :
    ∃ pre s post, l = pre ++ s :: post ∧ (∀ p ∈ pre, IS_NULL p = true) ∧ IS_NULL s = false ∧
      button_thread l =
        (pre ++ { number := 0, time := 0 } :: post,
          button_report.element s.number (some s.time)) ∧
      IS_NULL { number := 0, time := 0 } = true := by
  obtain ⟨pre, s, post, hl, hpre, hs, hscan⟩ := scan_split l hne
  refine ⟨pre, s, post, hl, hpre, hs, ?_, IS_NULL_zero⟩
  have hsn : s.number ≠ 0 := hnum s (by rw [hl]; simp) hs
  simp [button_thread, hscan, hsn]

/-- Claim C5 (drop-newest overflow). When the first list entry is occupied, the critical
section of `timer_callback` reports the overflow and returns the list unchanged, whatever
number and time were offered; the whole `timer_callback` does the same on every module state
with that list. -/
theorem drop_newest (ptr : list_data) (rest : List list_data) (h : IS_NULL ptr = false)
    (number time : Int) :
    timer_callback_locked number time (ptr :: rest) =
      some (ptr :: rest, timer_report.overflow number) ∧
    ∀ (BITS_PER_LONG : Nat) (s : module_state), s.list_head = ptr :: rest →
      ∃ s1, timer_callback BITS_PER_LONG time s =
          some (s1, timer_report.overflow (int_wrap (s.cur_num + 1))) ∧
        s1.list_head = ptr :: rest := by
  refine ⟨timer_callback_locked_occupied number time ptr rest h, ?_⟩
  intro bits s hs
  simp only [timer_callback, hs, timer_callback_locked_occupied _ _ ptr rest h]
  by_cases hr : s.restart = true
  · simp [hr]
  · simp [hr]

/-- Claim C6 (empty dequeue). On every ring in which all slots are `IS_NULL`, `button_thread`
reports that no filled element exists and returns the list unchanged; the ring built at module
start consists of five slots with number 0 and time 0, so this holds for it. -/
theorem dequeue_empty (l : List list_data) (h : ∀ p ∈ l, IS_NULL p = true) :
    button_thread l = (l, button_report.not_exist) ∧
    init_list = [{ number := 0, time := 0 }, { number := 0, time := 0 },
      { number := 0, time := 0 }, { number := 0, time := 0 }, { number := 0, time := 0 }] ∧
    button_thread init_list = (init_list, button_report.not_exist) := by
  refine ⟨?_, rfl, rfl⟩
  simp [button_thread, scan_all_null l h]

/-- Claim C7 (saturation and recovery). On a ring of `N ≥ 1` slots (`N = NUM = 5` in the
module, `N = 3` in the scenario of the specification): the enqueues of `1..N` are written,
the enqueue of `N + 1` is dropped, a dequeue returns item 1, the retried enqueue of `N + 1`
is written, the next `N` dequeues return `2, ..., N + 1` in order, each with the time it
was enqueued with, one more dequeue reports empty, and the ring is all empty again. -/
theorem saturation_and_recovery (N : Nat) (hN : 0 < N) (t : Nat → Int) (t_dropped : Int) :
    ∃ tr, run (saturation_calls N t t_dropped) (init_list_loop N []) =
        some (init_list_loop N [], tr) ∧
      tr.map Prod.fst = saturation_calls N t t_dropped ∧
      tr.map Prod.snd = saturation_reports N t := by
  obtain ⟨n, rfl⟩ : ∃ n, N = n + 1 := ⟨N - 1, by omega⟩
  have hpairs : ∀ c ∈ first_pairs (n + 1) t, c.1 ≠ 0 := by
    intro c hc
    simp only [first_pairs, List.mem_map, List.mem_range] at hc
    obtain ⟨i, _, rfl⟩ := hc
    simp only [ne_eq]
    omega
  have hlen : (first_pairs (n + 1) t).length = n + 1 := by simp [first_pairs]
  let slot : Nat → list_data := fun i => { number := ((i + 2 : Nat) : Int), time := t (i + 2) }
  have hslot : ∀ p ∈ (List.range n).map slot, p.number ≠ 0 := by
    intro p hp
    simp only [List.mem_map, List.mem_range] at hp
    obtain ⟨i, _, rfl⟩ := hp
    simp only [slot, ne_eq]
    omega
  have hlast : (List.range n).map slot ++
      [slot_of (((n + 1 + 1 : Nat) : Int), t (n + 1 + 1))] = (List.range (n + 1)).map slot := by
    rw [List.range_succ, List.map_append]
    rfl
  have hslot1 : ∀ p ∈ (List.range (n + 1)).map slot, p.number ≠ 0 := by
    intro p hp
    simp only [List.mem_map, List.mem_range] at hp
    obtain ⟨i, _, rfl⟩ := hp
    simp only [slot, ne_eq]
    omega
  -- the N enqueues fill the ring
  have h1 := run_enqueues_written (first_pairs (n + 1) t) [] hpairs (by simp) (by omega)
  rw [hlen, List.append_nil, List.nil_append, first_pairs_succ] at h1
  -- the next enqueue finds the head occupied
  have h2 := run_enqueue_dropped (((n + 1 + 1 : Nat) : Int), t_dropped)
    { number := 1, time := t 1 } ((List.range n).map slot) Int.one_ne_zero
  -- one dequeue frees the oldest slot
  have h3 := run_dequeue_one 0 { number := 1, time := t 1 } ((List.range n).map slot)
    Int.one_ne_zero
  rw [List.replicate_zero, List.nil_append] at h3
  -- the retried enqueue is written
  have h4 := run_enqueues_written [(((n + 1 + 1 : Nat) : Int), t (n + 1 + 1))]
    ((List.range n).map slot) (by intro c hc; rw [List.mem_singleton] at hc; subst hc
                                  simp only [ne_eq]; omega) hslot (by simp)
  rw [List.map_singleton, List.map_singleton, List.length_singleton, hlast] at h4
  -- N + 1 dequeues drain the ring and find it empty
  have h5 := run_dequeues_drain ((List.range (n + 1)).map slot) 0 1 hslot1
  rw [List.replicate_zero, List.nil_append, List.length_map, List.length_range,
    Nat.zero_add] at h5
  have hall := run_append _ _ _ _ _ _ _ h1
    (run_append _ _ _ _ _ _ _ h2 (run_append _ _ _ _ _ _ _ h3 (run_append _ _ _ _ _ _ _ h4 h5)))
  rw [init_list_loop_eq, List.nil_append]
  refine ⟨_, hall, ?_, ?_⟩
  · simp only [saturation_calls, List.map_append, List.map_map, List.map_replicate,
      List.map_cons, List.map_nil, Function.comp_def, List.map_const', List.length_range,
      List.replicate_one]
    rw [List.replicate_succ' (n + 1)]
  · simp only [saturation_reports, List.map_append, List.map_map, List.map_replicate,
      List.map_cons, List.map_nil, Function.comp_def, report_of, slot, List.map_const',
      hlen, List.replicate_one]

/-- Claim C8 (no double consumption). On a ring with `k` occupied slots, all with non-zero
numbers, `k + 1 + extra` dequeues in a row report the `k` occupied slots once each, in list
order, and then only empty; the ring ends with every slot empty. After any `m` dequeues the
list is the original one with its first `m` occupied slots zeroed, so every successful
dequeue takes a slot no earlier dequeue took. -/
theorem no_double_consumption (l : List list_data)
    (h : ∀ p ∈ l, IS_NULL p = false → p.number ≠ 0) (extra : Nat) :
    (button_thread_times (occupied_count l + 1 + extra) l).2 =
        (l.filter (fun p => !IS_NULL p)).map report_of ++
          List.replicate (1 + extra) button_report.not_exist ∧
    (button_thread_times (occupied_count l + 1 + extra) l).1 =
        List.replicate l.length { number := 0, time := 0 } ∧
    ∀ m, (button_thread_times m l).1 = clear_first m l ∧
      (button_thread_times m l).1.filter (fun p => !IS_NULL p) =
        (l.filter (fun p => !IS_NULL p)).drop m ∧
      (button_thread_times m l).2 =
        ((l.filter (fun p => !IS_NULL p)).take m).map report_of ++
          List.replicate (m - occupied_count l) button_report.not_exist := by
  have hf : ∀ p ∈ l.filter (fun p => !IS_NULL p), p.number ≠ 0 := by
    intro p hp
    rw [List.mem_filter] at hp
    exact h p hp.1 (by simpa using hp.2)
  have hc0 : occupied_count l = (l.filter (fun p => !IS_NULL p)).length := by
    rw [occupied_count, List.countP_eq_length_filter]
  refine ⟨?_, ?_, ?_⟩
  · rw [button_thread_times_reports _ l hf, List.take_of_length_le (by omega)]
    congr 2
    omega
  · rw [button_thread_times_list, clear_first_all l _ (by omega)]
  · intro m
    exact ⟨button_thread_times_list m l, filter_button_thread_times m l,
      button_thread_times_reports m l hf⟩

/-- Claim C9 (empty is reported only when nothing is pending) fails on the code: a slot with
number 0 and a non-zero time is not `IS_NULL`, so `button_thread` zeroes it, yet `if (num)`
selects the message "Filled element does not exist". The ring used here is reached from
module start by `2 ^ 32 - 1` timer callbacks, five button presses, and one more timer
callback at time 7, whose number is the wrapped counter value 0. -/
theorem empty_report_clears_slot :
    IS_NULL { number := 0, time := 7 } = false ∧
    button_thread [{ number := 0, time := 0 }, { number := 0, time := 0 },
        { number := 0, time := 0 }, { number := 0, time := 0 }, { number := 0, time := 7 }] =
      (init_list, button_report.not_exist) ∧
    (module_run 32
        (List.replicate 4294967295 (module_call.timer_fired 1) ++
          (List.replicate 5 module_call.button_pressed ++ [module_call.timer_fired 7]))
        (init_state 32 250 0)).map (fun r => r.1.list_head) =
      some [{ number := 0, time := 0 }, { number := 0, time := 0 },
        { number := 0, time := 0 }, { number := 0, time := 0 }, { number := 0, time := 7 }] := by
  refine ⟨by decide, by decide, ?_⟩
  obtain ⟨s1, tr1, hrun1, hlen1, hnum1, _, _, _⟩ :=
    module_run_numbers 32 (List.replicate 4294967295 (module_call.timer_fired 1))
      (init_state 32 250 0) 0 (init_state_list _ _ _) (by simp [init_state, int_wrap])
  rw [timer_count_replicate] at hnum1
  have hnum : s1.cur_num = -1 := by
    rw [hnum1]; simp only [int_wrap]; norm_num
  have hlen : s1.list_head.length = 5 := by
    rw [hlen1]; rfl
  obtain ⟨tr2, hrun2⟩ := module_run_buttons 32 5 s1
  have hlist : (button_thread_times 5 s1.list_head).1 =
      List.replicate 5 { number := 0, time := 0 } := by
    rw [button_thread_times_list, clear_first_all _ 5, hlen]
    rw [occupied_count, ← hlen]
    exact List.countP_le_length _
  rw [hlist] at hrun2
  have hlocked : timer_callback_locked 0 7 (List.replicate 5 { number := 0, time := 0 }) =
      some ([{ number := 0, time := 0 }, { number := 0, time := 0 },
        { number := 0, time := 0 }, { number := 0, time := 0 }, { number := 0, time := 7 }],
        timer_report.initialized) := by decide
  have hw : int_wrap (-1 + 1) = 0 := by decide
  have htc : ∃ s3, timer_callback 32 7
      { s1 with list_head := List.replicate 5 { number := 0, time := 0 } } =
        some (s3, timer_report.initialized) ∧
      s3.list_head = [{ number := 0, time := 0 }, { number := 0, time := 0 },
        { number := 0, time := 0 }, { number := 0, time := 0 }, { number := 0, time := 7 }] := by
    simp only [timer_callback, hnum, hw, hlocked]
    split
    · exact ⟨_, rfl, rfl⟩
    · exact ⟨_, rfl, rfl⟩
  obtain ⟨s3, htc3, hl3⟩ := htc
  have hrun3 := module_run_timer 32 7 _ s3 _ htc3
  rw [module_run_append 32 _ _ _ _ _ _ _ hrun1 (module_run_append 32 _ _ _ _ _ _ _ hrun2 hrun3)]
  simp [hl3]

/-- Claim C10, amended (Producer sequence numbers before the counter wraps). From module
start, along any sequence of invocations with at most `2 ^ 31 - 1` timer callbacks, the run
is defined and the `k`-th timer callback uses the number `k`: the first uses 1, each later
one the previous number plus one, whether the slot was written or the enqueue dropped; none
of these numbers is 0, and an overflow report carries that number. -/
theorem sequence_numbers_until_wrap (BITS_PER_LONG HZ jiffies : Nat) (calls : List module_call)
    (h : timer_count calls ≤ 2147483647) :
    ∃ s tr, module_run BITS_PER_LONG calls (init_state BITS_PER_LONG HZ jiffies) = some (s, tr) ∧
      tr.map module_event.call = calls ∧
      used_numbers tr = (List.range (timer_count calls)).map (fun i => ((i + 1 : Nat) : Int)) ∧
      (∀ n ∈ used_numbers tr, n ≠ 0) ∧
      ∀ e ∈ tr, ∀ n, e.report = report.timer (timer_report.overflow n) → n = e.cur_num := by
  obtain ⟨s, tr, hrun, _, _, hcalls, hused, hrep⟩ :=
    module_run_numbers BITS_PER_LONG calls (init_state BITS_PER_LONG HZ jiffies) 0
      (init_state_list _ _ _) (by simp [init_state, int_wrap])
  have hused1 : used_numbers tr =
      (List.range (timer_count calls)).map (fun i => ((i + 1 : Nat) : Int)) := by
    rw [hused]
    apply List.map_congr_left
    intro i hi
    rw [List.mem_range] at hi
    rw [Int.zero_add]
    apply int_wrap_of_range <;> omega
  refine ⟨s, tr, hrun, hcalls, hused1, ?_, hrep⟩
  intro n hn
  rw [hused1, List.mem_map] at hn
  obtain ⟨i, _, rfl⟩ := hn
  omega

/-- Claim C10, counterexample. With `2 ^ 32` timer callbacks from module start, callback number
`2 ^ 31 - 1` uses 2147483647, the next one uses -2147483648, which is not greater, and
callback number `2 ^ 32` uses the reserved value 0. -/
theorem sequence_number_wraps :
    (module_run 32 (List.replicate 4294967296 (module_call.timer_fired 0))
        (init_state 32 250 0)).map
      (fun r => ((used_numbers r.2)[2147483646]?, (used_numbers r.2)[2147483647]?,
        (used_numbers r.2)[4294967295]?)) =
      some (some 2147483647, some (-2147483648), some 0) := by
  obtain ⟨s, tr, hrun, _, _, _, hused, _⟩ :=
    module_run_numbers 32 (List.replicate 4294967296 (module_call.timer_fired 0))
      (init_state 32 250 0) 0 (init_state_list _ _ _) (by simp [init_state, int_wrap])
  rw [timer_count_replicate] at hused
  rw [hrun, Option.map_some', hused, List.getElem?_map, List.getElem?_map, List.getElem?_map,
    List.getElem?_range (by norm_num), List.getElem?_range (by norm_num),
    List.getElem?_range (by norm_num)]
  simp only [Option.map_some', int_wrap]
  norm_num

/-! ## Instances of the claims on the sample inputs -/

/-- Instance of the theorem for C1 on `sample_calls`. -/
theorem fifo_order_witness :
    (∀ n t, call.enqueue n t ∈ sample_calls → n ≠ 0) ∧
    ∃ l tr, run sample_calls init_list = some (l, tr) ∧ tr.map Prod.fst = sample_calls ∧
      dequeued_numbers tr <+: written_numbers tr :=
  have h : ∀ n t, call.enqueue n t ∈ sample_calls → n ≠ 0 := by
    intro n t hm
    simp [sample_calls] at hm
    omega
  ⟨h, fifo_order sample_calls h⟩

/-- Instance of the theorem for C2 on `sample_pairs`. -/
theorem capacity_bound_witness :
    (∀ c ∈ sample_pairs, c.1 ≠ 0) ∧
    ∃ l tr, run (sample_pairs.map enqueue_call) init_list = some (l, tr) ∧
      tr.map Prod.fst = sample_pairs.map enqueue_call ∧
      tr.map Prod.snd =
        (sample_pairs.take NUM).map (fun _ => report.timer timer_report.initialized) ++
          (sample_pairs.drop NUM).map (fun c => report.timer (timer_report.overflow c.1)) :=
  ⟨by decide, capacity_bound sample_pairs (by decide)⟩

/-- Instance of the theorem for C3 on `sample_calls`. -/
theorem occupancy_conservation_witness :
    (∀ n t, call.enqueue n t ∈ sample_calls → 1 ≤ n) ∧
    ∃ l tr, run sample_calls init_list = some (l, tr) ∧ tr.map Prod.fst = sample_calls ∧
      (occupied_count l : Int) =
        ((tr.filterMap written_of).length : Int) - ((tr.filterMap dequeued_of).length : Int) ∧
      occupied_count l ≤ 5 :=
  have h : ∀ n t, call.enqueue n t ∈ sample_calls → 1 ≤ n := by
    intro n t hm
    simp [sample_calls] at hm
    omega
  ⟨h, occupancy_conservation sample_calls h⟩

/-- Instance of the theorem for C4 on `sample_ring`. -/
theorem dequeue_first_occupied_witness :
    (∃ p ∈ sample_ring, IS_NULL p = false) ∧
    (∀ p ∈ sample_ring, IS_NULL p = false → p.number ≠ 0) ∧
    ∃ pre s post, sample_ring = pre ++ s :: post ∧ (∀ p ∈ pre, IS_NULL p = true) ∧
      IS_NULL s = false ∧
      button_thread sample_ring =
        (pre ++ { number := 0, time := 0 } :: post,
          button_report.element s.number (some s.time)) ∧
      IS_NULL { number := 0, time := 0 } = true :=
  ⟨by decide, by decide, dequeue_first_occupied sample_ring (by decide) (by decide)⟩

/-- Instance of the theorem for C5 on `sample_ring` behind an occupied first entry. -/
theorem drop_newest_witness :
    IS_NULL { number := 3, time := 30 } = false ∧
    (timer_callback_locked 6 60 ({ number := 3, time := 30 } :: sample_ring) =
        some ({ number := 3, time := 30 } :: sample_ring, timer_report.overflow 6) ∧
      ∀ (BITS_PER_LONG : Nat) (s : module_state),
        s.list_head = { number := 3, time := 30 } :: sample_ring →
        ∃ s1, timer_callback BITS_PER_LONG 60 s =
            some (s1, timer_report.overflow (int_wrap (s.cur_num + 1))) ∧
          s1.list_head = { number := 3, time := 30 } :: sample_ring) :=
  ⟨by decide, drop_newest { number := 3, time := 30 } sample_ring (by decide) 6 60⟩

/-- Instance of the theorem for C6 on the initial ring. -/
theorem dequeue_empty_witness :
    (∀ p ∈ init_list, IS_NULL p = true) ∧
    (button_thread init_list = (init_list, button_report.not_exist) ∧
      init_list = [{ number := 0, time := 0 }, { number := 0, time := 0 },
        { number := 0, time := 0 }, { number := 0, time := 0 }, { number := 0, time := 0 }] ∧
      button_thread init_list = (init_list, button_report.not_exist)) :=
  ⟨by decide, dequeue_empty init_list (by decide)⟩

/-- Instance of the theorem for C7 with `N = NUM` and timestamps `100 * i`. -/
theorem saturation_and_recovery_witness :
    0 < NUM ∧
    ∃ tr, run (saturation_calls NUM (fun i => 100 * (i : Int)) 999) (init_list_loop NUM []) =
        some (init_list_loop NUM [], tr) ∧
      tr.map Prod.fst = saturation_calls NUM (fun i => 100 * (i : Int)) 999 ∧
      tr.map Prod.snd = saturation_reports NUM (fun i => 100 * (i : Int)) :=
  ⟨by decide, saturation_and_recovery NUM (by decide) (fun i => 100 * (i : Int)) 999⟩

/-- Instance of the theorem for C8 on `sample_ring` with two extra dequeues. -/
theorem no_double_consumption_witness :
    (∀ p ∈ sample_ring, IS_NULL p = false → p.number ≠ 0) ∧
    ((button_thread_times (occupied_count sample_ring + 1 + 2) sample_ring).2 =
        (sample_ring.filter (fun p => !IS_NULL p)).map report_of ++
          List.replicate (1 + 2) button_report.not_exist ∧
      (button_thread_times (occupied_count sample_ring + 1 + 2) sample_ring).1 =
        List.replicate sample_ring.length { number := 0, time := 0 } ∧
      ∀ m, (button_thread_times m sample_ring).1 = clear_first m sample_ring ∧
        (button_thread_times m sample_ring).1.filter (fun p => !IS_NULL p) =
          (sample_ring.filter (fun p => !IS_NULL p)).drop m ∧
        (button_thread_times m sample_ring).2 =
          ((sample_ring.filter (fun p => !IS_NULL p)).take m).map report_of ++
            List.replicate (m - occupied_count sample_ring) button_report.not_exist) :=
  ⟨by decide, no_double_consumption sample_ring (by decide) 2⟩

/-- Instance of the theorem for C10 on `sample_module_calls`. -/
theorem sequence_numbers_until_wrap_witness :
    timer_count sample_module_calls ≤ 2147483647 ∧
    ∃ s tr, module_run 32 sample_module_calls (init_state 32 250 0) = some (s, tr) ∧
      tr.map module_event.call = sample_module_calls ∧
      used_numbers tr =
        (List.range (timer_count sample_module_calls)).map (fun i => ((i + 1 : Nat) : Int)) ∧
      (∀ n ∈ used_numbers tr, n ≠ 0) ∧
      ∀ e ∈ tr, ∀ n, e.report = report.timer (timer_report.overflow n) → n = e.cur_num :=
  ⟨by decide, sequence_numbers_until_wrap 32 250 0 sample_module_calls (by decide)⟩

/-! ## Setup, teardown and the timer -/

theorem init_alloc_loop_all_ok (ok : Nat → Bool) (n i : Nat) (head : List list_data)
    (h : ∀ j, i ≤ j → j < i + n → ok j = true) :
    init_alloc_loop ok n i head = (init_list_loop n head, true) := by
  induction n generalizing i head with
  | zero => rfl
  | succ n ih =>
    have h0 : ok i = true := h i (Nat.le_refl _) (by omega)
    rw [init_alloc_loop, if_pos h0, init_list_loop]
    exact ih (i + 1) _ (fun j h1 h2 => h j (by omega) (by omega))

theorem init_alloc_loop_fails (ok : Nat → Bool) (n i : Nat) (head : List list_data) :
    (init_alloc_loop ok n i head).2 = true ↔ ∀ j, i ≤ j → j < i + n → ok j = true := by
  induction n generalizing i head with
  | zero =>
    simp only [init_alloc_loop, true_iff]
    intro j h1 h2
    omega
  | succ n ih =>
    rw [init_alloc_loop]
    by_cases h0 : ok i = true
    · rw [if_pos h0, ih]
      constructor
      · intro h j h1 h2
        by_cases hj : j = i
        · rw [hj]; exact h0
        · exact h j (by omega) (by omega)
      · intro h j h1 h2
        exact h j (by omega) (by omega)
    · rw [if_neg h0]
      constructor
      · intro h; cases h
      · intro h; exact absurd (h i (Nat.le_refl _) (by omega)) h0

/-- After a failed setup the timer is armed exactly when every allocation succeeded. -/
theorem init_failure_timer (bits HZ jiffies : Nat) (o : setup_outcomes)
    (h : (concurrency_module_init bits HZ jiffies o).1 ≠ 0) :
    (concurrency_module_init bits HZ jiffies o).2.list_freed = true ∧
    ((concurrency_module_init bits HZ jiffies o).2.state.timer_expires ≠ none ↔
      ∀ j, j < NUM → o.kmalloc_ok j = true) := by
  have hiff := init_alloc_loop_fails o.kmalloc_ok NUM 0 []
  simp only [Nat.zero_le, Nat.zero_add, true_implies] at hiff
  rw [← hiff]
  by_cases ha : (init_alloc_loop o.kmalloc_ok NUM 0 []).2 = false
  · simp [concurrency_module_init, static_image, ha]
  · have ha1 : (init_alloc_loop o.kmalloc_ok NUM 0 []).2 = true := by simpa using ha
    by_cases h1 : (button_gpio_init o BUTTON (-1)).1 = 0
    · by_cases h2 : o.request_threaded_irq = 0
      · simp [concurrency_module_init, static_image, ha1, h1, h2] at h
      · simp [concurrency_module_init, static_image, ha1, h1, h2]
    · simp [concurrency_module_init, static_image, ha1, h1]

theorem init_success_state (bits HZ jiffies : Nat) (o : setup_outcomes)
    (h : (concurrency_module_init bits HZ jiffies o).1 = 0) :
    (concurrency_module_init bits HZ jiffies o).2.state = init_state bits HZ jiffies ∧
    (concurrency_module_init bits HZ jiffies o).2.list_freed = false ∧
    (concurrency_module_init bits HZ jiffies o).2.irq_registered = true := by
  by_cases ha : (init_alloc_loop o.kmalloc_ok NUM 0 []).2 = false
  · simp [concurrency_module_init, static_image, ha] at h
  · have ha1 : (init_alloc_loop o.kmalloc_ok NUM 0 []).2 = true := by simpa using ha
    have hall := (init_alloc_loop_fails o.kmalloc_ok NUM 0 []).mp ha1
    have hl := init_alloc_loop_all_ok o.kmalloc_ok NUM 0 [] hall
    by_cases h1 : (button_gpio_init o BUTTON (-1)).1 = 0
    · by_cases h2 : o.request_threaded_irq = 0
      · simp [concurrency_module_init, static_image, hl, h1, h2, init_state, init_list]
      · simp [concurrency_module_init, static_image, ha1, h1, h2] at h
    · simp [concurrency_module_init, static_image, ha1, h1] at h

theorem timer_callback_restart (bits : Nat) (t : Int) (s s1 : module_state) (r : timer_report)
    (h : timer_callback bits t s = some (s1, r)) :
    s1.restart = s.restart ∧ s1.delay_in_jiffies = s.delay_in_jiffies ∧
      (s.restart = true → s1.timer_expires = some s1.start) := by
  unfold timer_callback at h
  simp only at h
  cases hq : timer_callback_locked (int_wrap (s.cur_num + 1)) t s.list_head with
  | none => simp [hq] at h
  | some q =>
    obtain ⟨l, rep⟩ := q
    simp only [hq] at h
    by_cases hr : s.restart = true
    · rw [if_pos hr] at h
      simp only [Option.some.injEq, Prod.mk.injEq] at h
      rw [← h.1]
      simp [hr]
    · rw [if_neg hr] at h
      simp only [Option.some.injEq, Prod.mk.injEq] at h
      rw [← h.1]
      simp [hr]

theorem module_run_restart (bits : Nat) (calls : List module_call) :
    ∀ (s s1 : module_state) (tr : List module_event),
      module_run bits calls s = some (s1, tr) → s.restart = true →
      s.timer_expires = some s.start →
      s1.restart = true ∧ s1.timer_expires = some s1.start := by
  induction calls with
  | nil =>
    intro s s1 tr h hr ht
    simp only [module_run, Option.some.injEq, Prod.mk.injEq] at h
    rw [← h.1]; exact ⟨hr, ht⟩
  | cons c cs ih =>
    intro s s1 tr h hr ht
    simp only [module_run] at h
    cases hs : module_step bits c s with
    | none => simp [hs] at h
    | some q =>
      obtain ⟨s2, rep⟩ := q
      simp only [hs] at h
      cases hrun : module_run bits cs s2 with
      | none => simp [hrun] at h
      | some q2 =>
        obtain ⟨s3, tr3⟩ := q2
        simp only [hrun, Option.some.injEq, Prod.mk.injEq] at h
        rw [← h.1]
        cases c with
        | timer_fired t =>
          simp only [module_step] at hs
          cases htc : timer_callback bits t s with
          | none => simp [htc] at hs
          | some q3 =>
            obtain ⟨s4, r4⟩ := q3
            simp only [htc, Option.some.injEq, Prod.mk.injEq] at hs
            obtain ⟨h1, h2, h3⟩ := timer_callback_restart bits t s s4 r4 htc
            rw [← hs.1] at hrun
            exact ih s4 s3 tr3 hrun (h1.trans hr) (h3 hr)
        | button_pressed =>
          simp only [module_step, Option.some.injEq, Prod.mk.injEq] at hs
          rw [← hs.1] at hrun
          exact ih _ s3 tr3 hrun hr ht

/-! ## Arbitrary call sequences -/

theorem step_some (c : call) (l : List list_data) (hl : l ≠ []) :
    ∃ l1 r, step c l = some (l1, r) ∧ l1.length = l.length := by
  cases c with
  | enqueue n t =>
    obtain ⟨l1, r, h, hlen, _⟩ := timer_callback_locked_some n t l hl
    exact ⟨l1, report.timer r, by simp [step, h], hlen⟩
  | dequeue => exact ⟨_, _, rfl, button_thread_length l⟩

theorem run_total (calls : List call) :
    ∀ l : List list_data, l ≠ [] →
      ∃ l1 tr, run calls l = some (l1, tr) ∧ l1.length = l.length ∧
        tr.map Prod.fst = calls := by
  induction calls with
  | nil => intro l _; exact ⟨l, [], rfl, rfl, rfl⟩
  | cons c cs ih =>
    intro l hl
    obtain ⟨l1, r, hs, hlen⟩ := step_some c l hl
    have hne : l1 ≠ [] := by
      intro h0
      rw [h0] at hlen
      exact hl (List.length_eq_zero.mp hlen.symm)
    obtain ⟨l2, tr, hr, hlen2, hfst⟩ := ih l1 hne
    exact ⟨l2, (c, r) :: tr, by simp [run, hs, hr], hlen2.trans hlen, by simp [hfst]⟩

theorem written_numbers_sublist (tr : List (call × report)) :
    List.Sublist (written_numbers tr) (enqueue_numbers (tr.map Prod.fst)) := by
  induction tr with
  | nil => exact List.Sublist.slnil
  | cons e tr ih =>
    obtain ⟨c, r⟩ := e
    cases c with
    | dequeue =>
      have hw : written_of (call.dequeue, r) = none := rfl
      simp only [written_numbers, List.filterMap_cons_none hw, List.map_cons,
        enqueue_numbers] at ih ⊢
      exact ih
    | enqueue n t =>
      simp only [List.map_cons, enqueue_numbers]
      cases r with
      | button b =>
        have hw : written_of (call.enqueue n t, report.button b) = none := rfl
        simp only [written_numbers, List.filterMap_cons_none hw] at ih ⊢
        exact List.Sublist.cons _ ih
      | timer r1 =>
        cases r1 with
        | overflow m =>
          have hw : written_of (call.enqueue n t, report.timer (timer_report.overflow m)) =
              none := rfl
          simp only [written_numbers, List.filterMap_cons_none hw] at ih ⊢
          exact List.Sublist.cons _ ih
        | initialized =>
          have hw : written_of (call.enqueue n t, report.timer timer_report.initialized) =
              some (n, some t) := rfl
          simp only [written_numbers, List.filterMap_cons_some hw, List.map_cons] at ih ⊢
          exact List.Sublist.cons₂ _ ih

theorem all_null_eq_replicate (l : List list_data) (h : ∀ p ∈ l, IS_NULL p = true) :
    l = List.replicate l.length { number := 0, time := 0 } := by
  apply List.eq_replicate_iff.mpr
  exact ⟨rfl, fun p hp => (IS_NULL_iff p).mp (h p hp)⟩

/-- Never does `button_thread` report an element with number 0. -/
theorem button_thread_never_reports_zero (l : List list_data) (time : Option Int) :
    (button_thread l).2 ≠ button_report.element 0 time := by
  simp only [button_thread]
  split
  · rename_i h
    intro h1
    simp only [button_report.element.injEq] at h1
    exact h h1.1
  · intro h1; cases h1

theorem run_never_dequeues_zero (calls : List call) :
    ∀ (l l1 : List list_data) (tr : List (call × report)),
      run calls l = some (l1, tr) → ∀ time, (0, time) ∉ tr.filterMap dequeued_of := by
  induction calls with
  | nil =>
    intro l l1 tr h time
    simp only [run, Option.some.injEq, Prod.mk.injEq] at h
    rw [← h.2]; simp
  | cons c cs ih =>
    intro l l1 tr h time
    simp only [run] at h
    cases hs : step c l with
    | none => simp [hs] at h
    | some r =>
      obtain ⟨l2, rep⟩ := r
      simp only [hs] at h
      cases hr : run cs l2 with
      | none => simp [hr] at h
      | some r2 =>
        obtain ⟨l3, tr3⟩ := r2
        simp only [hr, Option.some.injEq, Prod.mk.injEq] at h
        rw [← h.2]
        have hi := ih l2 l3 tr3 hr time
        intro hm
        rw [List.filterMap_cons] at hm
        cases hd : dequeued_of (c, rep) with
        | none => rw [hd] at hm; exact hi hm
        | some d =>
          rw [hd] at hm
          rcases List.mem_cons.mp hm with h1 | h1
          · cases c with
            | enqueue n t =>
              simp only [step] at hs
              cases hq : timer_callback_locked n t l with
              | none => simp [hq] at hs
              | some q =>
                simp only [hq, Option.some.injEq, Prod.mk.injEq] at hs
                rw [← hs.2] at hd
                simp [dequeued_of] at hd
            | dequeue =>
              simp only [step, Option.some.injEq, Prod.mk.injEq] at hs
              rw [← hs.2] at hd
              cases hb : (button_thread l).2 with
              | not_exist => rw [hb] at hd; simp [dequeued_of] at hd
              | element num tm =>
                rw [hb] at hd
                simp only [dequeued_of, Option.some.injEq] at hd
                rw [← hd] at h1
                simp only [Prod.mk.injEq] at h1
                have := button_thread_never_reports_zero l tm
                rw [hb, ← h1.1] at this
                exact this rfl
          · exact hi h1

/-! ## The list against the array-and-cursor ring -/

theorem mod_succ_mod (a N : Nat) : ((a % N) + 1) % N = (a + 1) % N := by
  rw [Nat.add_mod, Nat.mod_mod, ← Nat.add_mod]

theorem set_rotate (slots : List spec_slot) (c k : Nat) (x : spec_slot)
    (hk : k < slots.length) :
    (slots.set ((k + c) % slots.length) x).rotate c = (slots.rotate c).set k x := by
  apply List.ext_getElem?
  intro m
  by_cases hm : m < slots.length
  · have hm1 : m < (slots.set ((k + c) % slots.length) x).length := by simpa using hm
    rw [List.getElem?_rotate hm1, List.length_set, List.getElem?_set, List.getElem?_set,
      List.getElem?_rotate hm, List.length_rotate]
    have hlt : (k + c) % slots.length < slots.length := Nat.mod_lt _ (by omega)
    by_cases hkm : k = m
    · subst hkm
      simp [hlt, hk]
    · have hne : (k + c) % slots.length ≠ (m + c) % slots.length := by
        intro heq
        have h1 : k ≡ m [MOD slots.length] := Nat.ModEq.add_right_cancel' c heq
        exact hkm (Nat.ModEq.eq_of_lt_of_lt h1 hk hm)
      rw [if_neg hne, if_neg hkm]
  · have h1 : ((slots.set ((k + c) % slots.length) x).rotate c).length ≤ m := by
      simp; omega
    have h2 : ((slots.rotate c).set k x).length ≤ m := by
      simp; omega
    rw [List.getElem?_eq_none h1, List.getElem?_eq_none h2]

theorem spec_scan_found (slots : List spec_slot) (c : Nat) (a : spec_slot)
    (post : List spec_slot) (pre : List spec_slot) :
    ∀ (j fuel : Nat), j + pre.length < slots.length →
      (slots.rotate c).drop j = pre ++ a :: post →
      (∀ x ∈ pre, x.occupied = false) → a.occupied = true → pre.length < fuel →
      spec_scan slots fuel ((c + j) % slots.length) =
        some ((c + j + pre.length) % slots.length) := by
  induction pre with
  | nil =>
    intro j fuel hj hdrop _ ha hf
    obtain ⟨f, rfl⟩ : ∃ f, fuel = f + 1 := ⟨fuel - 1, by simp at hf; omega⟩
    have hget : (slots.rotate c)[j]? = some a := by
      have := congrArg (fun l => l[0]?) hdrop
      simpa [List.getElem?_drop] using this
    rw [List.getElem?_rotate (by simpa using hj)] at hget
    rw [Nat.add_comm] at hget
    simp [spec_scan, hget, ha]
  | cons x pre ih =>
    intro j fuel hj hdrop hpre ha hf
    obtain ⟨f, rfl⟩ : ∃ f, fuel = f + 1 := ⟨fuel - 1, by simp at hf; omega⟩
    have hget : (slots.rotate c)[j]? = some x := by
      have := congrArg (fun l => l[0]?) hdrop
      simpa [List.getElem?_drop] using this
    have hjl : j < slots.length := by simp at hj; omega
    rw [List.getElem?_rotate hjl, Nat.add_comm] at hget
    have hx : x.occupied = false := hpre x (List.mem_cons_self _ _)
    have hdrop1 : (slots.rotate c).drop (j + 1) = pre ++ a :: post := by
      have := congrArg List.tail hdrop
      simpa [List.tail_drop] using this
    have hi := ih (j + 1) f (by simp at hj; omega) hdrop1
      (fun y hy => hpre y (List.mem_cons_of_mem _ hy)) ha (by simp at hf; omega)
    simp only [spec_scan, hget, hx]
    rw [mod_succ_mod]
    simp only [Bool.false_eq_true, if_false]
    rw [show c + j + 1 = c + (j + 1) by omega, hi]
    congr 2
    simp
    omega

theorem spec_scan_none (slots : List spec_slot) (c : Nat) :
    ∀ (fuel j : Nat), j + fuel ≤ slots.length →
      (∀ x ∈ (slots.rotate c).drop j, x.occupied = false) →
      spec_scan slots fuel ((c + j) % slots.length) = none := by
  intro fuel
  induction fuel with
  | zero => intro j _ _; rfl
  | succ f ih =>
    intro j hj hall
    have hjl : j < slots.length := by omega
    have hjr : j < (slots.rotate c).length := by simpa using hjl
    have hget : (slots.rotate c)[j]? = some (slots.rotate c)[j] := List.getElem?_eq_getElem hjr
    have hmem : (slots.rotate c)[j] ∈ (slots.rotate c).drop j := by
      rw [List.drop_eq_getElem_cons hjr]
      exact List.mem_cons_self _ _
    have hx := hall _ hmem
    rw [List.getElem?_rotate hjl, Nat.add_comm] at hget
    simp only [spec_scan, hget, hx]
    rw [mod_succ_mod]
    simp only [Bool.false_eq_true, if_false]
    rw [show c + j + 1 = c + (j + 1) by omega]
    apply ih (j + 1) (by omega)
    intro y hy
    apply hall
    rw [List.drop_eq_getElem_cons hjr]
    exact List.mem_cons_of_mem _ hy

theorem slot_related_null (a : spec_slot) :
    slot_related { number := 0, time := 0 } { a with occupied := false } := by
  simp [slot_related, IS_NULL_zero]

/-- The Consumer on a list related, slot by slot, to a list of specification slots: either
no slot is occupied and nothing changes, or the first occupied slot is reported and
cleared on both sides. -/
theorem button_thread_related (l : List list_data) (R : List spec_slot)
    (h : List.Forall₂ slot_related l R) :
    (∀ p ∈ l, IS_NULL p = false → p.number ≠ 0) →
    ((∀ a ∈ R, a.occupied = false) ∧ button_thread l = (l, button_report.not_exist)) ∨
    (∃ Rpre a Rpost l1, R = Rpre ++ a :: Rpost ∧ (∀ x ∈ Rpre, x.occupied = false) ∧
      a.occupied = true ∧
      button_thread l = (l1, button_report.element a.sequence (some a.timestamp)) ∧
      List.Forall₂ slot_related l1 (Rpre ++ { a with occupied := false } :: Rpost) ∧
      (∀ p ∈ l1, IS_NULL p = false → p.number ≠ 0)) := by
  induction h with
  | nil => intro _; exact Or.inl ⟨by simp, rfl⟩
  | @cons c a cs as hrel htail ih =>
    intro hnum
    have hnum1 : ∀ p ∈ cs, IS_NULL p = false → p.number ≠ 0 :=
      fun p hp => hnum p (List.mem_cons_of_mem _ hp)
    by_cases ha : a.occupied = true
    · have hc : IS_NULL c = false := by
        have := hrel.1
        rw [ha] at this
        simpa using this.symm
      have hcn : c.number ≠ 0 := hnum c (List.mem_cons_self _ _) hc
      obtain ⟨h1, h2⟩ := hrel.2 ha
      refine Or.inr ⟨[], a, as, { number := 0, time := 0 } :: cs, rfl, by simp, ha, ?_, ?_, ?_⟩
      · rw [button_thread_cons_occupied c cs hc, if_pos hcn, h1, h2]
      · exact List.Forall₂.cons (slot_related_null a) htail
      · intro p hp hpn
        rcases List.mem_cons.mp hp with h3 | h3
        · rw [h3, IS_NULL_zero] at hpn; cases hpn
        · exact hnum1 p h3 hpn
    · have ha1 : a.occupied = false := by simpa using ha
      have hc : IS_NULL c = true := by
        have := hrel.1
        rw [ha1] at this
        simpa using this.symm
      rcases ih hnum1 with ⟨hall, hb⟩ | ⟨Rpre, b, Rpost, l1, hR, hpre, hb, hbt, hF, hn1⟩
      · refine Or.inl ⟨?_, ?_⟩
        · intro x hx
          rcases List.mem_cons.mp hx with h3 | h3
          · rw [h3]; exact ha1
          · exact hall x h3
        · rw [button_thread_cons_null c cs hc, hb]
      · refine Or.inr ⟨a :: Rpre, b, Rpost, c :: l1, by rw [hR]; rfl, ?_, hb, ?_, ?_, ?_⟩
        · intro x hx
          rcases List.mem_cons.mp hx with h3 | h3
          · rw [h3]; exact ha1
          · exact hpre x h3
        · rw [button_thread_cons_null c cs hc, hbt]
        · exact List.Forall₂.cons hrel hF
        · intro p hp hpn
          rcases List.mem_cons.mp hp with h3 | h3
          · rw [h3, hc] at hpn; cases hpn
          · exact hn1 p h3 hpn

theorem spec_dequeue_empty (r : spec_ring) (hc : r.cursor < r.slots.length)
    (hall : ∀ a ∈ r.slots.rotate r.cursor, a.occupied = false) :
    spec_dequeue r = (r, spec_dequeue_result.empty) := by
  have h := spec_scan_none r.slots r.cursor r.slots.length 0 (by omega) (by simpa using hall)
  rw [Nat.add_zero, Nat.mod_eq_of_lt hc] at h
  simp [spec_dequeue, h]

theorem spec_dequeue_item (r : spec_ring) (hc : r.cursor < r.slots.length)
    (Rpre Rpost : List spec_slot) (a : spec_slot)
    (hR : r.slots.rotate r.cursor = Rpre ++ a :: Rpost)
    (hpre : ∀ x ∈ Rpre, x.occupied = false) (ha : a.occupied = true) :
    (spec_dequeue r).2 = spec_dequeue_result.item a.sequence a.timestamp ∧
    (spec_dequeue r).1.cursor = r.cursor ∧
    (spec_dequeue r).1.slots.length = r.slots.length ∧
    (spec_dequeue r).1.slots.rotate r.cursor = Rpre ++ { a with occupied := false } :: Rpost := by
  have hlen : Rpre.length < r.slots.length := by
    have := congrArg List.length hR
    simp at this
    omega
  have h := spec_scan_found r.slots r.cursor a Rpost Rpre 0 r.slots.length (by omega)
    (by simpa using hR) hpre ha hlen
  rw [Nat.add_zero, Nat.mod_eq_of_lt hc] at h
  have hget : r.slots[(r.cursor + Rpre.length) % r.slots.length]? = some a := by
    rw [Nat.add_comm, ← List.getElem?_rotate hlen, hR, List.getElem?_append_right (Nat.le_refl _),
      Nat.sub_self]
    simp
  have hset := set_rotate r.slots r.cursor Rpre.length { a with occupied := false } hlen
  rw [Nat.add_comm] at hset
  have hd : spec_dequeue r =
      (⟨r.slots.set ((r.cursor + Rpre.length) % r.slots.length)
          ⟨false, a.sequence, a.timestamp⟩, r.cursor⟩,
        spec_dequeue_result.item a.sequence a.timestamp) := by
    simp only [spec_dequeue, h, hget]
  rw [hd]
  refine ⟨rfl, rfl, by simp, ?_⟩
  show (r.slots.set ((r.cursor + Rpre.length) % r.slots.length)
    ⟨false, a.sequence, a.timestamp⟩).rotate r.cursor = _
  rw [hset, hR]
  simp

theorem rotate_cursor_cons (slots : List spec_slot) (c : Nat) (hc : c < slots.length) :
    slots = slots.take c ++ slots[c] :: slots.drop (c + 1) ∧
    slots.rotate c = slots[c] :: (slots.drop (c + 1) ++ slots.take c) := by
  constructor
  · rw [← List.drop_eq_getElem_cons hc, List.take_append_drop]
  · rw [List.rotate_eq_drop_append_take (Nat.le_of_lt hc), List.drop_eq_getElem_cons hc]
    rfl

theorem set_rotate_succ (slots : List spec_slot) (c : Nat) (hc : c < slots.length)
    (x : spec_slot) :
    (slots.set c x).rotate ((c + 1) % slots.length) =
      slots.drop (c + 1) ++ slots.take c ++ [x] := by
  have hlen : (slots.set c x).length = slots.length := by simp
  have hset : slots.set c x = (slots.take c ++ [x]) ++ slots.drop (c + 1) := by
    conv_lhs => rw [(rotate_cursor_cons slots c hc).1]
    rw [List.set_append_right _ _ (by simp [Nat.le_of_lt hc])]
    simp [Nat.min_eq_left (Nat.le_of_lt hc)]
    rw [List.drop_eq_getElem_cons hc]
    rfl
  have hl : (slots.take c ++ [x]).length = c + 1 := by
    simp [Nat.min_eq_left (Nat.le_of_lt hc)]
  rw [← hlen, List.rotate_mod, hset, ← hl, List.rotate_append_length_eq]
  simp

theorem enqueue_related (l : List list_data) (r : spec_ring) (hrel : ring_related l r)
    (number time : Int) (hn : number ≠ 0) :
    ∃ l1 rep, timer_callback_locked number time l = some (l1, rep) ∧
      enqueue_matches rep (spec_enqueue number time r).2 = true ∧
      ring_related l1 (spec_enqueue number time r).1 ∧
      (∀ p ∈ l1, p ∈ l ∨ p = { number := number, time := time }) := by
  obtain ⟨hc, hF⟩ := hrel
  obtain ⟨_, hrot⟩ := rotate_cursor_cons r.slots r.cursor hc
  have hget : r.slots[r.cursor]? = some r.slots[r.cursor] := List.getElem?_eq_getElem hc
  rw [hrot] at hF
  cases l with
  | nil => cases hF
  | cons c cs =>
    rw [List.forall₂_cons] at hF
    obtain ⟨hca, hrest⟩ := hF
    by_cases ha : r.slots[r.cursor].occupied = true
    · have hcn : IS_NULL c = false := by
        have := hca.1
        rw [ha] at this
        simpa using this.symm
      refine ⟨c :: cs, timer_report.overflow number,
        by simp [timer_callback_locked, hcn], ?_, ?_, fun p hp => Or.inl hp⟩
      · simp [spec_enqueue, hget, ha, enqueue_matches]
      · have hs : spec_enqueue number time r = (r, spec_enqueue_result.dropped) := by
          simp [spec_enqueue, hget, ha]
        rw [hs]
        refine ⟨hc, ?_⟩
        show List.Forall₂ slot_related (c :: cs) (r.slots.rotate r.cursor)
        rw [hrot]
        exact List.Forall₂.cons hca hrest
    · have ha1 : r.slots[r.cursor].occupied = false := by simpa using ha
      have hcn : IS_NULL c = true := by
        have := hca.1
        rw [ha1] at this
        simpa using this.symm
      have hs : spec_enqueue number time r =
          (⟨r.slots.set r.cursor ⟨true, number, time⟩, (r.cursor + 1) % r.slots.length⟩,
            spec_enqueue_result.written) := by
        simp [spec_enqueue, hget, ha1]
      refine ⟨cs ++ [{ number := number, time := time }], timer_report.initialized,
        by simp [timer_callback_locked, hcn, list_rotate_left], ?_, ?_, ?_⟩
      · rw [hs]; rfl
      · rw [hs]
        refine ⟨?_, ?_⟩
        · show (r.cursor + 1) % r.slots.length < (r.slots.set r.cursor ⟨true, number, time⟩).length
          rw [List.length_set]
          exact Nat.mod_lt _ (by omega)
        · show List.Forall₂ slot_related (cs ++ [{ number := number, time := time }])
            ((r.slots.set r.cursor ⟨true, number, time⟩).rotate ((r.cursor + 1) % r.slots.length))
          rw [set_rotate_succ r.slots r.cursor hc]
          apply List.rel_append hrest
          refine List.Forall₂.cons ?_ List.Forall₂.nil
          refine ⟨?_, fun _ => ⟨rfl, rfl⟩⟩
          simp [IS_NULL, hn]
      · intro p hp
        rcases List.mem_append.mp hp with h1 | h1
        · exact Or.inl (List.mem_cons_of_mem _ h1)
        · exact Or.inr (List.mem_singleton.mp h1)

theorem dequeue_related (l : List list_data) (r : spec_ring) (hrel : ring_related l r)
    (hnum : ∀ p ∈ l, IS_NULL p = false → p.number ≠ 0) :
    dequeue_matches (button_thread l).2 (spec_dequeue r).2 = true ∧
    ring_related (button_thread l).1 (spec_dequeue r).1 ∧
    (∀ p ∈ (button_thread l).1, IS_NULL p = false → p.number ≠ 0) := by
  obtain ⟨hc, hF⟩ := hrel
  rcases button_thread_related l _ hF hnum with
    ⟨hall, hb⟩ | ⟨Rpre, a, Rpost, l1, hR, hpre, ha, hbt, hF1, hn1⟩
  · rw [hb, spec_dequeue_empty r hc hall]
    exact ⟨rfl, ⟨hc, hF⟩, hnum⟩
  · obtain ⟨h1, h2, h3, h4⟩ := spec_dequeue_item r hc Rpre Rpost a hR hpre ha
    rw [hbt, h1]
    refine ⟨by simp [dequeue_matches], ⟨?_, ?_⟩, hn1⟩
    · rw [h2, h3]; exact hc
    · rw [h2, h4]; exact hF1

theorem init_related : ring_related init_list (spec_init NUM) := by
  refine ⟨by decide, ?_⟩
  have h : (spec_init NUM).slots.rotate (spec_init NUM).cursor =
      List.replicate 5 { occupied := false, sequence := 0, timestamp := 0 } := by
    simp [spec_init, NUM]
  rw [h, init_list_eq]
  simp [List.replicate, slot_related, IS_NULL_zero]

/-! ## The claims on setup, the timer, refinement and the sentinel -/

/-- Claim C11 (setup failure keeps the core from running) fails on the code: when every
allocation succeeds and `gpio_request` answers -16, `concurrency_module_init` returns -16
with the slots released by `LIST_FREE` and the timer still armed at `start = 1250`, because
`mod_timer` has already run and no error label cancels the timer. The teardown path
`concurrency_module_exit` does cancel it. -/
theorem init_failure_leaves_timer_armed :
    concurrency_module_init 32 250 1000
        { kmalloc_ok := fun _ => true, gpio_request := -16, gpio_direction_input := 0,
          request_threaded_irq := 0 } =
      (-16,
        { state :=
            { list_head := init_list, cur_num := 0, start := 1250, delay_in_jiffies := 250,
              restart := true, timer_expires := some 1250 }
          list_freed := true
          button_gpio := -1
          gpio_held := false
          irq_registered := false }) ∧
    (concurrency_module_exit
        { state := init_state 32 250 1000, list_freed := false, button_gpio := BUTTON,
          gpio_held := true, irq_registered := true }).state.timer_expires = none := by
  constructor
  · decide
  · rfl

/-- Claim C12 (rescheduling is gated only by the continue flag). On every module state with
a non-empty ring, once the timer has expired the callback completes the ring update of its
critical section, written or dropped alike, and leaves the timer armed exactly when
`restart` is set; the new expiry is `start + delay_in_jiffies` reduced modulo
`2 ^ BITS_PER_LONG`, and with the flag clear neither `start` nor the timer is touched. -/
theorem rescheduling_gated_by_restart (BITS_PER_LONG : Nat) (cur_time : Int) (s : module_state)
    (h : s.list_head ≠ []) :
    ∃ l rep s1,
      timer_callback_locked (int_wrap (s.cur_num + 1)) cur_time s.list_head = some (l, rep) ∧
      timer_callback BITS_PER_LONG cur_time (expire_timer s) = some (s1, rep) ∧
      s1.list_head = l ∧ s1.cur_num = int_wrap (s.cur_num + 1) ∧
      s1.restart = s.restart ∧ s1.delay_in_jiffies = s.delay_in_jiffies ∧
      (s1.timer_expires ≠ none ↔ s.restart = true) ∧
      (s.restart = true →
        s1.start = (s.start + s.delay_in_jiffies) % 2 ^ BITS_PER_LONG ∧
        s1.timer_expires = some ((s.start + s.delay_in_jiffies) % 2 ^ BITS_PER_LONG)) ∧
      (s.restart = false → s1.start = s.start ∧ s1.timer_expires = none) := by
  obtain ⟨l, rep, hl, _, _⟩ :=
    timer_callback_locked_some (int_wrap (s.cur_num + 1)) cur_time s.list_head h
  by_cases hr : s.restart = true
  · refine ⟨l, rep, _, hl, by simp [timer_callback, expire_timer, hl, hr]; rfl, ?_⟩
    simp [hr]
  · have hr1 : s.restart = false := by simpa using hr
    refine ⟨l, rep, _, hl, by simp [timer_callback, expire_timer, hl, hr1]; rfl, ?_⟩
    simp [hr1]

/-- Claim C15 (contiguity invariant). In every ring reached from the initial ring by dequeues
and by enqueues whose numbers are non-zero and strictly increasing in call order, the list
read from the head is a block of empty slots followed by a block of occupied slots that
ends at the list tail, and the numbers of the occupied block are strictly increasing. -/
theorem contiguity_invariant (calls : List call)
    (hinc : (enqueue_numbers calls).Pairwise (fun a b => a < b))
    (hnz : ∀ n ∈ enqueue_numbers calls, n ≠ 0) :
    ∃ l tr, run calls init_list = some (l, tr) ∧
      ∃ k occ, l = List.replicate k { number := 0, time := 0 } ++ occ ∧
        l.length = NUM ∧
        (∀ p ∈ occ, IS_NULL p = false) ∧
        (occ.map list_data.number).Pairwise (fun a b => a < b) := by
  have hmem : ∀ (cs : List call) (n t : Int), call.enqueue n t ∈ cs → n ∈ enqueue_numbers cs := by
    intro cs
    induction cs with
    | nil => intro n t h; simp at h
    | cons c cs ih =>
      intro n t h
      cases c with
      | dequeue =>
        rcases List.mem_cons.mp h with h1 | h1
        · cases h1
        · exact ih n t h1
      | enqueue m u =>
        rcases List.mem_cons.mp h with h1 | h1
        · cases h1; simp [enqueue_numbers]
        · simp only [enqueue_numbers, List.mem_cons]
          exact Or.inr (ih n t h1)
  have h0 : ∀ n t, call.enqueue n t ∈ calls → n ≠ 0 :=
    fun n t h => hnz n (hmem calls n t h)
  obtain ⟨k, occ, tr, hrun, hocc, hlen, hfst, hacc⟩ :=
    run_shape calls 5 [] h0 (by simp) (by simp)
  refine ⟨_, tr, by rw [init_list_eq]; simpa using hrun, k, occ, rfl, ?_, ?_, ?_⟩
  · simp only [List.length_append, List.length_replicate, List.length_nil] at hlen ⊢
    exact hlen
  · intro p hp
    exact IS_NULL_false_of_number p (hocc p hp)
  · have hsub := written_numbers_sublist tr
    rw [hfst] at hsub
    have hw : (written_numbers tr).Pairwise (fun a b => a < b) := hinc.sublist hsub
    simp only [List.map_nil, List.nil_append] at hacc
    rw [written_numbers, hacc, List.map_append, List.pairwise_append] at hw
    have := hw.2.1
    simpa [payload_of, Function.comp_def] using this

/-- Claim C16, amended (the list refines the array-and-cursor ring for non-zero numbers).
For every list related to a ring of the specification, whose occupied entries have non-zero
numbers, and every payload with a non-zero number: the critical section of `timer_callback`
and `spec_enqueue` report the same outcome and end in related states, `button_thread` and
`spec_dequeue` report the same outcome and payload and end in related states, and the
condition on the numbers is kept. -/
theorem list_refines_spec_ring (l : List list_data) (r : spec_ring)
    (hrel : ring_related l r) (hnum : ∀ p ∈ l, IS_NULL p = false → p.number ≠ 0)
    (number time : Int) (hn : number ≠ 0) :
    (∃ l1 rep, timer_callback_locked number time l = some (l1, rep) ∧
      enqueue_matches rep (spec_enqueue number time r).2 = true ∧
      ring_related l1 (spec_enqueue number time r).1 ∧
      (∀ p ∈ l1, IS_NULL p = false → p.number ≠ 0)) ∧
    (dequeue_matches (button_thread l).2 (spec_dequeue r).2 = true ∧
      ring_related (button_thread l).1 (spec_dequeue r).1 ∧
      (∀ p ∈ (button_thread l).1, IS_NULL p = false → p.number ≠ 0)) := by
  refine ⟨?_, dequeue_related l r hrel hnum⟩
  obtain ⟨l1, rep, h1, h2, h3, h4⟩ := enqueue_related l r hrel number time hn
  refine ⟨l1, rep, h1, h2, h3, ?_⟩
  intro p hp hpn
  rcases h4 p hp with h5 | h5
  · exact hnum p h5 hpn
  · rw [h5]; exact hn

/-- Claim C16, counterexample. The initial list and the initial array are related; the
enqueue of the payload `(0, 0)` is reported as written on both sides, yet the list slot is
still `IS_NULL` while the array slot is occupied, so the states are no longer related, and
the next dequeue reports empty on the list and `item 0 0` on the array. -/
theorem sentinel_payload_breaks_refinement :
    ring_related init_list (spec_init NUM) ∧
    timer_callback_locked 0 0 init_list = some (init_list, timer_report.initialized) ∧
    (spec_enqueue 0 0 (spec_init NUM)).2 = spec_enqueue_result.written ∧
    ¬ ring_related init_list (spec_enqueue 0 0 (spec_init NUM)).1 ∧
    (button_thread init_list).2 = button_report.not_exist ∧
    (spec_dequeue (spec_enqueue 0 0 (spec_init NUM)).1).2 = spec_dequeue_result.item 0 0 := by
  refine ⟨init_related, by decide, by decide, ?_, by decide, by decide⟩
  intro h
  have hs : (spec_enqueue 0 0 (spec_init NUM)).1.slots.rotate
      (spec_enqueue 0 0 (spec_init NUM)).1.cursor =
      [{ occupied := false, sequence := 0, timestamp := 0 },
        { occupied := false, sequence := 0, timestamp := 0 },
        { occupied := false, sequence := 0, timestamp := 0 },
        { occupied := false, sequence := 0, timestamp := 0 },
        { occupied := true, sequence := 0, timestamp := 0 }] := by decide
  have hF := h.2
  rw [hs, init_list_eq] at hF
  simp [List.replicate, slot_related, IS_NULL_zero] at hF

/-- Claim C17 (payload round trip). On every ring with at least one slot and no occupied
slot, the enqueue of a payload with non-zero number is written, and the dequeue that follows
reports exactly that number and time and gives back the ring with no occupied slot. -/
theorem payload_round_trip (l : List list_data) (hne : l ≠ [])
    (hnull : ∀ p ∈ l, IS_NULL p = true) (number time : Int) (hn : number ≠ 0) :
    ∃ l1, timer_callback_locked number time l = some (l1, timer_report.initialized) ∧
      occupied_count l1 = 1 ∧
      button_thread l1 = (l, button_report.element number (some time)) ∧
      occupied_count l = 0 := by
  have hl := all_null_eq_replicate l hnull
  obtain ⟨k, hk⟩ : ∃ k, l.length = k + 1 :=
    ⟨l.length - 1, by have := List.length_pos.mpr hne; omega⟩
  rw [hk] at hl
  have h1 := timer_callback_locked_shape_succ number time k []
  have h2 := button_thread_shape_cons k { number := number, time := time } [] hn
  simp only [List.append_nil, List.nil_append] at h1 h2
  refine ⟨_, by rw [hl]; exact h1, ?_, by rw [h2, ← hl], ?_⟩
  · have := occupied_count_shape k [{ number := number, time := time }]
      (by intro p hp; rw [List.mem_singleton] at hp; rw [hp]; exact hn)
    simpa using this
  · have := occupied_count_shape (k + 1) [] (by simp)
    rw [List.append_nil, ← hl] at this
    simpa using this

/-- Claim C18 (sentinel emptiness). A slot is `IS_NULL` exactly when number and time are both
0. Enqueuing the payload `(0, 0)` at an empty first entry takes the written branch and
rotates the list, the number of occupied slots stays the same, and in every call sequence
run afterwards no dequeue reports an item with number 0. -/
theorem sentinel_emptiness (ptr : list_data) (rest : List list_data)
    (hp : IS_NULL ptr = true) (calls : List call) :
    (∀ p : list_data, IS_NULL p = true ↔ (p.number = 0 ∧ p.time = 0)) ∧
    timer_callback_locked 0 0 (ptr :: rest) =
      some (list_rotate_left (ptr :: rest), timer_report.initialized) ∧
    occupied_count (list_rotate_left (ptr :: rest)) = occupied_count (ptr :: rest) ∧
    ∃ l1 tr, run calls (list_rotate_left (ptr :: rest)) = some (l1, tr) ∧
      tr.map Prod.fst = calls ∧
      ∀ time, (0, time) ∉ tr.filterMap dequeued_of := by
  have hz := (IS_NULL_iff ptr).mp hp
  subst hz
  refine ⟨fun p => by simp [IS_NULL], by simp [timer_callback_locked, IS_NULL_zero], ?_, ?_⟩
  · simp [occupied_count, list_rotate_left, List.countP_append, List.countP_cons, IS_NULL_zero]
  · obtain ⟨l1, tr, hrun, _, hfst⟩ :=
      run_total calls (list_rotate_left ({ number := 0, time := 0 } :: rest))
        (by simp [list_rotate_left])
    exact ⟨l1, tr, hrun, hfst, run_never_dequeues_zero calls _ l1 tr hrun⟩

/-- Claim C20 (the continue flag is never cleared). `concurrency_module_init` leaves
`restart = true` for every outcome of its collaborators; every state reached from module
start by timer callbacks and button presses has `restart = true`, so a timer callback run
there arms the timer again; `concurrency_module_exit` cancels the timer and leaves the
flag set. -/
theorem restart_never_cleared (BITS_PER_LONG HZ jiffies : Nat) (o : setup_outcomes)
    (calls : List module_call) (cur_time : Int) :
    (concurrency_module_init BITS_PER_LONG HZ jiffies o).2.state.restart = true ∧
    (∃ s tr, module_run BITS_PER_LONG calls (init_state BITS_PER_LONG HZ jiffies) = some (s, tr) ∧
      s.restart = true ∧
      (∃ s1 rep, timer_callback BITS_PER_LONG cur_time (expire_timer s) = some (s1, rep) ∧
        s1.timer_expires = some s1.start ∧ s1.restart = true) ∧
      ∀ m : module_image, m.state = s →
        (concurrency_module_exit m).state.restart = true ∧
        (concurrency_module_exit m).state.timer_expires = none) := by
  constructor
  · unfold concurrency_module_init
    simp only
    split
    · rfl
    · split
      · rfl
      · split <;> rfl
  · obtain ⟨s, tr, hrun, hlen, _⟩ :=
      module_run_numbers BITS_PER_LONG calls (init_state BITS_PER_LONG HZ jiffies) 0
        (init_state_list _ _ _) (by simp [init_state, int_wrap])
    obtain ⟨hr, _⟩ := module_run_restart BITS_PER_LONG calls _ s tr hrun rfl rfl
    have hne : (expire_timer s).list_head ≠ [] := by
      intro h0
      have h1 : s.list_head = [] := h0
      rw [h1] at hlen
      exact init_state_list BITS_PER_LONG HZ jiffies (List.length_eq_zero.mp hlen.symm)
    obtain ⟨s1, rep, htc, _, _, _⟩ := timer_callback_some BITS_PER_LONG cur_time (expire_timer s) hne
    obtain ⟨h1, _, h3⟩ := timer_callback_restart BITS_PER_LONG cur_time _ s1 rep htc
    refine ⟨s, tr, hrun, hr, ⟨s1, rep, htc, h3 hr, h1.trans hr⟩, ?_⟩
    intro m hm
    subst hm
    exact ⟨hr, rfl⟩

/-! ## Sequential runs: where dequeued items come from -/

theorem button_thread_mem (l : List list_data) :
    ∀ p ∈ (button_thread l).1, p ∈ l ∨ p = { number := 0, time := 0 } := by
  induction l with
  | nil => intro p hp; simp [button_thread, button_thread_scan] at hp
  | cons q rest ih =>
    intro p hp
    by_cases hq : IS_NULL q = true
    · rw [button_thread_cons_null q rest hq] at hp
      rcases List.mem_cons.mp hp with h1 | h1
      · exact Or.inl (h1 ▸ List.mem_cons_self _ _)
      · rcases ih p h1 with h2 | h2
        · exact Or.inl (List.mem_cons_of_mem _ h2)
        · exact Or.inr h2
    · rw [button_thread_cons_occupied q rest (by simpa using hq)] at hp
      rcases List.mem_cons.mp hp with h1 | h1
      · exact Or.inr h1
      · exact Or.inl (List.mem_cons_of_mem _ h1)

theorem button_thread_element_mem (l : List list_data) (num : Int) (time : Option Int)
    (h : (button_thread l).2 = button_report.element num time) :
    ∃ p ∈ l, IS_NULL p = false ∧ (num, time) = payload_of p := by
  induction l with
  | nil => simp [button_thread, button_thread_scan] at h
  | cons q rest ih =>
    by_cases hq : IS_NULL q = true
    · rw [button_thread_cons_null q rest hq] at h
      obtain ⟨p, hp, hpn, he⟩ := ih h
      exact ⟨p, List.mem_cons_of_mem _ hp, hpn, he⟩
    · have hq1 : IS_NULL q = false := by simpa using hq
      rw [button_thread_cons_occupied q rest hq1] at h
      simp only at h
      split at h
      · simp only [button_report.element.injEq] at h
        exact ⟨q, List.mem_cons_self _ _, hq1, by rw [← h.1, ← h.2]; rfl⟩
      · cases h

/-- Every item a sequential run dequeues is the payload of a slot occupied at the start or
the payload of one of its written enqueues, number and time together. -/
theorem run_dequeued_written (calls : List call) :
    ∀ (l l1 : List list_data) (tr : List (call × report)), run calls l = some (l1, tr) →
      ∀ e ∈ tr.filterMap dequeued_of,
        (∃ p ∈ l, IS_NULL p = false ∧ e = payload_of p) ∨ e ∈ tr.filterMap written_of := by
  induction calls with
  | nil =>
    intro l l1 tr h e he
    simp only [run, Option.some.injEq, Prod.mk.injEq] at h
    rw [← h.2] at he; simp at he
  | cons c cs ih =>
    intro l l1 tr h e he
    simp only [run] at h
    cases hs : step c l with
    | none => simp [hs] at h
    | some q =>
      obtain ⟨l2, rep⟩ := q
      simp only [hs] at h
      cases hr : run cs l2 with
      | none => simp [hr] at h
      | some q2 =>
        obtain ⟨l3, tr3⟩ := q2
        simp only [hr, Option.some.injEq, Prod.mk.injEq] at h
        rw [← h.2] at he ⊢
        have hi := ih l2 l3 tr3 hr e
        cases c with
        | enqueue n t =>
          simp only [step] at hs
          cases hq : timer_callback_locked n t l with
          | none => simp [hq] at hs
          | some q3 =>
            obtain ⟨l4, r4⟩ := q3
            simp only [hq, Option.some.injEq, Prod.mk.injEq] at hs
            obtain ⟨hl, hrep⟩ := hs
            subst hl; subst hrep
            have hd : dequeued_of (call.enqueue n t, report.timer r4) = none := rfl
            rw [List.filterMap_cons_none hd] at he
            cases l with
            | nil => simp [timer_callback_locked] at hq
            | cons ptr rest =>
              simp only [timer_callback_locked] at hq
              by_cases hn : IS_NULL ptr = true
              · rw [if_pos hn] at hq
                simp only [Option.some.injEq, Prod.mk.injEq, list_rotate_left] at hq
                obtain ⟨hl4, hr4⟩ := hq
                subst hl4; subst hr4
                have hw : written_of (call.enqueue n t, report.timer timer_report.initialized) =
                    some (n, some t) := rfl
                rw [List.filterMap_cons_some hw]
                rcases hi he with ⟨p, hp, hpn, hpe⟩ | h2
                · rcases List.mem_append.mp hp with h3 | h3
                  · exact Or.inl ⟨p, List.mem_cons_of_mem _ h3, hpn, hpe⟩
                  · rw [List.mem_singleton] at h3
                    subst h3
                    exact Or.inr (hpe ▸ List.mem_cons_self _ _)
                · exact Or.inr (List.mem_cons_of_mem _ h2)
              · rw [if_neg hn] at hq
                simp only [Option.some.injEq, Prod.mk.injEq] at hq
                obtain ⟨hl4, hr4⟩ := hq
                subst hl4; subst hr4
                have hw : written_of (call.enqueue n t, report.timer (timer_report.overflow n)) =
                    none := rfl
                rw [List.filterMap_cons_none hw]
                exact hi he
        | dequeue =>
          simp only [step, Option.some.injEq, Prod.mk.injEq] at hs
          obtain ⟨hl, hrep⟩ := hs
          subst hl; subst hrep
          have hw : written_of (call.dequeue, report.button (button_thread l).2) = none := rfl
          rw [List.filterMap_cons_none hw]
          have hrest : e ∈ tr3.filterMap dequeued_of →
              (∃ p ∈ l, IS_NULL p = false ∧ e = payload_of p) ∨
                e ∈ tr3.filterMap written_of := by
            intro he3
            rcases hi he3 with ⟨p, hp, hpn, hpe⟩ | h2
            · rcases button_thread_mem l p hp with h3 | h3
              · exact Or.inl ⟨p, h3, hpn, hpe⟩
              · rw [h3, IS_NULL_zero] at hpn; cases hpn
            · exact Or.inr h2
          cases hb : (button_thread l).2 with
          | not_exist =>
            have hd : dequeued_of (call.dequeue, report.button (button_thread l).2) = none := by
              rw [hb]; rfl
            rw [List.filterMap_cons_none hd] at he
            exact hrest he
          | element num tm =>
            have hd : dequeued_of (call.dequeue, report.button (button_thread l).2) =
                some (num, tm) := by
              rw [hb]; rfl
            rw [List.filterMap_cons_some hd] at he
            rcases List.mem_cons.mp he with h1 | h1
            · obtain ⟨p, hp, hpn, hpe⟩ := button_thread_element_mem l num tm hb
              exact Or.inl ⟨p, hp, hpn, by rw [h1]; exact hpe⟩
            · exact hrest h1

theorem button_reports_dequeued (tr : List (call × report)) (num : Int) (time : Option Int)
    (h : button_report.element num time ∈ button_reports tr) :
    (num, time) ∈ tr.filterMap dequeued_of := by
  induction tr with
  | nil => simp [button_reports] at h
  | cons e tr ih =>
    obtain ⟨c, r⟩ := e
    cases r with
    | timer r1 =>
      have hd : dequeued_of (c, report.timer r1) = none := by cases c <;> rfl
      rw [List.filterMap_cons_none hd]
      exact ih h
    | button r1 =>
      simp only [button_reports, List.mem_cons] at h
      cases r1 with
      | not_exist =>
        have hd : dequeued_of (c, report.button button_report.not_exist) = none := by
          cases c <;> rfl
        rw [List.filterMap_cons_none hd]
        rcases h with h1 | h1
        · cases h1
        · exact ih h1
      | element n t =>
        have hd : dequeued_of (c, report.button (button_report.element n t)) = some (n, t) := by
          cases c <;> rfl
        rw [List.filterMap_cons_some hd]
        rcases h with h1 | h1
        · simp only [button_report.element.injEq] at h1
          rw [h1.1, h1.2]; exact List.mem_cons_self _ _
        · exact List.mem_cons_of_mem _ (ih h1)

/-- In a sequential run, the ring before a written enqueue has an empty first entry: the
enqueue overwrites no pending item. -/
theorem run_written_target_empty (calls : List call) :
    ∀ (l l1 : List list_data) (tr : List (call × report)), run calls l = some (l1, tr) →
      ∀ (k : Nat) (c : call), tr[k]? = some (c, report.timer timer_report.initialized) →
        ∃ lk trk rest, run (calls.take k) l = some (lk, trk) ∧
          lk = { number := 0, time := 0 } :: rest := by
  induction calls with
  | nil =>
    intro l l1 tr h k c hk
    simp only [run, Option.some.injEq, Prod.mk.injEq] at h
    rw [← h.2] at hk
    simp at hk
  | cons a cs ih =>
    intro l l1 tr h k c hk
    simp only [run] at h
    cases hs : step a l with
    | none => simp [hs] at h
    | some q =>
      obtain ⟨l2, rep⟩ := q
      simp only [hs] at h
      cases hr : run cs l2 with
      | none => simp [hr] at h
      | some q2 =>
        obtain ⟨l3, tr3⟩ := q2
        simp only [hr, Option.some.injEq, Prod.mk.injEq] at h
        rw [← h.2] at hk
        cases k with
        | zero =>
          simp only [List.getElem?_cons_zero, Option.some.injEq, Prod.mk.injEq] at hk
          obtain ⟨hc, hrep⟩ := hk
          subst hc
          refine ⟨l, [], ?_⟩
          cases a with
          | dequeue =>
            simp only [step, Option.some.injEq, Prod.mk.injEq] at hs
            rw [← hs.2] at hrep
            cases hrep
          | enqueue n t =>
            simp only [step] at hs
            cases l with
            | nil => simp [timer_callback_locked] at hs
            | cons ptr rest =>
              simp only [timer_callback_locked] at hs
              by_cases hn : IS_NULL ptr = true
              · exact ⟨rest, rfl, by rw [(IS_NULL_iff ptr).mp hn]⟩
              · rw [if_neg hn] at hs
                simp only [Option.some.injEq, Prod.mk.injEq] at hs
                rw [← hs.2] at hrep
                cases hrep
        | succ k1 =>
          simp only [List.getElem?_cons_succ] at hk
          obtain ⟨lk, trk, rest, hrun, hlk⟩ := ih l2 l3 tr3 hr k1 c hk
          exact ⟨lk, (a, rep) :: trk, rest, by simp [run, hs, hrun], hlk⟩

/-! ## The invariant of the interleaved runs -/

theorem guard_inv_init : guard_inv guard_init := by
  refine ⟨by decide, by decide, [], [], init_list, rfl, trivial, trivial, fun _ => rfl, rfl, rfl⟩

theorem timer_reports_append (tr : List (call × report)) (c : call) (r : timer_report) :
    timer_reports (tr ++ [(c, report.timer r)]) = timer_reports tr ++ [r] ∧
    button_reports (tr ++ [(c, report.timer r)]) = button_reports tr := by
  induction tr with
  | nil => exact ⟨rfl, rfl⟩
  | cons e tr ih =>
    obtain ⟨c1, r1⟩ := e
    cases r1 with
    | timer r2 => simp [timer_reports, button_reports, ih.1, ih.2]
    | button r2 => simp [timer_reports, button_reports, ih.1, ih.2]

theorem button_reports_append (tr : List (call × report)) (c : call) (r : button_report) :
    timer_reports (tr ++ [(c, report.button r)]) = timer_reports tr ∧
    button_reports (tr ++ [(c, report.button r)]) = button_reports tr ++ [r] := by
  induction tr with
  | nil => exact ⟨rfl, rfl⟩
  | cons e tr ih =>
    obtain ⟨c1, r1⟩ := e
    cases r1 with
    | timer r2 => simp [timer_reports, button_reports, ih.1, ih.2]
    | button r2 => simp [timer_reports, button_reports, ih.1, ih.2]

theorem run_snoc (calls : List call) (c : call) (l base l1 : List list_data)
    (tr : List (call × report)) (r : report) (h : run calls l = some (base, tr))
    (hs : step c base = some (l1, r)) :
    run (calls ++ [c]) l = some (l1, tr ++ [(c, r)]) := by
  apply run_append calls [c] l base l1 tr [(c, r)] h
  simp [run, hs]

theorem scan_prefix_found (l : List list_data) (i : Nat) (p : list_data)
    (hpre : prefix_null l i) (hget : l[i]? = some p) (hp : IS_NULL p = false) :
    button_thread_scan l =
      { list := l.set i { number := 0, time := 0 }, num := p.number, time := some p.time } := by
  have hi : i < l.length := (List.getElem?_eq_some.mp hget).1
  have hpi : l[i] = p := (List.getElem?_eq_some.mp hget).2
  have hl : l = l.take i ++ p :: l.drop (i + 1) := by
    rw [← hpi, ← List.drop_eq_getElem_cons hi, List.take_append_drop]
  have hrep := all_null_eq_replicate (l.take i) hpre
  have hlen : (l.take i).length = i := by simp [Nat.min_eq_left (Nat.le_of_lt hi)]
  rw [hlen] at hrep
  have hset : l.set i { number := 0, time := 0 } =
      l.take i ++ { number := 0, time := 0 } :: l.drop (i + 1) := by
    conv_lhs => rw [hl]
    rw [List.set_append_right _ _ (by rw [hlen])]
    simp [hlen]
  rw [hset]
  conv_lhs => rw [hl]
  rw [hrep, scan_replicate_append, scan_cons_occupied p _ hp]

theorem scan_prefix_all (l : List list_data) (i : Nat) (hpre : prefix_null l i)
    (hget : l[i]? = none) :
    button_thread_scan l = { list := l, num := 0, time := none } := by
  have hi : l.length ≤ i := List.getElem?_eq_none_iff.mp hget
  apply scan_all_null
  intro p hp
  apply hpre
  rw [List.take_of_length_le hi]
  exact hp


theorem consumer_progress_outside (pc : consumer_pc) (h : consumer_in_section pc = false)
    (l base : List list_data) : consumer_progress pc l base := by
  cases pc <;> simp [consumer_in_section] at h <;> trivial

theorem producer_progress_outside (pc : producer_pc) (h : producer_in_section pc = false)
    (l : List list_data) (n : Int) (base : List list_data) : producer_progress pc l n base := by
  cases pc <;> simp [producer_in_section] at h <;> trivial

theorem guard_inv_press (u : Bool) (s s1 : guard_state) (e : guard_event) (hinv : guard_inv s)
    (h : guard_step u guard_action.press s = some (s1, e)) : guard_inv s1 := by
  obtain ⟨ring, cn, lock, cpc, ppc, clog, plog⟩ := s
  obtain ⟨hC, hP, calls, tr, base, hrun, hcp, hpp, hfree, hlp, hlc⟩ := hinv
  simp only [guard_step] at h
  split at h
  · rename_i hidle
    have hidle1 : cpc = consumer_pc.idle := hidle
    subst hidle1
    simp only [Option.some.injEq, Prod.mk.injEq] at h
    rw [← h.1]
    exact ⟨by simpa [consumer_in_section] using hC, hP, calls, tr, base, hrun, trivial, hpp,
      hfree, hlp, by simpa [pending_message] using hlc⟩
  · cases h

theorem guard_inv_fire (u : Bool) (t : Int) (s s1 : guard_state) (e : guard_event)
    (hinv : guard_inv s) (h : guard_step u (guard_action.fire t) s = some (s1, e)) :
    guard_inv s1 := by
  obtain ⟨ring, cn, lock, cpc, ppc, clog, plog⟩ := s
  obtain ⟨hC, hP, calls, tr, base, hrun, hcp, hpp, hfree, hlp, hlc⟩ := hinv
  simp only [guard_step] at h
  split at h
  · rename_i hidle
    have hidle1 : ppc = producer_pc.idle := hidle.1
    subst hidle1
    simp only [Option.some.injEq, Prod.mk.injEq] at h
    rw [← h.1]
    exact ⟨hC, by simpa [producer_in_section] using hP, calls, tr, base, hrun, hcp, trivial,
      hfree, hlp, hlc⟩
  · cases h


theorem prefix_null_succ (l : List list_data) (i : Nat) (p : list_data)
    (hpre : prefix_null l i) (hget : l[i]? = some p) (hp : IS_NULL p = true) :
    prefix_null l (i + 1) := by
  intro q hq
  have hi : i < l.length := (List.getElem?_eq_some.mp hget).1
  have hpi : l[i] = p := (List.getElem?_eq_some.mp hget).2
  rw [List.take_succ, hget] at hq
  rcases List.mem_append.mp hq with h1 | h1
  · exact hpre q h1
  · simp at h1; rw [h1]; exact hp

theorem guard_inv_consumer (s s1 : guard_state) (e : guard_event) (hinv : guard_inv s)
    (h : consumer_next s = some (s1, e)) : guard_inv s1 := by
  obtain ⟨ring, cn, lock, cpc, ppc, clog, plog⟩ := s
  obtain ⟨hC, hP, calls, tr, base, hrun, hcp, hpp, hfree, hlp, hlc⟩ := hinv
  simp only at hC hP hcp hpp hfree hlp hlc
  cases cpc with
  | idle => simp [consumer_next] at h
  | lock =>
    simp only [consumer_next] at h
    cases lock with
    | some c => simp at h
    | none =>
      simp only [Option.some.injEq, Prod.mk.injEq] at h
      rw [← h.1]
      have hpo : producer_in_section ppc = false := by
        cases hb : producer_in_section ppc with
        | false => rfl
        | true => exact absurd (hP.mp hb) (by simp)
      refine ⟨by simp [consumer_in_section], by simp [hpo], calls, tr, base, hrun, ?_,
        hpp, by simp, hlp, by simpa [pending_message] using hlc⟩
      exact ⟨hfree rfl, by intro p hp; simp at hp⟩
  | scan i =>
    have hlock : lock = some exec_context.consumer := hC.mp rfl
    obtain ⟨hring, hpre⟩ := hcp
    simp only [consumer_next] at h
    cases hget : ring[i]? with
    | none =>
      simp only [hget, Option.some.injEq, Prod.mk.injEq] at h
      rw [← h.1]
      refine ⟨by simp [consumer_in_section, hlock], hP, calls, tr, base, hrun, ?_, hpp,
        hfree, hlp, by simpa [pending_message] using hlc⟩
      show button_thread_scan base = _
      rw [← hring]
      exact scan_prefix_all ring i (hring ▸ hpre) hget
    | some ptr =>
      simp only [hget] at h
      by_cases hn : IS_NULL ptr = false
      · rw [if_pos hn] at h
        simp only [Option.some.injEq, Prod.mk.injEq] at h
        rw [← h.1]
        refine ⟨by simp [consumer_in_section, hlock], hP, calls, tr, base, hrun, ?_, hpp,
          hfree, hlp, by simpa [pending_message] using hlc⟩
        exact ⟨hring, hpre, ptr, hring ▸ hget, hn⟩
      · rw [if_neg hn] at h
        simp only [Option.some.injEq, Prod.mk.injEq] at h
        rw [← h.1]
        refine ⟨by simp [consumer_in_section, hlock], hP, calls, tr, base, hrun, ?_, hpp,
          hfree, hlp, by simpa [pending_message] using hlc⟩
        exact ⟨hring, prefix_null_succ base i ptr hpre (hring ▸ hget) (by simpa using hn)⟩
  | take_number i =>
    have hlock : lock = some exec_context.consumer := hC.mp rfl
    have hpo : producer_in_section ppc = false := by
      cases hb : producer_in_section ppc with
      | false => rfl
      | true => have := hP.mp hb; rw [hlock] at this; cases this
    obtain ⟨hring, hpre, p, hp, hpn⟩ := hcp
    simp only [consumer_next] at h
    rw [hring, hp] at h
    simp only [Option.some.injEq, Prod.mk.injEq] at h
    rw [← h.1]
    refine ⟨by simp [consumer_in_section, hlock], hP, calls, tr, base, hrun, ?_,
      producer_progress_outside ppc hpo _ _ _, by simp [hlock], hlp,
      by simpa [pending_message] using hlc⟩
    exact ⟨hpre, p, hp, hpn, rfl, rfl⟩
  | take_time i num =>
    have hlock : lock = some exec_context.consumer := hC.mp rfl
    have hpo : producer_in_section ppc = false := by
      cases hb : producer_in_section ppc with
      | false => rfl
      | true => have := hP.mp hb; rw [hlock] at this; cases this
    obtain ⟨hpre, p, hp, hpn, hnum, hring⟩ := hcp
    have hi : i < base.length := (List.getElem?_eq_some.mp hp).1
    have hget : ring[i]? = some { p with number := 0 } := by
      rw [hring, List.getElem?_set_self hi]
    simp only [consumer_next] at h
    rw [hget] at h
    simp only [Option.some.injEq, Prod.mk.injEq] at h
    rw [← h.1]
    refine ⟨by simp [consumer_in_section, hlock], hP, calls, tr, base, hrun, ?_,
      producer_progress_outside ppc hpo _ _ _, by simp [hlock], hlp,
      by simpa [pending_message] using hlc⟩
    show button_thread_scan base = _
    rw [scan_prefix_found base i p hpre hp hpn, hring, hnum, List.set_set]
  | unlock num time =>
    have hlock : lock = some exec_context.consumer := hC.mp rfl
    have hpo : producer_in_section ppc = false := by
      cases hb : producer_in_section ppc with
      | false => rfl
      | true => have := hP.mp hb; rw [hlock] at this; cases this
    simp only [consumer_next, Option.some.injEq, Prod.mk.injEq] at h
    rw [← h.1]
    have hstep : step call.dequeue base =
        some (ring, report.button (button_message num time)) := by
      have hcp1 : button_thread_scan base = { list := ring, num := num, time := time } := hcp
      simp [step, button_thread, hcp1, button_message]
    have hrun1 := run_snoc calls call.dequeue init_list base ring tr _ hrun hstep
    refine ⟨by simp [consumer_in_section], by simp [hpo], calls ++ [call.dequeue], _, ring,
      hrun1, trivial, producer_progress_outside ppc hpo _ _ _, fun _ => rfl, ?_, ?_⟩
    · rw [(button_reports_append tr _ _).1]; exact hlp
    · rw [(button_reports_append tr _ _).2, hlc]
      simp [pending_message]
  | print num time =>
    simp only [consumer_next, Option.some.injEq, Prod.mk.injEq] at h
    rw [← h.1]
    exact ⟨by simpa [consumer_in_section] using hC, hP, calls, tr, base, hrun, trivial, hpp,
      hfree, hlp, by simpa [pending_message] using hlc⟩


theorem guard_inv_producer (s s1 : guard_state) (e : guard_event) (hinv : guard_inv s)
    (h : producer_next s = some (s1, e)) : guard_inv s1 := by
  obtain ⟨ring, cn, lock, cpc, ppc, clog, plog⟩ := s
  obtain ⟨hC, hP, calls, tr, base, hrun, hcp, hpp, hfree, hlp, hlc⟩ := hinv
  simp only at hC hP hcp hpp hfree hlp hlc
  have hco : ∀ c, lock = some exec_context.producer → cpc = c →
      consumer_in_section cpc = false := by
    intro c hl _
    cases hb : consumer_in_section cpc with
    | false => rfl
    | true => have := hC.mp hb; rw [hl] at this; cases this
  cases ppc with
  | idle => simp [producer_next] at h
  | lock t =>
    simp only [producer_next] at h
    cases lock with
    | some c => simp at h
    | none =>
      simp only [Option.some.injEq, Prod.mk.injEq] at h
      rw [← h.1]
      have hci : consumer_in_section cpc = false := by
        cases hb : consumer_in_section cpc with
        | false => rfl
        | true => exact absurd (hC.mp hb) (by simp)
      exact ⟨by simp [hci], by simp [producer_in_section], calls, tr, base, hrun, hcp,
        hfree rfl, by simp, hlp, hlc⟩
  | test t =>
    have hlock : lock = some exec_context.producer := hP.mp rfl
    have hring : ring = base := hpp
    simp only [producer_next] at h
    cases ring with
    | nil => simp at h
    | cons ptr rest =>
      simp only at h
      by_cases hn : IS_NULL ptr = true
      · rw [if_pos hn] at h
        simp only [Option.some.injEq, Prod.mk.injEq] at h
        rw [← h.1]
        refine ⟨hC, by simp [producer_in_section, hlock], calls, tr, base, hrun, hcp, ?_,
          hfree, hlp, hlc⟩
        exact ⟨hring, rest, by rw [← hring, (IS_NULL_iff ptr).mp hn]⟩
      · rw [if_neg hn] at h
        simp only [Option.some.injEq, Prod.mk.injEq] at h
        rw [← h.1]
        refine ⟨hC, by simp [producer_in_section, hlock], calls, tr, base, hrun, hcp, ?_,
          hfree, hlp, hlc⟩
        refine ⟨t, ?_⟩
        rw [← hring]
        exact timer_callback_locked_occupied cn t ptr rest (by simpa using hn)
  | write_number t =>
    have hlock : lock = some exec_context.producer := hP.mp rfl
    have hci := hco cpc hlock rfl
    obtain ⟨hring, rest, hbase⟩ := hpp
    simp only [producer_next] at h
    rw [hring, hbase] at h
    simp only [Option.some.injEq, Prod.mk.injEq] at h
    rw [← h.1]
    exact ⟨hC, by simp [producer_in_section, hlock], calls, tr, base, hrun,
      consumer_progress_outside cpc hci _ _, ⟨rest, hbase, rfl⟩, by simp [hlock], hlp, hlc⟩
  | write_time t =>
    have hlock : lock = some exec_context.producer := hP.mp rfl
    have hci := hco cpc hlock rfl
    obtain ⟨rest, hbase, hring⟩ := hpp
    simp only [producer_next] at h
    rw [hring] at h
    simp only [Option.some.injEq, Prod.mk.injEq] at h
    rw [← h.1]
    exact ⟨hC, by simp [producer_in_section, hlock], calls, tr, base, hrun,
      consumer_progress_outside cpc hci _ _, ⟨rest, hbase, rfl⟩, by simp [hlock], hlp, hlc⟩
  | rotate t =>
    have hlock : lock = some exec_context.producer := hP.mp rfl
    have hci := hco cpc hlock rfl
    obtain ⟨rest, hbase, hring⟩ := hpp
    simp only [producer_next, Option.some.injEq, Prod.mk.injEq] at h
    rw [← h.1]
    refine ⟨hC, by simp [producer_in_section, hlock], calls, tr, base, hrun,
      consumer_progress_outside cpc hci _ _, ⟨t, ?_⟩, by simp [hlock], hlp, hlc⟩
    rw [hbase, hring]
    simp [timer_callback_locked, IS_NULL_zero]
  | unlock rep =>
    have hlock : lock = some exec_context.producer := hP.mp rfl
    have hci := hco cpc hlock rfl
    obtain ⟨t, htcl⟩ := hpp
    simp only [producer_next, Option.some.injEq, Prod.mk.injEq] at h
    rw [← h.1]
    have hstep : step (call.enqueue cn t) base = some (ring, report.timer rep) := by
      simp [step, htcl]
    have hrun1 := run_snoc calls (call.enqueue cn t) init_list base ring tr _ hrun hstep
    refine ⟨by simp [hci], by simp [producer_in_section], calls ++ [call.enqueue cn t], _,
      ring, hrun1, consumer_progress_outside cpc hci _ _, trivial, fun _ => rfl, ?_, ?_⟩
    · rw [(timer_reports_append tr _ _).1, hlp]
    · rw [(timer_reports_append tr _ _).2]; exact hlc

theorem guard_inv_step (u : Bool) (a : guard_action) (s s1 : guard_state) (e : guard_event)
    (hinv : guard_inv s) (h : guard_step u a s = some (s1, e)) : guard_inv s1 := by
  cases a with
  | press => exact guard_inv_press u s s1 e hinv h
  | fire t => exact guard_inv_fire u t s s1 e hinv h
  | consumer_step =>
    simp only [guard_step] at h
    split at h
    · cases h
    · exact guard_inv_consumer s s1 e hinv h
  | producer_step => exact guard_inv_producer s s1 e hinv h

theorem guard_inv_run (u : Bool) (acts : List guard_action) :
    ∀ (s s1 : guard_state) (es : List guard_event), guard_inv s →
      guard_run u acts s = some (s1, es) → guard_inv s1 := by
  induction acts with
  | nil =>
    intro s s1 es hinv h
    simp only [guard_run, Option.some.injEq, Prod.mk.injEq] at h
    rw [← h.1]; exact hinv
  | cons a as ih =>
    intro s s1 es hinv h
    simp only [guard_run] at h
    cases hs : guard_step u a s with
    | none => simp [hs] at h
    | some q =>
      obtain ⟨s2, e⟩ := q
      simp only [hs] at h
      cases hr : guard_run u as s2 with
      | none => simp [hr] at h
      | some q2 =>
        obtain ⟨s3, es3⟩ := q2
        simp only [hr, Option.some.injEq, Prod.mk.injEq] at h
        rw [← h.1]
        exact ih s2 s3 es3 (guard_inv_step u a s s2 e hinv hs) hr

/-! ## Progress, bracketing and completion of the interleaved runs -/

theorem guard_run_cons_none (u : Bool) (a : guard_action) (as : List guard_action)
    (s : guard_state) (h : guard_step u a s = none) : guard_run u (a :: as) s = none := by
  simp [guard_run, h]

theorem run_function_length (calls : List call) (base : List list_data)
    (tr : List (call × report)) (h : run calls init_list = some (base, tr)) :
    base.length = 5 := by
  obtain ⟨l1, tr1, h1, hlen, _⟩ := run_total calls init_list (by decide)
  rw [h1] at h
  simp only [Option.some.injEq, Prod.mk.injEq] at h
  rw [← h.1, hlen]
  rfl

/-- On separate execution units some action is possible in every reachable state. -/
theorem guard_progress_separate (s : guard_state) (hinv : guard_inv s) :
    ∃ a, (guard_step false a s).isSome = true := by
  obtain ⟨ring, cn, lock, cpc, ppc, clog, plog⟩ := s
  obtain ⟨hC, hP, calls, tr, base, hrun, hcp, hpp, hfree, hlp, hlc⟩ := hinv
  simp only at hC hP hcp hpp hfree hlp hlc
  have hlen := run_function_length calls base tr hrun
  cases cpc with
  | idle => exact ⟨guard_action.press, rfl⟩
  | scan i =>
    refine ⟨guard_action.consumer_step, ?_⟩
    simp only [guard_step, consumer_next]
    cases ring[i]? with
    | none => rfl
    | some ptr => by_cases hn : IS_NULL ptr = false <;> simp [hn]
  | take_number i =>
    obtain ⟨hring, _, p, hp, _⟩ := hcp
    refine ⟨guard_action.consumer_step, ?_⟩
    simp [guard_step, consumer_next, hring, hp]
  | take_time i num =>
    obtain ⟨_, p, hp, _, _, hring⟩ := hcp
    have hi : i < base.length := (List.getElem?_eq_some.mp hp).1
    refine ⟨guard_action.consumer_step, ?_⟩
    simp [guard_step, consumer_next, hring, List.getElem?_set_self hi]
  | unlock num time => exact ⟨guard_action.consumer_step, rfl⟩
  | print num time => exact ⟨guard_action.consumer_step, rfl⟩
  | lock =>
    cases ppc with
    | idle => exact ⟨guard_action.fire 0, rfl⟩
    | lock t =>
      have hl : lock = none := by
        cases lock with
        | none => rfl
        | some c =>
          cases c with
          | consumer => have := hC.mpr rfl; simp [consumer_in_section] at this
          | producer => have := hP.mpr rfl; simp [producer_in_section] at this
      exact ⟨guard_action.consumer_step, by simp [guard_step, consumer_next, hl]⟩
    | test t =>
      have hring : ring = base := hpp
      refine ⟨guard_action.producer_step, ?_⟩
      cases ring with
      | nil => rw [← hring] at hlen; simp at hlen
      | cons ptr rest =>
        simp only [guard_step, producer_next]
        by_cases hn : IS_NULL ptr = true <;> simp [hn]
    | write_number t =>
      obtain ⟨hring, rest, hbase⟩ := hpp
      exact ⟨guard_action.producer_step, by simp [guard_step, producer_next, hring, hbase]⟩
    | write_time t =>
      obtain ⟨rest, _, hring⟩ := hpp
      exact ⟨guard_action.producer_step, by simp [guard_step, producer_next, hring]⟩
    | rotate t => exact ⟨guard_action.producer_step, rfl⟩
    | unlock rep => exact ⟨guard_action.producer_step, rfl⟩

theorem consumer_next_bracket (s s1 : guard_state) (e : guard_event)
    (h : consumer_next s = some (s1, e)) :
    bracket_next exec_context.consumer (consumer_phase s.consumer) e =
        some (consumer_phase s1.consumer) ∧
    bracket_next exec_context.producer (producer_phase s.producer) e =
        some (producer_phase s1.producer) := by
  obtain ⟨ring, cn, lock, cpc, ppc, clog, plog⟩ := s
  cases cpc with
  | idle => simp [consumer_next] at h
  | lock =>
    simp only [consumer_next] at h
    cases lock with
    | some c => simp at h
    | none =>
      simp only [Option.some.injEq, Prod.mk.injEq] at h
      rw [← h.1, ← h.2]
      exact ⟨rfl, rfl⟩
  | scan i =>
    simp only [consumer_next] at h
    cases hget : ring[i]? with
    | none =>
      simp only [hget, Option.some.injEq, Prod.mk.injEq] at h
      rw [← h.1, ← h.2]
      exact ⟨rfl, rfl⟩
    | some ptr =>
      simp only [hget] at h
      by_cases hn : IS_NULL ptr = false
      · rw [if_pos hn] at h
        simp only [Option.some.injEq, Prod.mk.injEq] at h
        rw [← h.1, ← h.2]
        exact ⟨rfl, rfl⟩
      · rw [if_neg hn] at h
        simp only [Option.some.injEq, Prod.mk.injEq] at h
        rw [← h.1, ← h.2]
        exact ⟨rfl, rfl⟩
  | take_number i =>
    simp only [consumer_next] at h
    cases hget : ring[i]? with
    | none => simp [hget] at h
    | some ptr =>
      simp only [hget, Option.some.injEq, Prod.mk.injEq] at h
      rw [← h.1, ← h.2]
      exact ⟨rfl, rfl⟩
  | take_time i num =>
    simp only [consumer_next] at h
    cases hget : ring[i]? with
    | none => simp [hget] at h
    | some ptr =>
      simp only [hget, Option.some.injEq, Prod.mk.injEq] at h
      rw [← h.1, ← h.2]
      exact ⟨rfl, rfl⟩
  | unlock num time =>
    simp only [consumer_next, Option.some.injEq, Prod.mk.injEq] at h
    rw [← h.1, ← h.2]
    exact ⟨rfl, rfl⟩
  | print num time =>
    simp only [consumer_next, Option.some.injEq, Prod.mk.injEq] at h
    rw [← h.1, ← h.2]
    exact ⟨rfl, rfl⟩

theorem producer_next_bracket (s s1 : guard_state) (e : guard_event)
    (h : producer_next s = some (s1, e)) :
    bracket_next exec_context.consumer (consumer_phase s.consumer) e =
        some (consumer_phase s1.consumer) ∧
    bracket_next exec_context.producer (producer_phase s.producer) e =
        some (producer_phase s1.producer) := by
  obtain ⟨ring, cn, lock, cpc, ppc, clog, plog⟩ := s
  cases ppc with
  | idle => simp [producer_next] at h
  | lock t =>
    simp only [producer_next] at h
    cases lock with
    | some c => simp at h
    | none =>
      simp only [Option.some.injEq, Prod.mk.injEq] at h
      rw [← h.1, ← h.2]
      exact ⟨rfl, rfl⟩
  | test t =>
    simp only [producer_next] at h
    cases ring with
    | nil => simp at h
    | cons ptr rest =>
      simp only at h
      by_cases hn : IS_NULL ptr = true
      · rw [if_pos hn] at h
        simp only [Option.some.injEq, Prod.mk.injEq] at h
        rw [← h.1, ← h.2]
        exact ⟨rfl, rfl⟩
      · rw [if_neg hn] at h
        simp only [Option.some.injEq, Prod.mk.injEq] at h
        rw [← h.1, ← h.2]
        exact ⟨rfl, rfl⟩
  | write_number t =>
    simp only [producer_next] at h
    cases ring with
    | nil => simp at h
    | cons ptr rest =>
      simp only [Option.some.injEq, Prod.mk.injEq] at h
      rw [← h.1, ← h.2]
      exact ⟨rfl, rfl⟩
  | write_time t =>
    simp only [producer_next] at h
    cases ring with
    | nil => simp at h
    | cons ptr rest =>
      simp only [Option.some.injEq, Prod.mk.injEq] at h
      rw [← h.1, ← h.2]
      exact ⟨rfl, rfl⟩
  | rotate t =>
    simp only [producer_next, Option.some.injEq, Prod.mk.injEq] at h
    rw [← h.1, ← h.2]
    exact ⟨rfl, rfl⟩
  | unlock rep =>
    simp only [producer_next, Option.some.injEq, Prod.mk.injEq] at h
    rw [← h.1, ← h.2]
    exact ⟨rfl, rfl⟩

theorem guard_step_bracket (u : Bool) (a : guard_action) (s s1 : guard_state)
    (e : guard_event) (h : guard_step u a s = some (s1, e)) :
    bracket_next exec_context.consumer (consumer_phase s.consumer) e =
        some (consumer_phase s1.consumer) ∧
    bracket_next exec_context.producer (producer_phase s.producer) e =
        some (producer_phase s1.producer) := by
  cases a with
  | press =>
    simp only [guard_step] at h
    split at h
    · rename_i hidle
      simp only [Option.some.injEq, Prod.mk.injEq] at h
      rw [← h.1, ← h.2]
      simp only [hidle]
      exact ⟨rfl, rfl⟩
    · cases h
  | fire t =>
    simp only [guard_step] at h
    split at h
    · rename_i hidle
      simp only [Option.some.injEq, Prod.mk.injEq] at h
      rw [← h.1, ← h.2]
      simp only [hidle.1]
      exact ⟨rfl, rfl⟩
    · cases h
  | consumer_step =>
    simp only [guard_step] at h
    split at h
    · cases h
    · exact consumer_next_bracket s s1 e h
  | producer_step => exact producer_next_bracket s s1 e h

theorem guard_run_bracket (u : Bool) (acts : List guard_action) :
    ∀ (s s1 : guard_state) (es : List guard_event), guard_run u acts s = some (s1, es) →
      bracket_run exec_context.consumer (consumer_phase s.consumer) es =
          some (consumer_phase s1.consumer) ∧
      bracket_run exec_context.producer (producer_phase s.producer) es =
          some (producer_phase s1.producer) := by
  induction acts with
  | nil =>
    intro s s1 es h
    simp only [guard_run, Option.some.injEq, Prod.mk.injEq] at h
    rw [← h.1, ← h.2]
    exact ⟨rfl, rfl⟩
  | cons a as ih =>
    intro s s1 es h
    simp only [guard_run] at h
    cases hs : guard_step u a s with
    | none => simp [hs] at h
    | some q =>
      obtain ⟨s2, e⟩ := q
      simp only [hs] at h
      cases hr : guard_run u as s2 with
      | none => simp [hr] at h
      | some q2 =>
        obtain ⟨s3, es3⟩ := q2
        simp only [hr, Option.some.injEq, Prod.mk.injEq] at h
        rw [← h.1, ← h.2]
        obtain ⟨h1, h2⟩ := guard_step_bracket u a s s2 e hs
        obtain ⟨h3, h4⟩ := ih s2 s3 es3 hr
        exact ⟨by simp [bracket_run, h1, h3], by simp [bracket_run, h2, h4]⟩

/-- Along an accepted event list the starts, acquires and releases of a context pair up. -/
theorem bracket_counts (c : exec_context) (es : List guard_event) :
    ∀ ph ph1 : guard_phase, bracket_run c ph es = some ph1 →
      es.count (guard_event.acquire c) + phase_is ph1 guard_phase.started =
        es.count (guard_event.start c) + phase_is ph guard_phase.started ∧
      es.count (guard_event.release c) + phase_is ph1 guard_phase.inside =
        es.count (guard_event.acquire c) + phase_is ph guard_phase.inside := by
  induction es with
  | nil =>
    intro ph ph1 h
    simp only [bracket_run, Option.some.injEq] at h
    rw [h]; simp
  | cons e es ih =>
    intro ph ph1 h
    simp only [bracket_run] at h
    cases hn : bracket_next c ph e with
    | none => simp [hn] at h
    | some ph2 =>
      simp only [hn] at h
      obtain ⟨h1, h2⟩ := ih ph2 ph1 h
      cases e with
      | start d =>
        by_cases hd : d = c
        · subst hd
          cases ph <;> simp [bracket_next] at hn
          subst hn
          simp [List.count_cons, phase_is] at h1 h2 ⊢
          omega
        · simp only [bracket_next, if_neg hd, Option.some.injEq] at hn
          subst hn
          simp [List.count_cons, hd] at h1 h2 ⊢
          exact ⟨h1, h2⟩
      | acquire d =>
        by_cases hd : d = c
        · subst hd
          cases ph <;> simp [bracket_next] at hn
          subst hn
          simp [List.count_cons, phase_is] at h1 h2 ⊢
          omega
        · simp only [bracket_next, if_neg hd, Option.some.injEq] at hn
          subst hn
          simp [List.count_cons, hd] at h1 h2 ⊢
          exact ⟨h1, h2⟩
      | access d =>
        by_cases hd : d = c
        · subst hd
          cases ph <;> simp [bracket_next] at hn
          subst hn
          simp [List.count_cons, phase_is] at h1 h2 ⊢
          omega
        · simp only [bracket_next, if_neg hd, Option.some.injEq] at hn
          subst hn
          simp [List.count_cons] at h1 h2 ⊢
          exact ⟨h1, h2⟩
      | release d =>
        by_cases hd : d = c
        · subst hd
          cases ph <;> simp [bracket_next] at hn
          subst hn
          simp [List.count_cons, phase_is] at h1 h2 ⊢
          omega
        · simp only [bracket_next, if_neg hd, Option.some.injEq] at hn
          subst hn
          simp [List.count_cons, hd] at h1 h2 ⊢
          exact ⟨h1, h2⟩
      | outside d =>
        by_cases hd : d = c
        · subst hd
          cases ph <;> simp [bracket_next] at hn <;>
            (subst hn; simp [List.count_cons, phase_is] at h1 h2 ⊢; omega)
        · simp only [bracket_next, if_neg hd, Option.some.injEq] at hn
          subst hn
          simp [List.count_cons] at h1 h2 ⊢
          exact ⟨h1, h2⟩

theorem guard_run_cons (u : Bool) (a : guard_action) (as : List guard_action)
    (s s1 s2 : guard_state) (e : guard_event) (es : List guard_event)
    (h1 : guard_step u a s = some (s1, e)) (h2 : guard_run u as s1 = some (s2, es)) :
    guard_run u (a :: as) s = some (s2, e :: es) := by
  simp [guard_run, h1, h2]

/-- Alone, `button_thread` goes from any point of its loop to its unlock, with the result
of `button_thread_scan`. -/
theorem consumer_scan_completes (u : Bool) (l : List list_data) (cn : Int)
    (clog : List button_report) (plog : List timer_report) (d : Nat) :
    ∀ i, l.length - i = d → prefix_null l i →
      ∃ n es, guard_run u (List.replicate n guard_action.consumer_step)
          { list_head := l, cur_num := cn, lock := some exec_context.consumer,
            consumer := consumer_pc.scan i, producer := producer_pc.idle,
            consumer_log := clog, producer_log := plog } =
        some ({ list_head := (button_thread_scan l).list, cur_num := cn,
                lock := some exec_context.consumer,
                consumer := consumer_pc.unlock (button_thread_scan l).num
                  (button_thread_scan l).time,
                producer := producer_pc.idle, consumer_log := clog, producer_log := plog },
          es) ∧
        es.count (guard_event.start exec_context.consumer) = 0 := by
  induction d with
  | zero =>
    intro i hd hpre
    have hget : l[i]? = none := List.getElem?_eq_none (by omega)
    refine ⟨1, [guard_event.outside exec_context.consumer], ?_, by decide⟩
    rw [scan_prefix_all l i hpre hget]
    simp [guard_run, guard_step, consumer_next, hget]
  | succ d ih =>
    intro i hd hpre
    have hi : i < l.length := by omega
    have hget : l[i]? = some l[i] := List.getElem?_eq_getElem hi
    by_cases hn : IS_NULL l[i] = false
    · refine ⟨3, [guard_event.access exec_context.consumer,
        guard_event.access exec_context.consumer, guard_event.access exec_context.consumer], ?_,
        by decide⟩
      rw [scan_prefix_found l i l[i] hpre hget hn]
      simp [guard_run, guard_step, consumer_next, hget, hn, List.getElem?_set_self hi]
    · have hn1 : IS_NULL l[i] = true := by simpa using hn
      obtain ⟨n, es, hrun, hcount⟩ :=
        ih (i + 1) (by omega) (prefix_null_succ l i l[i] hpre hget hn1)
      refine ⟨n + 1, guard_event.access exec_context.consumer :: es, ?_,
        by rw [List.count_cons_of_ne (by simp), hcount]⟩
      rw [List.replicate_succ]
      apply guard_run_cons u _ _ _ _ _ _ _ _ hrun
      simp [guard_step, consumer_next, hget, hn1]

theorem guard_run_append (u : Bool) (a b : List guard_action) :
    ∀ (s s1 s2 : guard_state) (es1 es2 : List guard_event),
      guard_run u a s = some (s1, es1) → guard_run u b s1 = some (s2, es2) →
      guard_run u (a ++ b) s = some (s2, es1 ++ es2) := by
  induction a with
  | nil =>
    intro s s1 s2 es1 es2 ha hb
    simp only [guard_run, Option.some.injEq, Prod.mk.injEq] at ha
    rw [ha.1, ← ha.2]
    simpa using hb
  | cons x xs ih =>
    intro s s1 s2 es1 es2 ha hb
    simp only [guard_run] at ha
    cases hs : guard_step u x s with
    | none => simp [hs] at ha
    | some q =>
      obtain ⟨s3, e⟩ := q
      simp only [hs] at ha
      cases hr : guard_run u xs s3 with
      | none => simp [hr] at ha
      | some q2 =>
        obtain ⟨s4, es4⟩ := q2
        simp only [hr, Option.some.injEq, Prod.mk.injEq] at ha
        rw [← ha.2, List.cons_append, List.cons_append]
        apply guard_run_cons u x _ s s3 s2 e _ hs
        exact ih s3 s1 s2 es4 es2 (by rw [hr, ha.1]) hb

/-- Alone, `button_thread` runs from its start to its end on every ring: the lock is free
again, the ring and the printed message are those of the function `button_thread`. -/
theorem consumer_path_completes (u : Bool) (l : List list_data) (cn : Int) :
    ∃ n es, guard_run u (guard_action.press :: List.replicate n guard_action.consumer_step)
        (quiescent l cn) =
      some ({ quiescent l cn with list_head := (button_thread l).1,
                                  consumer_log := [(button_thread l).2] }, es) ∧
      es.count (guard_event.start exec_context.consumer) = 1 := by
  obtain ⟨n, es, hscan, hcount⟩ := consumer_scan_completes u l cn [] [] l.length 0 (by omega)
    (by intro p hp; simp at hp)
  have htail : guard_run u (List.replicate 2 guard_action.consumer_step)
      { list_head := (button_thread_scan l).list, cur_num := cn,
        lock := some exec_context.consumer,
        consumer := consumer_pc.unlock (button_thread_scan l).num (button_thread_scan l).time,
        producer := producer_pc.idle, consumer_log := [], producer_log := [] } =
      some ({ quiescent l cn with list_head := (button_thread l).1,
                                  consumer_log := [(button_thread l).2] },
        [guard_event.release exec_context.consumer,
          guard_event.outside exec_context.consumer]) := by
    simp [guard_run, guard_step, consumer_next, quiescent, button_thread, button_message]
  have hmid := guard_run_append u _ _ _ _ _ _ _ hscan htail
  rw [← List.replicate_add] at hmid
  refine ⟨1 + (n + 2), guard_event.start exec_context.consumer ::
    guard_event.acquire exec_context.consumer ::
      (es ++ [guard_event.release exec_context.consumer,
        guard_event.outside exec_context.consumer]), ?_, ?_⟩
  swap
  · rw [List.count_cons_self, List.count_cons_of_ne (by simp), List.count_append, hcount]
    rfl
  rw [List.replicate_add, List.replicate_one, List.singleton_append]
  apply guard_run_cons u _ _ _ _ _ _ _ (by simp [guard_step, quiescent]; rfl)
  apply guard_run_cons u _ _ _ _ _ _ _ (by simp [guard_step, consumer_next]; rfl)
  exact hmid

/-- Alone, `timer_callback` runs from its start to its end on every ring with a first
entry: the lock is free again, the counter is incremented, the ring and the message are
those of `timer_callback_locked`. -/
theorem producer_path_completes (u : Bool) (l : List list_data) (hl : l ≠ []) (cn t : Int) :
    ∃ n es l1 rep, timer_callback_locked (int_wrap (cn + 1)) t l = some (l1, rep) ∧
      guard_run u (guard_action.fire t :: List.replicate n guard_action.producer_step)
          (quiescent l cn) =
        some ({ quiescent l cn with list_head := l1, cur_num := int_wrap (cn + 1),
                                    producer_log := [rep] }, es) ∧
      es.count (guard_event.start exec_context.producer) = 1 := by
  cases l with
  | nil => exact absurd rfl hl
  | cons ptr rest =>
    by_cases hn : IS_NULL ptr = true
    · have hz := (IS_NULL_iff ptr).mp hn
      subst hz
      refine ⟨6, [guard_event.start exec_context.producer,
        guard_event.acquire exec_context.producer, guard_event.access exec_context.producer,
        guard_event.access exec_context.producer, guard_event.access exec_context.producer,
        guard_event.access exec_context.producer, guard_event.release exec_context.producer],
        list_rotate_left ({ number := int_wrap (cn + 1), time := t } :: rest),
        timer_report.initialized, by simp [timer_callback_locked, IS_NULL_zero], ?_,
        by decide⟩
      simp [guard_run, guard_step, producer_next, quiescent, consumer_masks_interrupts,
        IS_NULL_zero, List.replicate]
    · refine ⟨3, [guard_event.start exec_context.producer,
        guard_event.acquire exec_context.producer, guard_event.access exec_context.producer,
        guard_event.release exec_context.producer], ptr :: rest,
        timer_report.overflow (int_wrap (cn + 1)), by simp [timer_callback_locked, hn], ?_,
        by decide⟩
      simp [guard_run, guard_step, producer_next, quiescent, consumer_masks_interrupts,
        hn, List.replicate]

/-! ## The claims on the Guard -/

/-- Claim C13 (Guard acquisition never deadlocks) fails on the code: `button_thread` takes
the lock with `spin_lock`, which leaves interrupts enabled, so on a shared execution unit
the timer can expire while the thread holds the lock. After `blocking_schedule` the thread
holds the lock, the callback waits at `spin_lock_irqsave` for the context it interrupted,
and no action is possible any more, now or later. -/
theorem guard_blocks_on_shared_unit :
    guard_run true blocking_schedule guard_init =
      some (blocked_state,
        [guard_event.start exec_context.consumer, guard_event.acquire exec_context.consumer,
          guard_event.start exec_context.producer]) ∧
    blocked_state.lock = some exec_context.consumer ∧
    blocked_state.producer = producer_pc.lock 7 ∧
    (∀ a, guard_step true a blocked_state = none) ∧
    (∀ a as, guard_run true (a :: as) blocked_state = none) := by
  have hstuck : ∀ a, guard_step true a blocked_state = none := by
    intro a
    cases a <;> rfl
  exact ⟨by decide, rfl, rfl, hstuck, fun a as => guard_run_cons_none true a as _ (hstuck a)⟩

/-- Claim C14 (mutual exclusion). In every state reached by an interleaving of the two
handlers on separate execution units, at most one handler is between its lock and its
unlock, and it is the one that holds the lock; the sections completed so far, in unlock
order, are a sequential run of enqueues and dequeues from the initial ring that ends in the
ring as the current lock holder found it; the messages printed are the reports of that
run; every item the Consumer printed is the number and time of one written enqueue of it
(no torn read); every written enqueue of it found the first entry empty, so it replaced no
pending item (no lost update); and some action is always possible. -/
theorem guard_mutual_exclusion (acts : List guard_action) (s : guard_state)
    (es : List guard_event) (h : guard_run false acts guard_init = some (s, es)) :
    ¬ (consumer_in_section s.consumer = true ∧ producer_in_section s.producer = true) ∧
    (consumer_in_section s.consumer = true ↔ s.lock = some exec_context.consumer) ∧
    (producer_in_section s.producer = true ↔ s.lock = some exec_context.producer) ∧
    (∃ calls tr base, run calls init_list = some (base, tr) ∧
      consumer_progress s.consumer s.list_head base ∧
      producer_progress s.producer s.list_head s.cur_num base ∧
      (s.lock = none → s.list_head = base) ∧
      s.producer_log = timer_reports tr ∧
      button_reports tr = s.consumer_log ++ pending_message s.consumer ∧
      (∀ num time, button_report.element num time ∈ s.consumer_log →
        (num, time) ∈ tr.filterMap written_of) ∧
      (∀ (k : Nat) (c : call), tr[k]? = some (c, report.timer timer_report.initialized) →
        ∃ lk trk rest, run (calls.take k) init_list = some (lk, trk) ∧
          lk = { number := 0, time := 0 } :: rest)) ∧
    (∃ a, (guard_step false a s).isSome = true) := by
  have hinv := guard_inv_run false acts guard_init s es guard_inv_init h
  have hprog := guard_progress_separate s hinv
  obtain ⟨hC, hP, calls, tr, base, hrun, hcp, hpp, hfree, hlp, hlc⟩ := hinv
  refine ⟨?_, hC, hP, ⟨calls, tr, base, hrun, hcp, hpp, hfree, hlp, hlc, ?_,
    run_written_target_empty calls init_list base tr hrun⟩, hprog⟩
  · intro hboth
    have h1 := hC.mp hboth.1
    have h2 := hP.mp hboth.2
    rw [h1] at h2
    cases h2
  · intro num time hmem
    have h1 : button_report.element num time ∈ button_reports tr := by
      rw [hlc]; exact List.mem_append_left _ hmem
    have h2 := button_reports_dequeued tr num time h1
    rcases run_dequeued_written calls init_list base tr hrun (num, time) h2 with
      ⟨p, hp, hpn, _⟩ | h3
    · rw [init_list_eq] at hp
      rw [List.eq_of_mem_replicate hp, IS_NULL_zero] at hpn
      cases hpn
    · exact h3

/-- Claim C19 (balanced Guard bracketing). Along every interleaved run from any state, the
events of each handler follow the discipline of `bracket_next`: after its start one
acquire, ring accesses only between an acquire and the following release, a release only
after an acquire. Run alone on any ring, `button_thread` and `timer_callback` each reach
their end with the results of the sequential functions, having acquired the lock once and
released it once. -/
theorem guard_bracketing (u : Bool) (acts : List guard_action) (s s1 : guard_state)
    (es : List guard_event) (h : guard_run u acts s = some (s1, es))
    (l : List list_data) (hl : l ≠ []) (cur_num cur_time : Int) :
    (bracket_run exec_context.consumer (consumer_phase s.consumer) es =
        some (consumer_phase s1.consumer) ∧
      bracket_run exec_context.producer (producer_phase s.producer) es =
        some (producer_phase s1.producer)) ∧
    (∃ n evs, guard_run u (guard_action.press :: List.replicate n guard_action.consumer_step)
        (quiescent l cur_num) =
        some ({ quiescent l cur_num with list_head := (button_thread l).1,
                                         consumer_log := [(button_thread l).2] }, evs) ∧
      bracket_run exec_context.consumer guard_phase.out evs = some guard_phase.out ∧
      evs.count (guard_event.acquire exec_context.consumer) = 1 ∧
      evs.count (guard_event.release exec_context.consumer) = 1) ∧
    (∃ n evs l1 rep,
      timer_callback_locked (int_wrap (cur_num + 1)) cur_time l = some (l1, rep) ∧
      guard_run u (guard_action.fire cur_time :: List.replicate n guard_action.producer_step)
        (quiescent l cur_num) =
        some ({ quiescent l cur_num with list_head := l1, cur_num := int_wrap (cur_num + 1),
                                         producer_log := [rep] }, evs) ∧
      bracket_run exec_context.producer guard_phase.out evs = some guard_phase.out ∧
      evs.count (guard_event.acquire exec_context.producer) = 1 ∧
      evs.count (guard_event.release exec_context.producer) = 1) := by
  refine ⟨guard_run_bracket u acts s s1 es h, ?_, ?_⟩
  · obtain ⟨n, evs, hrun, hstart⟩ := consumer_path_completes u l cur_num
    have hb := (guard_run_bracket u _ _ _ _ hrun).1
    have hb1 : bracket_run exec_context.consumer guard_phase.out evs = some guard_phase.out := hb
    obtain ⟨h1, h2⟩ := bracket_counts exec_context.consumer evs _ _ hb1
    simp only [phase_is] at h1 h2
    refine ⟨n, evs, hrun, hb1, ?_, ?_⟩
    · simp at h1; omega
    · simp at h1 h2; omega
  · obtain ⟨n, evs, l1, rep, htcl, hrun, hstart⟩ :=
      producer_path_completes u l hl cur_num cur_time
    have hb := (guard_run_bracket u _ _ _ _ hrun).2
    have hb1 : bracket_run exec_context.producer guard_phase.out evs = some guard_phase.out := hb
    obtain ⟨h1, h2⟩ := bracket_counts exec_context.producer evs _ _ hb1
    simp only [phase_is] at h1 h2
    refine ⟨n, evs, l1, rep, htcl, hrun, hb1, ?_, ?_⟩
    · simp at h1; omega
    · simp at h1 h2; omega

/-! ## Instances of the claims on setup, refinement and the Guard -/

/-- Instance of the theorem for C12 on the state after module start. -/
theorem rescheduling_gated_by_restart_witness :
    (init_state 32 250 1000).list_head ≠ [] ∧
    ∃ l rep s1,
      timer_callback_locked (int_wrap ((init_state 32 250 1000).cur_num + 1)) 5
        (init_state 32 250 1000).list_head = some (l, rep) ∧
      timer_callback 32 5 (expire_timer (init_state 32 250 1000)) = some (s1, rep) ∧
      s1.list_head = l ∧ s1.cur_num = int_wrap ((init_state 32 250 1000).cur_num + 1) ∧
      s1.restart = (init_state 32 250 1000).restart ∧
      s1.delay_in_jiffies = (init_state 32 250 1000).delay_in_jiffies ∧
      (s1.timer_expires ≠ none ↔ (init_state 32 250 1000).restart = true) ∧
      ((init_state 32 250 1000).restart = true →
        s1.start = ((init_state 32 250 1000).start +
          (init_state 32 250 1000).delay_in_jiffies) % 2 ^ 32 ∧
        s1.timer_expires = some (((init_state 32 250 1000).start +
          (init_state 32 250 1000).delay_in_jiffies) % 2 ^ 32)) ∧
      ((init_state 32 250 1000).restart = false →
        s1.start = (init_state 32 250 1000).start ∧ s1.timer_expires = none) :=
  ⟨by decide, rescheduling_gated_by_restart 32 5 (init_state 32 250 1000) (by decide)⟩

/-- Instance of the theorem for C14 on the first three steps of `blocking_schedule`, run
on separate execution units. -/
theorem guard_mutual_exclusion_witness :
    guard_run false blocking_schedule guard_init =
      some (blocked_state,
        blocking_events) ∧
    (¬ (consumer_in_section blocked_state.consumer = true ∧
        producer_in_section blocked_state.producer = true) ∧
      (consumer_in_section blocked_state.consumer = true ↔
        blocked_state.lock = some exec_context.consumer) ∧
      (producer_in_section blocked_state.producer = true ↔
        blocked_state.lock = some exec_context.producer) ∧
      (∃ calls tr base, run calls init_list = some (base, tr) ∧
        consumer_progress blocked_state.consumer blocked_state.list_head base ∧
        producer_progress blocked_state.producer blocked_state.list_head
          blocked_state.cur_num base ∧
        (blocked_state.lock = none → blocked_state.list_head = base) ∧
        blocked_state.producer_log = timer_reports tr ∧
        button_reports tr =
          blocked_state.consumer_log ++ pending_message blocked_state.consumer ∧
        (∀ num time, button_report.element num time ∈ blocked_state.consumer_log →
          (num, time) ∈ tr.filterMap written_of) ∧
        (∀ (k : Nat) (c : call), tr[k]? = some (c, report.timer timer_report.initialized) →
          ∃ lk trk rest, run (calls.take k) init_list = some (lk, trk) ∧
            lk = { number := 0, time := 0 } :: rest)) ∧
      (∃ a, (guard_step false a blocked_state).isSome = true)) :=
  ⟨by decide, guard_mutual_exclusion blocking_schedule blocked_state blocking_events (by decide)⟩

/-- Instance of the theorem for C15 on `sample_calls`. -/
theorem contiguity_invariant_witness :
    (enqueue_numbers sample_calls).Pairwise (fun a b => a < b) ∧
    (∀ n ∈ enqueue_numbers sample_calls, n ≠ 0) ∧
    ∃ l tr, run sample_calls init_list = some (l, tr) ∧
      ∃ k occ, l = List.replicate k { number := 0, time := 0 } ++ occ ∧
        l.length = NUM ∧
        (∀ p ∈ occ, IS_NULL p = false) ∧
        (occ.map list_data.number).Pairwise (fun a b => a < b) :=
  ⟨by decide, by decide, contiguity_invariant sample_calls (by decide) (by decide)⟩

/-- Instance of the theorem for C16 on the initial list and array with the payload
`(1, 10)`. -/
theorem list_refines_spec_ring_witness :
    ring_related init_list (spec_init NUM) ∧
    (∀ p ∈ init_list, IS_NULL p = false → p.number ≠ 0) ∧
    (1 : Int) ≠ 0 ∧
    ((∃ l1 rep, timer_callback_locked 1 10 init_list = some (l1, rep) ∧
        enqueue_matches rep (spec_enqueue 1 10 (spec_init NUM)).2 = true ∧
        ring_related l1 (spec_enqueue 1 10 (spec_init NUM)).1 ∧
        (∀ p ∈ l1, IS_NULL p = false → p.number ≠ 0)) ∧
      (dequeue_matches (button_thread init_list).2 (spec_dequeue (spec_init NUM)).2 = true ∧
        ring_related (button_thread init_list).1 (spec_dequeue (spec_init NUM)).1 ∧
        (∀ p ∈ (button_thread init_list).1, IS_NULL p = false → p.number ≠ 0))) :=
  ⟨init_related, by decide, by decide,
    list_refines_spec_ring init_list (spec_init NUM) init_related (by decide) 1 10 (by decide)⟩

/-- Instance of the theorem for C17 on the initial ring with the payload `(1, 10)`. -/
theorem payload_round_trip_witness :
    init_list ≠ [] ∧ (∀ p ∈ init_list, IS_NULL p = true) ∧ (1 : Int) ≠ 0 ∧
    ∃ l1, timer_callback_locked 1 10 init_list = some (l1, timer_report.initialized) ∧
      occupied_count l1 = 1 ∧
      button_thread l1 = (init_list, button_report.element 1 (some 10)) ∧
      occupied_count init_list = 0 :=
  ⟨by decide, by decide, by decide,
    payload_round_trip init_list (by decide) (by decide) 1 10 (by decide)⟩

/-- Instance of the theorem for C18 on `sample_ring` behind an empty first entry, followed
by `sample_calls`. -/
theorem sentinel_emptiness_witness :
    IS_NULL { number := 0, time := 0 } = true ∧
    ((∀ p : list_data, IS_NULL p = true ↔ (p.number = 0 ∧ p.time = 0)) ∧
      timer_callback_locked 0 0 ({ number := 0, time := 0 } :: sample_ring) =
        some (list_rotate_left ({ number := 0, time := 0 } :: sample_ring),
          timer_report.initialized) ∧
      occupied_count (list_rotate_left ({ number := 0, time := 0 } :: sample_ring)) =
        occupied_count ({ number := 0, time := 0 } :: sample_ring) ∧
      ∃ l1 tr, run sample_calls (list_rotate_left ({ number := 0, time := 0 } :: sample_ring)) =
          some (l1, tr) ∧
        tr.map Prod.fst = sample_calls ∧
        ∀ time, (0, time) ∉ tr.filterMap dequeued_of) :=
  ⟨by decide, sentinel_emptiness { number := 0, time := 0 } sample_ring (by decide) sample_calls⟩

/-- Instance of the theorem for C19 on the first three steps of `blocking_schedule` and on
the solo runs over `sample_ring`. -/
theorem guard_bracketing_witness :
    guard_run false blocking_schedule guard_init =
      some (blocked_state,
        blocking_events) ∧
    sample_ring ≠ [] ∧
    ((bracket_run exec_context.consumer (consumer_phase guard_init.consumer)
          blocking_events =
          some (consumer_phase blocked_state.consumer) ∧
        bracket_run exec_context.producer (producer_phase guard_init.producer)
          blocking_events =
          some (producer_phase blocked_state.producer)) ∧
      (∃ n evs, guard_run false
          (guard_action.press :: List.replicate n guard_action.consumer_step)
          (quiescent sample_ring 0) =
          some ({ quiescent sample_ring 0 with
                    list_head := (button_thread sample_ring).1,
                    consumer_log := [(button_thread sample_ring).2] }, evs) ∧
        bracket_run exec_context.consumer guard_phase.out evs = some guard_phase.out ∧
        evs.count (guard_event.acquire exec_context.consumer) = 1 ∧
        evs.count (guard_event.release exec_context.consumer) = 1) ∧
      (∃ n evs l1 rep,
        timer_callback_locked (int_wrap (0 + 1)) 7 sample_ring = some (l1, rep) ∧
        guard_run false (guard_action.fire 7 :: List.replicate n guard_action.producer_step)
          (quiescent sample_ring 0) =
          some ({ quiescent sample_ring 0 with list_head := l1, cur_num := int_wrap (0 + 1),
                                                producer_log := [rep] }, evs) ∧
        bracket_run exec_context.producer guard_phase.out evs = some guard_phase.out ∧
        evs.count (guard_event.acquire exec_context.producer) = 1 ∧
        evs.count (guard_event.release exec_context.producer) = 1)) :=
  ⟨by decide, by decide,
    guard_bracketing false blocking_schedule guard_init blocked_state blocking_events (by decide)
      sample_ring (by decide) 0 7⟩

end ConcurrencyModule
